import Mathlib

/-!
Block-processing core of the sharded node: transaction dispatcher,
intermediate-result aggregator, block validator, fork detector and
notarization tracker.

A shallow embedding of `process/transaction/process.go`,
`process/block/preprocess/intermediateResults.go` and the account lookup of
`process/smartContract/hooks/vmAccountsDB.go`, with the collaborators they
reach only through interfaces (ledger adapter, address converter, shard
coordinator, contract processor, marshalizer, hasher and store) kept as
parameters.
The block validator, the fork detector and the notarization tracker are
modelled from the specification and from their test files
(`process/block/baseProcess_test.go`, `process/sync/basicForkDetector_test.go`),
whose assertions are replayed on the model.

Conventions: a `[]byte` is a list of naturals, a `uint64`/`uint32` is a natural
with an explicit `% 2 ^ 64` where the source can wrap, a `*big.Int` is an `Int`,
a Go `error` result is an `Option ProcessError` (`none` is `nil`; the errors of
package sync are a `sync.Error`), and a result `(value, error)` is an
`Except ProcessError value`.
-/

namespace Elrond

/-- A byte slice. -/
abbrev Bytes := List Nat

/-- The sentinel errors of package `process` that the embedded code returns,
`ErrAccNotFound` of package `state`, which `AccountExists` tests for, and
`collaborator code` for an error value handed back by a collaborator (address
converter, ledger, marshalizer, contract processor, store). -/
inductive ProcessError where
  | ErrNilTransaction
  | ErrHigherNonceInTransaction
  | ErrLowerNonceInTransaction
  | ErrInsufficientFunds
  | ErrWrongTypeAssertion
  | ErrNilAddressContainer
  | ErrWrongTransaction
  | ErrNilMiniBlocks
  | ErrMiniBlockHashMismatch
  | ErrNilHeader
  | ErrNilBody
  | ErrLowerRoundInBlock
  | ErrWrongNonceInBlock
  | ErrRandSeedMismatch
  | ErrBlockHashDoesNotMatch
  | ErrNotarizedHdrsSliceIsNil
  | ErrShardIdMissmatch
  | ErrMissingTransaction
  | ErrAccNotFound
  | collaborator (code : Nat)
  deriving DecidableEq, Repr

/-- The constants of `process.TransactionType` (process/constants.go). -/
inductive TransactionType where
  | MoveBalance
  | SCDeployment
  | SCInvoking
  | InvalidTransaction
  deriving DecidableEq, Repr

/-- The fields of `transaction.Transaction` that the dispatcher reads. -/
structure Transaction where
  Nonce : Nat
  Value : Int
  RcvAddr : Bytes
  SndAddr : Bytes
  GasPrice : Nat
  GasLimit : Nat
  Data : Bytes
  deriving DecidableEq, Repr

/-- The `sharding.Coordinator` a processor is built with. `ComputeId` takes an
address container, which is identified with its bytes. -/
structure Coordinator where
  SelfId : Nat
  NumberOfShards : Nat
  ComputeId : Bytes → Nat

/-! ## The account ledger adapter -/

/-- An account object behind a `state.AccountHandler`: `isAccount` tells whether
its dynamic type is `*state.Account` (the type assertions of the dispatcher). -/
structure AccountHandler where
  isAccount : Bool
  Nonce : Nat
  Balance : Int
  deriving DecidableEq, Repr

/-- A journal entry: the mutated account, with the old and the new value. -/
inductive JournalEntry where
  | balance (adr : Bytes) (old new : Int)
  | nonce (adr : Bytes) (old new : Nat)
  deriving DecidableEq, Repr

/-- Modelled from the spec: the `state.AccountsAdapter` (package data/state is
not among the sources), a key-addressed balance/nonce store with a rollback
journal. `objects` is the account object kept under each address, and a
`*state.Account` pointer is identified with the address of its object, so two
pointers alias exactly when their addresses are equal. `getErr` and `saveErr`
are the errors, if any, with which the adapter answers a load and a journalled
write of the account under an address. -/
structure AccountsAdapter where
  objects : Bytes → AccountHandler
  getErr : Bytes → Option ProcessError
  saveErr : Bytes → Option ProcessError
  journal : List JournalEntry

/-- Modelled from the spec: `AccountsAdapter.GetAccountWithJournal`, the load of
the account under an address: the adapter's error, or the (non-nil) account. -/
def AccountsAdapter.GetAccountWithJournal (accounts : AccountsAdapter) (adr : Bytes) :
    Except ProcessError Bytes :=
  match accounts.getErr adr with
  | some e => .error e
  | none => .ok adr

/-- Modelled from the spec: `Account.SetBalanceWithJournal`. The mutation goes
through a journal entry holding the old and the new value; a refused write
returns the error and leaves the ledger as it was. -/
def AccountsAdapter.SetBalanceWithJournal (accounts : AccountsAdapter) (acnt : Bytes)
    (balance : Int) : AccountsAdapter × Option ProcessError :=
  match accounts.saveErr acnt with
  | some e => (accounts, some e)
  | none =>
    ({ accounts with
        objects := fun a =>
          if a = acnt then { accounts.objects acnt with Balance := balance }
          else accounts.objects a
        journal := .balance acnt (accounts.objects acnt).Balance balance :: accounts.journal },
      none)

/-- Modelled from the spec: `Account.SetNonceWithJournal`, as
`SetBalanceWithJournal` for the nonce. -/
def AccountsAdapter.SetNonceWithJournal (accounts : AccountsAdapter) (acnt : Bytes)
    (nonce : Nat) : AccountsAdapter × Option ProcessError :=
  match accounts.saveErr acnt with
  | some e => (accounts, some e)
  | none =>
    ({ accounts with
        objects := fun a =>
          if a = acnt then { accounts.objects acnt with Nonce := nonce }
          else accounts.objects a
        journal := .nonce acnt (accounts.objects acnt).Nonce nonce :: accounts.journal },
      none)

/-! ## The transaction dispatcher (process/transaction/process.go) -/

/-- The `process.SmartContractProcessor` collaborator. The two execution entry
points receive the account pointers (`none` is `nil`) and may change the ledger. -/
structure SmartContractProcessor where
  ComputeTransactionType : Transaction → Except ProcessError TransactionType
  DeploySmartContract :
    AccountsAdapter → Transaction → Option Bytes → Nat → AccountsAdapter × Option ProcessError
  ExecuteSmartContractTransaction :
    AccountsAdapter → Transaction → Option Bytes → Option Bytes → Nat →
      AccountsAdapter × Option ProcessError

/-- The `txProcessor` struct. `adrConv` is `CreateAddressFromPublicKeyBytes`: it
returns an error or a non-nil address container, identified with its bytes, so
the `ErrNilAddressContainer` guard of `getAccounts` cannot fire. -/
structure txProcessor where
  accounts : AccountsAdapter
  adrConv : Bytes → Except ProcessError Bytes
  scProcessor : SmartContractProcessor
  shardCoordinator : Coordinator

/-- The method `getAddresses`. -/
def txProcessor.getAddresses (txProc : txProcessor) (tx : Transaction) :
    Except ProcessError (Bytes × Bytes) :=
  match txProc.adrConv tx.SndAddr with
  | .error e => .error e
  | .ok adrSrc =>
    match txProc.adrConv tx.RcvAddr with
    | .error e => .error e
    | .ok adrDst => .ok (adrSrc, adrDst)

/-- The method `getAccountFromAddress`: `(nil, nil)` for an address of another shard. -/
def txProcessor.getAccountFromAddress (txProc : txProcessor) (adrSrc : Bytes) :
    Except ProcessError (Option Bytes) :=
  let shardForCurrentNode := txProc.shardCoordinator.SelfId
  let shardForSrc := txProc.shardCoordinator.ComputeId adrSrc
  if shardForCurrentNode ≠ shardForSrc then .ok none
  else
    match txProc.accounts.GetAccountWithJournal adrSrc with
    | .error e => .error e
    | .ok acnt => .ok (some acnt)

/-- The method `checkTxValues`: the nonce check, then the funds check against
`cost = gasPrice * gasLimit + value`, computed on big integers. -/
def txProcessor.checkTxValues (txProc : txProcessor) (tx : Transaction)
    (acntSnd : Option Bytes) : Option ProcessError :=
  match acntSnd with
  | none => none
  | some p =>
    let acnt := txProc.accounts.objects p
    if acnt.Nonce < tx.Nonce then some .ErrHigherNonceInTransaction
    else if acnt.Nonce > tx.Nonce then some .ErrLowerNonceInTransaction
    else
      let cost : Int := (tx.GasPrice : Int) * (tx.GasLimit : Int) + tx.Value
      if cost = 0 then none
      else if acnt.isAccount = false then some .ErrWrongTypeAssertion
      else if acnt.Balance < cost then some .ErrInsufficientFunds
      else none

/-- One load with the type assertion to `*state.Account`, as `getAccounts` does
it three times. -/
def txProcessor.loadAccount (txProc : txProcessor) (adr : Bytes) :
    Except ProcessError Bytes :=
  match txProc.accounts.GetAccountWithJournal adr with
  | .error e => .error e
  | .ok acntWrp =>
    if (txProc.accounts.objects acntWrp).isAccount = false then .error .ErrWrongTypeAssertion
    else .ok acntWrp

/-- The method `getAccounts`: the same account twice for equal addresses, else
each account only when its address is in the node's shard. -/
def txProcessor.getAccounts (txProc : txProcessor) (adrSrc adrDst : Bytes) :
    Except ProcessError (Option Bytes × Option Bytes) :=
  let shardForCurrentNode := txProc.shardCoordinator.SelfId
  let shardForSrc := txProc.shardCoordinator.ComputeId adrSrc
  let shardForDst := txProc.shardCoordinator.ComputeId adrDst
  let srcInShard : Bool := shardForSrc = shardForCurrentNode
  let dstInShard : Bool := shardForDst = shardForCurrentNode
  if adrSrc = adrDst then
    match txProc.loadAccount adrSrc with
    | .error e => .error e
    | .ok account => .ok (some account, some account)
  else
    match (if srcInShard then (txProc.loadAccount adrSrc).map some else .ok none) with
    | .error e => .error e
    | .ok acntSrc =>
      match (if dstInShard then (txProc.loadAccount adrDst).map some else .ok none) with
      | .error e => .error e
      | .ok acntDst => .ok (acntSrc, acntDst)

/-- The method `moveBalances`: debit the sender if present, then credit the
receiver if present; the second read sees the first write when both pointers
name one account. -/
def moveBalances (accounts : AccountsAdapter) (acntSrc acntDst : Option Bytes) (value : Int) :
    AccountsAdapter × Option ProcessError :=
  let afterSrc : AccountsAdapter × Option ProcessError :=
    match acntSrc with
    | some src => accounts.SetBalanceWithJournal src ((accounts.objects src).Balance - value)
    | none => (accounts, none)
  match afterSrc with
  | (accounts1, some err) => (accounts1, some err)
  | (accounts1, none) =>
    match acntDst with
    | some dst => accounts1.SetBalanceWithJournal dst ((accounts1.objects dst).Balance + value)
    | none => (accounts1, none)

/-- The method `increaseNonce`, on a `uint64`. -/
def increaseNonce (accounts : AccountsAdapter) (acntSrc : Bytes) :
    AccountsAdapter × Option ProcessError :=
  accounts.SetNonceWithJournal acntSrc (((accounts.objects acntSrc).Nonce + 1) % 2 ^ 64)

/-- The method `processMoveBalance`. -/
def txProcessor.processMoveBalance (txProc : txProcessor) (tx : Transaction)
    (adrSrc adrDst : Bytes) : AccountsAdapter × Option ProcessError :=
  match txProc.getAccounts adrSrc adrDst with
  | .error err => (txProc.accounts, some err)
  | .ok (acntSrc, acntDst) =>
    let value := tx.Value
    match moveBalances txProc.accounts acntSrc acntDst value with
    | (accounts1, some err) => (accounts1, some err)
    | (accounts1, none) =>
      match acntSrc with
      | some src => increaseNonce accounts1 src
      | none => (accounts1, none)

/-- The method `processSCDeployment`. -/
def txProcessor.processSCDeployment (txProc : txProcessor) (tx : Transaction)
    (adrSrc : Bytes) (roundIndex : Nat) : AccountsAdapter × Option ProcessError :=
  match txProc.getAccountFromAddress adrSrc with
  | .error err => (txProc.accounts, some err)
  | .ok acntSrc => txProc.scProcessor.DeploySmartContract txProc.accounts tx acntSrc roundIndex

/-- The method `processSCInvoking`. -/
def txProcessor.processSCInvoking (txProc : txProcessor) (tx : Transaction)
    (adrSrc adrDst : Bytes) (roundIndex : Nat) : AccountsAdapter × Option ProcessError :=
  match txProc.getAccounts adrSrc adrDst with
  | .error err => (txProc.accounts, some err)
  | .ok (acntSrc, acntDst) =>
    txProc.scProcessor.ExecuteSmartContractTransaction txProc.accounts tx acntSrc acntDst roundIndex

/-- The dispatch on the transaction type that ends `ProcessTransaction`. -/
def txProcessor.dispatch (txProc : txProcessor) (tx : Transaction) (adrSrc adrDst : Bytes)
    (roundIndex : Nat) (txType : TransactionType) : AccountsAdapter × Option ProcessError :=
  match txType with
  | .MoveBalance => txProc.processMoveBalance tx adrSrc adrDst
  | .SCDeployment => txProc.processSCDeployment tx adrSrc roundIndex
  | .SCInvoking => txProc.processSCInvoking tx adrSrc adrDst roundIndex
  | .InvalidTransaction => (txProc.accounts, some .ErrWrongTransaction)

/-- The method `ProcessTransaction`: the ledger after the call and the returned
error (`tx = none` is the nil transaction). -/
def txProcessor.ProcessTransaction (txProc : txProcessor) (tx : Option Transaction)
    (roundIndex : Nat) : AccountsAdapter × Option ProcessError :=
  match tx with
  | none => (txProc.accounts, some .ErrNilTransaction)
  | some tx =>
    match txProc.getAddresses tx with
    | .error err => (txProc.accounts, some err)
    | .ok (adrSrc, adrDst) =>
      match txProc.getAccountFromAddress adrSrc with
      | .error err => (txProc.accounts, some err)
      | .ok acntSnd =>
        match txProc.checkTxValues tx acntSnd with
        | some err => (txProc.accounts, some err)
        | none =>
          match txProc.scProcessor.ComputeTransactionType tx with
          | .error err => (txProc.accounts, some err)
          | .ok txType => txProc.dispatch tx adrSrc adrDst roundIndex txType

/-! ## Scenario data -/

/-- A ledger in which the account under address `[1]` holds balance 100 at nonce
7 and every other account is empty; no load or write fails. -/
def scenarioAccounts : AccountsAdapter :=
  { objects := fun a => if a = [1] then ⟨true, 7, 100⟩ else ⟨true, 0, 0⟩
    getErr := fun _ => none
    saveErr := fun _ => none
    journal := [] }

/-- A contract processor that classifies every transaction as a balance move. -/
def scenarioScProcessor : SmartContractProcessor :=
  { ComputeTransactionType := fun _ => .ok .MoveBalance
    DeploySmartContract := fun accounts _ _ _ => (accounts, none)
    ExecuteSmartContractTransaction := fun accounts _ _ _ _ => (accounts, none) }

/-- A node of shard 0 in which only address `[1]` (the sender) is local. -/
def scenarioSenderLocal : txProcessor :=
  { accounts := scenarioAccounts
    adrConv := fun pk => .ok pk
    scProcessor := scenarioScProcessor
    shardCoordinator := ⟨0, 2, fun a => if a = [1] then 0 else 1⟩ }

/-- A node of shard 0 in which only address `[2]` (the receiver) is local. -/
def scenarioReceiverLocal : txProcessor :=
  { accounts := scenarioAccounts
    adrConv := fun pk => .ok pk
    scProcessor := scenarioScProcessor
    shardCoordinator := ⟨0, 2, fun a => if a = [2] then 0 else 1⟩ }

/-- The transaction of the scenario: `[1]` sends 40 to `[2]` at nonce 7, with
`gasPrice * gasLimit = 1 * 10`. -/
def scenarioTx : Transaction :=
  { Nonce := 7, Value := 40, RcvAddr := [2], SndAddr := [1], GasPrice := 1, GasLimit := 10,
    Data := [] }

/-- The scenario's transaction asking for more than the sender holds. -/
def scenarioTxTooDear : Transaction :=
  { Nonce := 7, Value := 95, RcvAddr := [2], SndAddr := [1], GasPrice := 1, GasLimit := 10,
    Data := [] }

/-- The scenario's transaction at a nonce above the account's. -/
def scenarioTxHighNonce : Transaction :=
  { Nonce := 9, Value := 95, RcvAddr := [2], SndAddr := [1], GasPrice := 1, GasLimit := 10,
    Data := [] }

/-! ## The intermediate result aggregator
(process/block/preprocess/intermediateResults.go) -/

/-- The fields of `smartContractResult.SmartContractResult`. -/
structure SmartContractResult where
  Nonce : Nat
  Value : Int
  RcvAddr : Bytes
  SndAddr : Bytes
  Code : Bytes
  Data : Bytes
  TxHash : Bytes
  deriving DecidableEq, Repr

/-- A `data.TransactionHandler`: a `*smartContractResult.SmartContractResult`, or
a handler of another dynamic type (a plain transaction). -/
inductive TransactionHandler where
  | scr (r : SmartContractResult)
  | other (tx : Transaction)
  deriving DecidableEq, Repr

/-- The fields of `block.MiniBlock`; `Type_` is the field `Type`, a numeric `block.Type`. The zero
value `&block.MiniBlock{}` is `⟨[], 0, 0, 0⟩`. -/
structure MiniBlock where
  TxHashes : List Bytes
  ReceiverShardID : Nat
  SenderShardID : Nat
  Type_ : Nat
  deriving DecidableEq, Repr

/-- The struct `txShardInfo` of the package. -/
structure txShardInfo where
  senderShardID : Nat
  receiverShardID : Nat
  deriving DecidableEq, Repr

/-- The struct `txInfo` of the package, which embeds `*txShardInfo`; `tx` is a
pointer (`none` is `nil`). -/
structure txInfo extends txShardInfo where
  tx : Option SmartContractResult
  deriving DecidableEq, Repr

/-- The `marshal.Marshalizer` collaborator, per marshalled type. -/
structure Marshalizer where
  MarshalTx : TransactionHandler → Except ProcessError Bytes
  MarshalMiniBlock : MiniBlock → Except ProcessError Bytes

/-- The `hashing.Hasher` collaborator. -/
structure Hasher where
  Compute : Bytes → Bytes

/-- Modelled from the spec: `core.CalculateHash` (package core is not among the
sources), "marshal + hash": the marshalizer's error, or the hash of the encoding. -/
def CalculateHash {α : Type} (marshal : α → Except ProcessError Bytes) (hasher : Hasher)
    (object : α) : Except ProcessError Bytes :=
  match marshal object with
  | .error err => .error err
  | .ok buff => .ok (hasher.Compute buff)

/-- The struct `intermediateResultsProcessor`. The map `interResultsForBlock`
(keyed by hash) is an association list with one entry for each key. -/
structure intermediateResultsProcessor where
  hasher : Hasher
  marshalizer : Marshalizer
  shardCoordinator : Coordinator
  adrConv : Bytes → Except ProcessError Bytes
  blockType : Nat
  interResultsForBlock : List (Bytes × txInfo)

/-- Go's `m[key] = value` on the association list: the entry of `key`, if any,
is replaced. -/
def mapSet (m : List (Bytes × txInfo)) (key : Bytes) (value : txInfo) :
    List (Bytes × txInfo) :=
  m.filter (fun e => decide (e.1 ≠ key)) ++ [(key, value)]

/-- Go's `bytes.Compare`: -1, 0 or +1 by lexicographic order. -/
def bytesCompare : Bytes → Bytes → Int
  | [], [] => 0
  | [], _ :: _ => -1
  | _ :: _, [] => 1
  | a :: as, b :: bs =>
    if a < b then -1 else if b < a then 1 else bytesCompare as bs

/-- The order `sort.Slice` works with: `a` may stand before `b` when the less
function `bytes.Compare(b, a) < 0` does not put `b` before `a`. -/
def bytesLE (a b : Bytes) : Prop := ¬ bytesCompare b a < 0

instance : DecidableRel bytesLE := fun a b => by unfold bytesLE; infer_instance

/-- The call `sort.Slice(TxHashes, less)` with `less a b = bytes.Compare(a, b) < 0`.
The keys of a map are distinct, so `less` orders them strictly and totally and
every sorting algorithm produces the same slice; an insertion sort stands for it. -/
def sortTxHashes (txHashes : List Bytes) : List Bytes :=
  txHashes.insertionSort bytesLE

/-- The second loop of `CreateAllInterMiniBlocks`, over the entries in the order
in which `range` yields them: append each key to the mini-block of its receiver
shard, unless that is the node's shard. `none` is the run-time panic of
`miniBlocks[recvShId]` with the index out of range. -/
def groupByReceiver (selfId : Nat) :
    List (Bytes × txInfo) → List MiniBlock → Option (List MiniBlock)
  | [], miniBlocks => some miniBlocks
  | (key, value) :: rest, miniBlocks =>
    let recvShId := value.receiverShardID
    if recvShId ≠ selfId then
      match miniBlocks[recvShId]? with
      | none => none
      | some mb =>
        groupByReceiver selfId rest
          (miniBlocks.set recvShId { mb with TxHashes := mb.TxHashes ++ [key] })
    else groupByReceiver selfId rest miniBlocks

/-- The third loop of `CreateAllInterMiniBlocks`, from index `i` on: every
non-empty mini-block is stamped, sorted and entered into the result map under
its index. The map is the list of its entries by ascending key. -/
def finalMiniBlocks (selfId blockType : Nat) : Nat → List MiniBlock → List (Nat × MiniBlock)
  | _, [] => []
  | i, mb :: rest =>
    if mb.TxHashes.length > 0 then
      (i, { TxHashes := sortTxHashes mb.TxHashes, ReceiverShardID := i,
            SenderShardID := selfId, Type_ := blockType }) ::
        finalMiniBlocks selfId blockType (i + 1) rest
    else finalMiniBlocks selfId blockType (i + 1) rest

/-- The method `CreateAllInterMiniBlocks`. Go leaves the order in which `range`
visits a map unspecified: `visit` is the sequence of the map's entries as this
call's `range` yields them. `NumberOfShards` is a `uint32`, so `uint32(i) = i`. -/
def intermediateResultsProcessor.CreateAllInterMiniBlocks (irp : intermediateResultsProcessor)
    (visit : List (Bytes × txInfo)) : Option (List (Nat × MiniBlock)) :=
  let miniBlocks : List MiniBlock :=
    List.replicate irp.shardCoordinator.NumberOfShards ⟨[], 0, 0, 0⟩
  match groupByReceiver irp.shardCoordinator.SelfId visit miniBlocks with
  | none => none
  | some miniBlocks =>
    some (finalMiniBlocks irp.shardCoordinator.SelfId irp.blockType 0 miniBlocks)

/-- The loop of `VerifyInterMiniBlocks` over the body, given the created map. -/
def intermediateResultsProcessor.verifyBody (irp : intermediateResultsProcessor)
    (scrMbs : List (Nat × MiniBlock)) : List MiniBlock → Option ProcessError
  | [] => none
  | mb :: rest =>
    if mb.Type_ ≠ irp.blockType then irp.verifyBody scrMbs rest
    else if mb.ReceiverShardID = irp.shardCoordinator.SelfId then irp.verifyBody scrMbs rest
    else
      match scrMbs.lookup mb.ReceiverShardID with
      | none => some .ErrNilMiniBlocks
      | some createdScrMb =>
        match CalculateHash irp.marshalizer.MarshalMiniBlock irp.hasher createdScrMb with
        | .error err => some err
        | .ok createdHash =>
          match CalculateHash irp.marshalizer.MarshalMiniBlock irp.hasher mb with
          | .error err => some err
          | .ok receivedHash =>
            if createdHash ≠ receivedHash then some .ErrMiniBlockHashMismatch
            else irp.verifyBody scrMbs rest

/-- The method `VerifyInterMiniBlocks`; the outer `none` is the panic of
`CreateAllInterMiniBlocks`. -/
def intermediateResultsProcessor.VerifyInterMiniBlocks (irp : intermediateResultsProcessor)
    (visit : List (Bytes × txInfo)) (body : List MiniBlock) : Option (Option ProcessError) :=
  match irp.CreateAllInterMiniBlocks visit with
  | none => none
  | some scrMbs => some (irp.verifyBody scrMbs body)

/-- The method `getShardIdsFromAddresses`. -/
def intermediateResultsProcessor.getShardIdsFromAddresses (irp : intermediateResultsProcessor)
    (sndAddr rcvAddr : Bytes) : Nat × Nat × Option ProcessError :=
  match irp.adrConv sndAddr with
  | .error err =>
    (irp.shardCoordinator.NumberOfShards, irp.shardCoordinator.NumberOfShards, some err)
  | .ok adrSrc =>
    match irp.adrConv rcvAddr with
    | .error err =>
      (irp.shardCoordinator.NumberOfShards, irp.shardCoordinator.NumberOfShards, some err)
    | .ok adrDst =>
      (irp.shardCoordinator.ComputeId adrSrc, irp.shardCoordinator.ComputeId adrDst, none)

/-- The method `AddIntermediateTransactions`: the processor after the call and
the returned error. The elements before the first failing one stay filed. -/
def intermediateResultsProcessor.AddIntermediateTransactions :
    intermediateResultsProcessor → List TransactionHandler →
      intermediateResultsProcessor × Option ProcessError
  | irp, [] => (irp, none)
  | irp, tx :: rest =>
    match tx with
    | .other _ => (irp, some .ErrWrongTypeAssertion)
    | .scr addScr =>
      match CalculateHash irp.marshalizer.MarshalTx irp.hasher tx with
      | .error err => (irp, some err)
      | .ok scrHash =>
        match irp.getShardIdsFromAddresses addScr.SndAddr addScr.RcvAddr with
        | (_, _, some err) => (irp, some err)
        | (sndShId, dstShId, none) =>
          let addScrShardInfo : txShardInfo :=
            { receiverShardID := dstShId, senderShardID := sndShId }
          let scrInfo : txInfo := { addScrShardInfo with tx := some addScr }
          AddIntermediateTransactions
            { irp with interResultsForBlock := mapSet irp.interResultsForBlock scrHash scrInfo }
            rest

/-- The method `CreateBlockStarted`: a fresh, empty map. -/
def intermediateResultsProcessor.CreateBlockStarted (irp : intermediateResultsProcessor) :
    intermediateResultsProcessor :=
  { irp with interResultsForBlock := [] }

/-- Successive calls of `AddIntermediateTransactions`, one for each batch, up to
the first call that returns an error. -/
def intermediateResultsProcessor.addBatches :
    intermediateResultsProcessor → List (List TransactionHandler) →
      intermediateResultsProcessor × Option ProcessError
  | irp, [] => (irp, none)
  | irp, txs :: rest =>
    match irp.AddIntermediateTransactions txs with
    | (irp1, some err) => (irp1, some err)
    | (irp1, none) => addBatches irp1 rest

/-- The keys that the grouping loop appends to the mini-block of shard `d`, in
visiting order. -/
def keysFor (selfId : Nat) (visit : List (Bytes × txInfo)) (d : Nat) : List Bytes :=
  (visit.filter (fun e =>
    decide (e.2.receiverShardID = d) && decide (e.2.receiverShardID ≠ selfId))).map Prod.fst

/-- The map entry that one iteration of `AddIntermediateTransactions` files for
`tx`: `none` when the element fails the type assertion, the hashing or the
address conversion. -/
def intermediateResultsProcessor.entryOf (irp : intermediateResultsProcessor)
    (tx : TransactionHandler) : Option (Bytes × txInfo) :=
  match tx with
  | .other _ => none
  | .scr addScr =>
    match CalculateHash irp.marshalizer.MarshalTx irp.hasher tx with
    | .error _ => none
    | .ok scrHash =>
      match irp.getShardIdsFromAddresses addScr.SndAddr addScr.RcvAddr with
      | (_, _, some _) => none
      | (sndShId, dstShId, none) =>
        some (scrHash, { senderShardID := sndShId, receiverShardID := dstShId, tx := some addScr })

/-- Four results sent from shard 0: `scrA` and `scrB` to shard 1, `scrC` to shard 2
and `scrD` back to shard 0 (the leading byte of an address is its shard). -/
def scrA : SmartContractResult := ⟨1, 2, [1, 7], [0, 1], [], [], []⟩

/-- See `scrA`. -/
def scrB : SmartContractResult := ⟨2, 2, [1, 8], [0, 1], [], [], []⟩

/-- See `scrA`. -/
def scrC : SmartContractResult := ⟨3, 2, [2, 8], [0, 1], [], [], []⟩

/-- See `scrA`. -/
def scrD : SmartContractResult := ⟨4, 2, [0, 8], [0, 1], [], [], []⟩

/-- An aggregator of shard 0 among 3 shards, with an empty map. A result is
encoded as its nonce followed by the receiver address, a mini-block as its
three numbers followed by its hashes, and the hash reverses the encoding. -/
def scenarioIrp : intermediateResultsProcessor :=
  { hasher := ⟨fun buff => buff.reverse⟩
    marshalizer :=
      { MarshalTx := fun tx =>
          match tx with
          | .scr r => .ok (r.Nonce :: r.RcvAddr)
          | .other _ => .error (.collaborator 1)
        MarshalMiniBlock := fun mb =>
          .ok (mb.ReceiverShardID :: mb.SenderShardID :: mb.Type_ :: mb.TxHashes.flatten) }
    shardCoordinator := ⟨0, 3, fun adr => adr.headD 0⟩
    adrConv := fun pk => .ok pk
    blockType := 3
    interResultsForBlock := [] }

/-- The map after filing `scrA`, `scrB`, then `scrC`, `scrD`. -/
def scenarioFiled : List (Bytes × txInfo) :=
  [([7, 1, 1], ⟨⟨0, 1⟩, some scrA⟩), ([8, 1, 2], ⟨⟨0, 1⟩, some scrB⟩),
   ([8, 2, 3], ⟨⟨0, 2⟩, some scrC⟩), ([8, 0, 4], ⟨⟨0, 0⟩, some scrD⟩)]

/-- The mini-blocks created from `scenarioFiled`. -/
def scenarioMiniBlocks : List (Nat × MiniBlock) :=
  [(1, ⟨[[7, 1, 1], [8, 1, 2]], 1, 0, 3⟩), (2, ⟨[[8, 2, 3]], 2, 0, 3⟩)]

/-- The intermediate result aggregator of the scenario with `scenarioFiled` as its map. -/
def scenarioIrpFiled : intermediateResultsProcessor :=
  { scenarioIrp with interResultsForBlock := scenarioFiled }

/-! ## The block validator (`CheckBlockValidity` of the block processor) -/

/-- The fields of `block.Header` of the data model. -/
structure Header where
  Nonce : Nat
  Round : Nat
  TimeStamp : Nat
  ShardId : Nat
  PrevHash : Bytes
  PrevRandSeed : Bytes
  RandSeed : Bytes
  Signature : Bytes
  PubKeysBitmap : Bytes
  RootHash : Bytes
  deriving DecidableEq, Repr

/-- A `data.BodyHandler`: the mini-blocks and the result of the body's own
`IntegrityAndValidity` check. -/
structure BodyHandler where
  MiniBlocks : List MiniBlock
  IntegrityAndValidity : Option ProcessError

namespace blproc

/-- Modelled from the spec: `CheckBlockValidity` of the block processor
(process/block/baseProcess.go is not among the sources, its test
`TestBlockProcessor_CheckBlockValidity` is). `currentBlockHeader` is the chain's
current header (`none` in the genesis case) and `computeHeaderHash` is
`ComputeHeaderHash`, marshal and hash. The checks and their order are the
spec's; the nonce is a `uint64`. The nonce a first block must carry is taken
from the test, which with no current header asserts `nil` for nonce 1 with an
empty previous hash, `ErrBlockHashDoesNotMatch` for nonce 1 with previous hash
"X", and `ErrWrongNonceInBlock` for nonce 2. -/
def CheckBlockValidity (computeHeaderHash : Header → Except ProcessError Bytes)
    (currentBlockHeader : Option Header) (header : Option Header) (body : Option BodyHandler) :
    Option ProcessError :=
  match header with
  | none => some .ErrNilHeader
  | some header =>
    match body with
    | none => some .ErrNilBody
    | some body =>
      match body.IntegrityAndValidity with
      | some err => some err
      | none =>
        match currentBlockHeader with
        | none =>
          if header.Nonce = 1 then
            if header.PrevHash ≠ [] then some .ErrBlockHashDoesNotMatch else none
          else some .ErrWrongNonceInBlock
        | some current =>
          if header.Round ≤ current.Round then some .ErrLowerRoundInBlock
          else if header.Nonce ≠ (current.Nonce + 1) % 2 ^ 64 then some .ErrWrongNonceInBlock
          else if header.PrevRandSeed ≠ current.RandSeed then some .ErrRandSeedMismatch
          else
            match computeHeaderHash current with
            | .error err => some err
            | .ok prevHeaderHash =>
              if prevHeaderHash ≠ header.PrevHash then some .ErrBlockHashDoesNotMatch
              else none

/-- The header hash of the scenarios: the nonce, the round and the random seed. -/
def scenarioHeaderHash (header : Header) : Except ProcessError Bytes :=
  .ok (header.Nonce :: header.Round :: header.RandSeed)

/-- The zero header `&block.Header{}` with the given nonce, round, previous
random seed and previous hash. -/
def scenarioHeader (nonce round : Nat) (prevRandSeed prevHash : Bytes) : Header :=
  { Nonce := nonce, Round := round, TimeStamp := 0, ShardId := 0, PrevHash := prevHash,
    PrevRandSeed := prevRandSeed, RandSeed := [], Signature := [], PubKeysBitmap := [],
    RootHash := [] }

/-- The empty body `&block.Body{}`, which passes its integrity check. -/
def scenarioBody : BodyHandler := { MiniBlocks := [], IntegrityAndValidity := none }

end blproc

/-! ## Further scenario data of the transaction dispatcher -/

/-- A node of shard 0 in which every address is local. -/
def scenarioBothLocal : txProcessor :=
  { accounts := scenarioAccounts
    adrConv := fun pk => .ok pk
    scProcessor := scenarioScProcessor
    shardCoordinator := ⟨0, 2, fun _ => 0⟩ }

/-- A transfer of 40 from `[1]` to itself. -/
def scenarioTxSelf : Transaction :=
  { Nonce := 7, Value := 40, RcvAddr := [1], SndAddr := [1], GasPrice := 1, GasLimit := 10,
    Data := [] }

/-- The three errors of the debit-side validation in `checkTxValues`. -/
def isDebitSideError (err : ProcessError) : Prop :=
  err = .ErrHigherNonceInTransaction ∨ err = .ErrLowerNonceInTransaction ∨
    err = .ErrInsufficientFunds

/-- A node of shard 0 in which no address is local. -/
def scenarioNoneLocal : txProcessor :=
  { accounts := scenarioAccounts
    adrConv := fun pk => .ok pk
    scProcessor := scenarioScProcessor
    shardCoordinator := ⟨0, 2, fun _ => 1⟩ }

/-! ## The fork detector (package process/sync) -/

/-- The constants of `process.BlockHeaderState` (process/constants.go). -/
inductive BlockHeaderState where
  | BHReceived
  | BHProcessed
  | BHProposed
  | BHNotarized
  deriving DecidableEq, Repr

/-- The constant `process.ForkBlockFinality` (process/constants.go). -/
def ForkBlockFinality : Nat := 1

/-- The constant `math.MaxUint64`. -/
def MaxUint64 : Nat := 2 ^ 64 - 1

namespace sync

/-- The sentinel errors of package `sync` that the tests of the fork detector
name. -/
inductive Error where
  | ErrNilHeader
  | ErrNilHash
  | ErrBlockIsNotSigned
  | ErrLowerRoundInBlock
  | ErrLowerNonceInBlock
  | ErrHigherRoundInBlock
  | ErrHigherNonceInBlock
  | ErrRandomSeedNotValid
  deriving DecidableEq, Repr

/-- Modelled from the spec: the fork detector's record `HeaderInfo`
(process/sync/basicForkDetector.go is not among the sources, its test file
is): "{header, hash, state}". -/
structure HeaderInfo where
  header : Header
  hash : Bytes
  state : BlockHeaderState
  deriving DecidableEq, Repr

/-- Modelled from the spec: a checkpoint of the fork detector
(basicForkDetector.go is not among the sources), a pair "(nonce, round)". -/
structure checkpointInfo where
  nonce : Nat
  round : Nat
  deriving DecidableEq, Repr

/-- Modelled from the spec: the struct `basicForkDetector`
(basicForkDetector.go is not among the sources). `roundIndex` is the current
index of the rounder the detector is built with (the tests set
`rounderMock.RoundIndex` between calls). `headers` is the registry of candidate
headers, in the order in which they were registered: the candidates of one
nonce are the entries of that nonce, in that order. `checkpoint` is the last
checkpoint (`LastCheckpointNonce`, `LastCheckpointRound` of the tests) and
`finalCheckpoint` the one that `SetFinalCheckpoint` sets, against which headers
are validated and pruned. -/
structure basicForkDetector where
  roundIndex : Nat
  headers : List HeaderInfo
  checkpoint : checkpointInfo
  finalCheckpoint : checkpointInfo
  probableHighestNonce : Nat
  deriving DecidableEq, Repr

/-- Modelled from the spec: `NewBasicForkDetector` (basicForkDetector.go is not
among the sources) for a non-nil rounder with the given index: no header, and
both checkpoints at (0, 0), which is where the tests find them. -/
def NewBasicForkDetector (roundIndex : Nat) : basicForkDetector :=
  { roundIndex := roundIndex, headers := [], checkpoint := ⟨0, 0⟩, finalCheckpoint := ⟨0, 0⟩,
    probableHighestNonce := 0 }

/-- Modelled from the spec: "header carries a non-empty signature bitmap"
(basicForkDetector.go is not among the sources). -/
def isSigned (header : Header) : Bool := decide (header.PubKeysBitmap ≠ [])

/-- Modelled from the spec: "non-empty randSeed+prevRandSeed", the "rand-seed
fields present" (basicForkDetector.go is not among the sources). -/
def isRandomSeedValid (header : Header) : Bool :=
  decide (header.RandSeed ≠ []) && decide (header.PrevRandSeed ≠ [])

/-- Modelled from the spec: `GetHeaders(nonce)` (basicForkDetector.go is not
among the sources), the candidates registered at a nonce; the empty list is
the `nil` that the tests assert for a nonce without candidates. -/
def basicForkDetector.GetHeaders (bfd : basicForkDetector) (nonce : Nat) : List HeaderInfo :=
  bfd.headers.filter (fun hInfo => hInfo.header.Nonce = nonce)

/-- Modelled from the spec: `SetFinalCheckpoint(nonce, round)`
(basicForkDetector.go is not among the sources), as the tests use it. -/
def basicForkDetector.SetFinalCheckpoint (bfd : basicForkDetector) (nonce round : Nat) :
    basicForkDetector :=
  { bfd with finalCheckpoint := ⟨nonce, round⟩ }

/-- Modelled from the spec: `CheckBlockValidity(header, state)`
(basicForkDetector.go is not among the sources), which "validates a candidate
header against the checkpoint and current round". The checks and their order
are the spec's bullets; three points are taken from the tests
`TestBasicForkDetector_CheckBlockValidity*`, which validate against the
checkpoint set by `SetFinalCheckpoint`: a nonce equal to the checkpoint's is
already `ErrLowerNonceInBlock` (nonce 1, round 2 against (1, 1)), the tolerance
is 0 (nonce 2, round 1 at round index 1 against (0, 0) is
`ErrHigherNonceInBlock`), and the late arrival is a header in `Received` state
whose round lies more than `ForkBlockFinality` rounds behind the current one
(nonce 98, round 98 at round index 100 against (97, 97) is
`ErrLowerRoundInBlock`). -/
def basicForkDetector.CheckBlockValidity (bfd : basicForkDetector) (header : Header)
    (state : BlockHeaderState) : Option Error :=
  if state = .BHProposed ∧ isRandomSeedValid header = false then some .ErrRandomSeedNotValid
  else if state ≠ .BHProposed ∧ isSigned header = false then some .ErrBlockIsNotSigned
  else if header.Round ≤ bfd.finalCheckpoint.round then some .ErrLowerRoundInBlock
  else if state = .BHReceived ∧ header.Round + ForkBlockFinality < bfd.roundIndex then
    some .ErrLowerRoundInBlock
  else if header.Round > bfd.roundIndex + 1 then some .ErrHigherRoundInBlock
  else if header.Nonce ≤ bfd.finalCheckpoint.nonce then some .ErrLowerNonceInBlock
  else if header.Nonce >
      bfd.finalCheckpoint.nonce + (bfd.roundIndex - bfd.finalCheckpoint.round) then
    some .ErrHigherNonceInBlock
  else none

/-- Modelled from the spec: `RemovePastHeaders()` (basicForkDetector.go is not
among the sources): "drops all HeaderInfo at nonces strictly below the
checkpoint nonce", the checkpoint being the one of `SetFinalCheckpoint`
(`TestBasicForkDetector_RemovePastHeadersShouldWork`). -/
def basicForkDetector.RemovePastHeaders (bfd : basicForkDetector) : basicForkDetector :=
  { bfd with
    headers := bfd.headers.filter (fun hInfo => bfd.finalCheckpoint.nonce ≤ hInfo.header.Nonce) }

/-- Modelled from the spec: `RemoveInvalidHeaders()` (basicForkDetector.go is not
among the sources): "drops headers whose round predates what's reachable from
the checkpoint given elapsed rounds", that is the headers whose distance in
rounds from the final checkpoint is smaller than their distance in nonces. The
stored `ProbableHighestNonce` is left as it is:
`TestBasicForkDetector_RemoveInvalidHeadersShouldWork` still reads 13 from it
after the header of nonce 13 is dropped. -/
def basicForkDetector.RemoveInvalidHeaders (bfd : basicForkDetector) : basicForkDetector :=
  { bfd with
    headers := bfd.headers.filter (fun hInfo =>
      ¬ ((hInfo.header.Round : Int) - (bfd.finalCheckpoint.round : Int) <
          (hInfo.header.Nonce : Int) - (bfd.finalCheckpoint.nonce : Int))) }

/-- Modelled from the spec: `RemoveHeaders(nonce, hash)` (basicForkDetector.go is
not among the sources): "removes one entry; if it was backing the checkpoint,
resets checkpoint to (0,0)". -/
def basicForkDetector.RemoveHeaders (bfd : basicForkDetector) (nonce : Nat) (hash : Bytes) :
    basicForkDetector :=
  { bfd with
    headers := bfd.headers.filter (fun hInfo => ¬ (hInfo.header.Nonce = nonce ∧ hInfo.hash = hash))
    checkpoint := if nonce = bfd.checkpoint.nonce then ⟨0, 0⟩ else bfd.checkpoint }

/-- Modelled from the spec: `ComputeProbableHighestNonce()` (basicForkDetector.go
is not among the sources): the "max observed nonce among non-Proposed
headers". The reset of the rolling round-window is a method of its own
(`ResetProbableHighestNonceIfNeeded`), which nothing below calls. -/
def basicForkDetector.ComputeProbableHighestNonce (bfd : basicForkDetector) : Nat :=
  (bfd.headers.filter (fun hInfo => hInfo.state ≠ .BHProposed)).foldl
    (fun highest hInfo => max highest hInfo.header.Nonce) 0

/-- Modelled from the spec: the registration step of `AddHeader`
(basicForkDetector.go is not among the sources): "registers/overwrites the
HeaderInfo for (nonce,hash)". An entry of the same nonce and hash is
overwritten where it stands; otherwise the new entry comes last
(`TestBasicForkDetector_AddHeaderPresentShouldAppend`). -/
def appendHeaderInfo (hdrInfos : List HeaderInfo) (hInfo : HeaderInfo) : List HeaderInfo :=
  if hdrInfos.any (fun x => x.header.Nonce = hInfo.header.Nonce ∧ x.hash = hInfo.hash) then
    hdrInfos.map (fun x =>
      if x.header.Nonce = hInfo.header.Nonce ∧ x.hash = hInfo.hash then hInfo else x)
  else hdrInfos ++ [hInfo]

/-- Modelled from the spec: `AddHeader(header, hash, state, finalHeaders,
finalHashes)` (basicForkDetector.go is not among the sources); `none` is a nil
header or a nil hash. The two trailing arguments, of which the spec says
nothing and for which every test passes nil, are left out. After the nil
checks and the spec's own signature check come the checks of
`CheckBlockValidity`: in `TestBasicForkDetector_GetHighestFinalBlockNonce` the
signed headers of nonce 2 at round index 1 and of nonce 6 at round index 5 do
not become checkpoints. For a `Processed` header the last checkpoint becomes
the final one (in the same test the final nonce is 3 once nonce 4 follows
nonce 3) and (nonce, round) the last one, and the two removals prune the
entries held before the call; then the header is registered and
`ProbableHighestNonce` recomputed. -/
def basicForkDetector.AddHeader (bfd : basicForkDetector) (header : Option Header)
    (hash : Option Bytes) (state : BlockHeaderState) : basicForkDetector × Option Error :=
  match header with
  | none => (bfd, some .ErrNilHeader)
  | some header =>
    match hash with
    | none => (bfd, some .ErrNilHash)
    | some hash =>
      if isSigned header = false ∧ ¬ (state = .BHProposed ∧ isRandomSeedValid header = true) then
        (bfd, some .ErrBlockIsNotSigned)
      else
        match bfd.CheckBlockValidity header state with
        | some err => (bfd, some err)
        | none =>
          let pruned : basicForkDetector :=
            if state = .BHProcessed then
              ({ bfd with
                  finalCheckpoint := bfd.checkpoint
                  checkpoint := ⟨header.Nonce, header.Round⟩ }).RemovePastHeaders.RemoveInvalidHeaders
            else bfd
          let registered : basicForkDetector :=
            { pruned with headers := appendHeaderInfo pruned.headers ⟨header, hash, state⟩ }
          ({ registered with probableHighestNonce := registered.ComputeProbableHighestNonce },
            none)

/-- Modelled from the spec: the candidate that stands for the node's own block
of a nonce in `CheckFork` (basicForkDetector.go is not among the sources): the
`Received` candidate is compared with "the processed one", and "only headers
already in `Received` or `Processed` participate", so the candidate is one in
state `Processed`, as in every scenario of basicForkDetector_test.go. -/
def isSelf (hInfo : HeaderInfo) : Bool :=
  decide (hInfo.state = .BHProcessed)

/-- The first entry of lowest round in a list of candidates. -/
def lowestRound : List HeaderInfo → Option HeaderInfo
  | [] => none
  | hInfo :: rest =>
    match lowestRound rest with
    | none => some hInfo
    | some best => if best.header.Round < hInfo.header.Round then some best else some hInfo

/-- Modelled from the spec: the verdict of `CheckFork` on the candidates of one
nonce (basicForkDetector.go is not among the sources): a fork is flagged when
one candidate is the processed one and "at least one other candidate exists in
Received state with a lower round than the processed one", and the "losing
(lower-round, non-selected)" candidate is the `Received` one of lowest round
(the first of them, if several share that round). "Only headers already in
`Received` or `Processed` participate". -/
def forkHeaderInfo (hdrInfos : List HeaderInfo) : Option HeaderInfo :=
  match lowestRound (hdrInfos.filter (fun hInfo => hInfo.state = .BHReceived)) with
  | none => none
  | some lowest =>
    if hdrInfos.any (fun self => isSelf self && decide (lowest.header.Round < self.header.Round))
    then some lowest
    else none

/-- The nonces that hold a candidate, each once. -/
def basicForkDetector.nonces (bfd : basicForkDetector) : List Nat :=
  (bfd.headers.map (fun hInfo => hInfo.header.Nonce)).dedup

/-- The flagged nonces, each with its losing candidate. -/
def basicForkDetector.forks (bfd : basicForkDetector) : List (Nat × HeaderInfo) :=
  bfd.nonces.filterMap (fun nonce =>
    (forkHeaderInfo (bfd.GetHeaders nonce)).map (fun hInfo => (nonce, hInfo)))

/-- The flagged nonce that wins: "among all flagged nonces, the lowest wins". -/
def lowestFork : List (Nat × HeaderInfo) → Option (Nat × HeaderInfo)
  | [] => none
  | fork :: rest =>
    match lowestFork rest with
    | none => some fork
    | some best => if best.1 < fork.1 then some best else some fork

/-- Modelled from the spec: the side effect of `CheckFork` on the candidates of
one nonce (basicForkDetector.go is not among the sources): "once a fork is
resolved at a nonce, superseded entries are dropped, leaving only the winning
one". A nonce is resolved when it has two candidates or more, one of them
`Processed`, and no fork is flagged at it; the winning one is the first such
candidate
(`TestBasicForkDetector_CheckForkHeaderProcessedShouldReturnFalseWhenLowestRound`
finds one entry left out of three, and
`TestBasicForkDetector_CheckForkShouldReturnTrue` all three). -/
def resolveNonce (hdrInfos : List HeaderInfo) (hInfo : HeaderInfo) : Bool :=
  if 2 ≤ hdrInfos.length ∧ hdrInfos.any isSelf = true ∧ forkHeaderInfo hdrInfos = none then
    decide (hdrInfos.find? isSelf = some hInfo)
  else true

/-- Modelled from the spec: `CheckFork()` (basicForkDetector.go is not among the
sources): the detector after the call, then "(detected, lowestForkNonce,
forkHash)", which is `(false, MaxUint64, nil)` when no nonce is flagged. -/
def basicForkDetector.CheckFork (bfd : basicForkDetector) :
    basicForkDetector × Bool × Nat × Option Bytes :=
  let resolved : basicForkDetector :=
    { bfd with
      headers := bfd.headers.filter (fun hInfo =>
        resolveNonce (bfd.GetHeaders hInfo.header.Nonce) hInfo) }
  match lowestFork bfd.forks with
  | none => (resolved, false, MaxUint64, none)
  | some (nonce, hInfo) => (resolved, true, nonce, some hInfo.hash)

/-- The header `&block.Header{Nonce: nonce, Round: round, PubKeysBitmap:
[]byte("X")}` of the tests. -/
def signedHeader (nonce round : Nat) : Header :=
  { Nonce := nonce, Round := round, TimeStamp := 0, ShardId := 0, PrevHash := [],
    PrevRandSeed := [], RandSeed := [], Signature := [], PubKeysBitmap := [88], RootHash := [] }

/-- The header `&block.Header{Nonce: nonce, Round: round, PrevRandSeed:
[]byte("X"), RandSeed: []byte("X")}` of the tests. -/
def seededHeader (nonce round : Nat) : Header :=
  { Nonce := nonce, Round := round, TimeStamp := 0, ShardId := 0, PrevHash := [],
    PrevRandSeed := [88], RandSeed := [88], Signature := [], PubKeysBitmap := [], RootHash := [] }

/-- The step of a test: set the rounder's index, call `AddHeader` and drop the
returned error (`_ = bfd.AddHeader(...)`). -/
def addAt (bfd : basicForkDetector) (roundIndex : Nat) (header : Header) (hash : Bytes)
    (state : BlockHeaderState) : basicForkDetector :=
  (({ bfd with roundIndex := roundIndex }).AddHeader (some header) (some hash) state).1

/-- The registry is well formed: no two entries have the same nonce and hash. -/
def basicForkDetector.wellFormed (bfd : basicForkDetector) : Prop :=
  (bfd.headers.map (fun hInfo => (hInfo.header.Nonce, hInfo.hash))).Nodup

/-- A nonce holds a fork: among its candidates are a `Processed` header and a
`Received` header of strictly lower round. -/
def basicForkDetector.holdsFork (bfd : basicForkDetector) (nonce : Nat) : Prop :=
  ∃ self ∈ bfd.GetHeaders nonce, ∃ rcv ∈ bfd.GetHeaders nonce,
    self.state = .BHProcessed ∧ rcv.state = .BHReceived ∧
      rcv.header.Round < self.header.Round

/-- The registry of `TestBasicForkDetector_CheckForkShouldReturnTrue`: at nonce
1 the hashes `[1]` (round 3, `Received`), `[2]` (round 2, `Received`) and `[3]`
(round 3, `Processed`). -/
def scenarioFork : basicForkDetector :=
  addAt (addAt (addAt (NewBasicForkDetector 0)
    4 (signedHeader 1 3) [1] .BHReceived) 3 (signedHeader 1 2) [2] .BHReceived)
    4 (signedHeader 1 3) [3] .BHProcessed

/-- A registry without fork: nonce 1 holds a `Processed` and a `Proposed`
header, nonce 2 two `Received` headers and nonce 3 a single header. -/
def scenarioNoFork : basicForkDetector :=
  addAt (addAt (addAt (addAt (addAt (NewBasicForkDetector 0)
    4 (signedHeader 1 3) [1] .BHProcessed) 3 (seededHeader 1 2) [2] .BHProposed)
    4 (signedHeader 2 3) [3] .BHReceived) 4 (signedHeader 2 4) [4] .BHReceived)
    4 (signedHeader 3 4) [5] .BHReceived

end sync

/-! ## The notarization tracker (`SaveLastNotarizedHeader` of the block processor) -/

/-- A `data.HeaderHandler` as the tests of the tracker build it: a
`*block.Header` or a `*block.MetaBlock`, of which the tests set the fields that
`Header` has too. -/
inductive HeaderHandler where
  | shardHeader (header : Header)
  | metaBlock (header : Header)
  deriving DecidableEq, Repr

/-- The fields of a header handler (`GetNonce`, `GetPrevHash`, ...). -/
def HeaderHandler.header : HeaderHandler → Header
  | .shardHeader header => header
  | .metaBlock header => header

/-- The type assertion `hdr.(*block.Header)`. -/
def HeaderHandler.isShardHeader : HeaderHandler → Bool
  | .shardHeader _ => true
  | .metaBlock _ => false

/-- The type assertion `hdr.(*block.MetaBlock)`. -/
def HeaderHandler.isMetaBlock : HeaderHandler → Bool
  | .shardHeader _ => false
  | .metaBlock _ => true

/-- Modelled from the spec: `sharding.MetachainShardId`, "the metachain shard id"
(package sharding is not among the sources): a `uint32` outside the range of
every coordinator, here the largest one. -/
def MetachainShardId : Nat := 2 ^ 32 - 1

namespace blproc

/-- Modelled from the spec: the struct `baseProcessor` with its notarized-header
bookkeeping (process/block/baseProcess.go is not among the sources, its test
file is). `computeHeaderHash` is `ComputeHeaderHash`, marshal and hash.
`notarizedHdrs` is `none` until it is set, then a slice of headers for each
shard id (the tests read `NotarizedHdrs()[shardId][0]`), whose last element is
the stored last-notarized header of the shard. -/
structure baseProcessor where
  shardCoordinator : Coordinator
  computeHeaderHash : HeaderHandler → Except ProcessError Bytes
  notarizedHdrs : Option (Nat → List HeaderHandler)

/-- Modelled from the spec: `NewBaseProcessor` of the tests with its hasher and
marshalizer set (baseProcess.go is not among the sources): the bookkeeping is
not initialised. -/
def NewBaseProcessor (shardCoordinator : Coordinator)
    (computeHeaderHash : HeaderHandler → Except ProcessError Bytes) : baseProcessor :=
  { shardCoordinator := shardCoordinator, computeHeaderHash := computeHeaderHash,
    notarizedHdrs := none }

/-- Modelled from the spec: `LastNotarizedHdrForShard(shardId)` (baseProcess.go is
not among the sources), the stored last-notarized header of a shard; `none` is
`nil`. -/
def baseProcessor.LastNotarizedHdrForShard (bp : baseProcessor) (shardId : Nat) :
    Option HeaderHandler :=
  match bp.notarizedHdrs with
  | none => none
  | some notarized => (notarized shardId).getLast?

/-- Modelled from the spec: the check that a header "is the correct concrete type
for its origin shard (metachain entries use the meta header type, shard
entries use the shard header type)" (baseProcess.go is not among the sources);
`none` is a nil header, which has neither type. -/
def baseProcessor.checkHeaderTypeCorrect (bp : baseProcessor) (shardId : Nat)
    (hdr : Option HeaderHandler) : Option ProcessError :=
  if shardId < bp.shardCoordinator.NumberOfShards then
    match hdr with
    | some (.shardHeader _) => none
    | _ => some .ErrWrongTypeAssertion
  else if shardId = MetachainShardId then
    match hdr with
    | some (.metaBlock _) => none
    | _ => some .ErrWrongTypeAssertion
  else some .ErrShardIdMissmatch

/-- The loop of `SetLastNotarizedHeadersSlice` over the shards: each start header
is type-checked and stored, up to the first one of the wrong type. -/
def baseProcessor.setShardHeaders (bp : baseProcessor)
    (startHeaders : Nat → Option HeaderHandler) :
    List Nat → (Nat → List HeaderHandler) → (Nat → List HeaderHandler) × Option ProcessError
  | [], notarized => (notarized, none)
  | shardId :: rest, notarized =>
    match bp.checkHeaderTypeCorrect shardId (startHeaders shardId) with
    | some err => (notarized, some err)
    | none =>
      bp.setShardHeaders startHeaders rest
        (fun s => if s = shardId then (startHeaders shardId).toList else notarized s)

/-- Modelled from the spec: `SetLastNotarizedHeadersSlice(map[shardId]->
HeaderHandler)` (baseProcess.go is not among the sources): it "requires an
entry for every shard plus the metachain shard id, each of the correct
concrete header variant", any mismatch being `ErrWrongTypeAssertion`, and
fails with `ErrNotarizedHdrsSliceIsNil` on the nil map (`none`). Two points
are the tests', against the spec's "if empty/nil": the empty map is
`ErrWrongTypeAssertion`
(`TestBaseProcessor_SetLastNotarizedHeadersSliceNotEnoughHeaders`), and after a
failed call the bookkeeping is initialised up to the failing entry
(`TestBaseProcessor_SaveLastNoterizedHdrLastNotHdrNil` then gets
`ErrWrongTypeAssertion` from `SaveLastNotarizedHeader`, not
`ErrNotarizedHdrsSliceIsNil`). -/
def baseProcessor.SetLastNotarizedHeadersSlice (bp : baseProcessor)
    (startHeaders : Option (Nat → Option HeaderHandler)) : baseProcessor × Option ProcessError :=
  match startHeaders with
  | none => (bp, some .ErrNotarizedHdrsSliceIsNil)
  | some startHeaders =>
    match bp.setShardHeaders startHeaders
        (List.range bp.shardCoordinator.NumberOfShards ++ [MetachainShardId]) (fun _ => []) with
    | (notarized, err) => ({ bp with notarizedHdrs := some notarized }, err)

/-- Modelled from the spec: the walk of `SaveLastNotarizedHeader` over the
processed headers (baseProcess.go is not among the sources): "verifying each is
the correct concrete type for its origin shard ... and that each new header's
prevHash chains from the previous one (starting from the currently stored
last-notarized header)"; the result is the final element processed. The spec
names no error for a header that does not chain: its error for a hash
mismatch, `ErrBlockHashDoesNotMatch`, stands for it. -/
def baseProcessor.walkProcessedHdrs (bp : baseProcessor) (shardId : Nat) :
    HeaderHandler → List HeaderHandler → Except ProcessError HeaderHandler
  | last, [] => .ok last
  | last, hdr :: rest =>
    match bp.checkHeaderTypeCorrect shardId (some hdr) with
    | some err => .error err
    | none =>
      match bp.computeHeaderHash last with
      | .error err => .error err
      | .ok prevHash =>
        if hdr.header.PrevHash ≠ prevHash then .error .ErrBlockHashDoesNotMatch
        else bp.walkProcessedHdrs shardId hdr rest

/-- Modelled from the spec: `SaveLastNotarizedHeader(shardId, processedHeaders)`
(baseProcess.go is not among the sources): it "fails if bookkeeping not
initialized (ErrNotarizedHdrsSliceIsNil); fails ErrShardIdMissmatch if shardId
is out of the coordinator's configured range; walks processedHeaders ...; on
success, replaces the stored last-notarized header for that shard with the
final element processed". The stored header is type-checked before the walk
(`TestBaseProcessor_SaveLastNoterizedHdrLastNotWrongTypeShard`), and a failing
call leaves the bookkeeping as it was
(`TestBaseProcessor_SaveLastNoterizedHdrShardWrongProcessed`). -/
def baseProcessor.SaveLastNotarizedHeader (bp : baseProcessor) (shardId : Nat)
    (processedHdrs : List HeaderHandler) : baseProcessor × Option ProcessError :=
  match bp.notarizedHdrs with
  | none => (bp, some .ErrNotarizedHdrsSliceIsNil)
  | some notarized =>
    match bp.checkHeaderTypeCorrect shardId (bp.LastNotarizedHdrForShard shardId) with
    | some err => (bp, some err)
    | none =>
      match bp.LastNotarizedHdrForShard shardId with
      | none => (bp, some .ErrWrongTypeAssertion)
      | some last =>
        match bp.walkProcessedHdrs shardId last processedHdrs with
        | .error err => (bp, some err)
        | .ok final =>
          ({ bp with
              notarizedHdrs := some (fun s =>
                if s = shardId then (notarized s).dropLast ++ [final] else notarized s) },
            none)

/-- The header hash of the scenarios: the variant, then the nonce, the round
and the shard id of the header. -/
def scenarioHandlerHash (hdr : HeaderHandler) : Except ProcessError Bytes :=
  match hdr with
  | .shardHeader header => .ok [0, header.Nonce, header.Round, header.ShardId]
  | .metaBlock header => .ok [1, header.Nonce, header.Round, header.ShardId]

/-- The genesis blocks of the tests for a coordinator of `n` shards, as a start
map: a shard header of nonce 0 for each shard and a meta block of nonce 0 for
the metachain. -/
def createGenesisBlocks (n : Nat) (shardId : Nat) : Option HeaderHandler :=
  if shardId < n then some (.shardHeader { scenarioHeader 0 0 [] [] with ShardId := shardId })
  else if shardId = MetachainShardId then some (.metaBlock (scenarioHeader 0 0 [] []))
  else none

/-- The loop of the test helpers `createShardProcessHeadersToSaveLastNoterized`
and `createMetaProcessHeadersToSaveLastNoterized` (baseProcess_test.go): the
headers of the nonces in `nonces`, each with the hash of the one before it as
its `PrevHash`; `mk` is the variant and `[1]` stands for "roothash". -/
def createProcessHeaders (mk : Header → HeaderHandler) :
    List Nat → Bytes → List HeaderHandler
  | [], _ => []
  | i :: rest, headerHash =>
    let hdr : HeaderHandler :=
      mk { Nonce := i, Round := i, TimeStamp := 0, ShardId := 0, PrevHash := headerHash,
           PrevRandSeed := [1], RandSeed := [1], Signature := [1], PubKeysBitmap := [1],
           RootHash := [1] }
    hdr :: createProcessHeaders mk rest
      (match scenarioHandlerHash hdr with
        | .ok hash => hash
        | .error _ => [])

/-- The processor of the tests for a coordinator of 5 shards, after
`SetLastNotarizedHeadersSlice(createGenesisBlocks(shardCoordinator))`. -/
def scenarioBaseProcessor : baseProcessor :=
  ((NewBaseProcessor ⟨0, 5, fun _ => 0⟩ scenarioHandlerHash).SetLastNotarizedHeadersSlice
    (some (createGenesisBlocks 5))).1

/-- The ten chained shard headers of
`TestBaseProcessor_SaveLastNoterizedHdrShardGood`, from the genesis block of
shard 0. -/
def scenarioShardHdrs : List HeaderHandler :=
  createProcessHeaders .shardHeader [1, 2, 3, 4, 5, 6, 7, 8, 9, 10] [0, 0, 0, 0]

/-- The ten chained meta blocks of
`TestBaseProcessor_SaveLastNoterizedHdrMetaGood`, from the genesis meta block. -/
def scenarioMetaHdrs : List HeaderHandler :=
  createProcessHeaders .metaBlock [1, 2, 3, 4, 5, 6, 7, 8, 9, 10] [1, 0, 0, 0]

end blproc

/-! ## Persistence of the intermediate results
(`SaveCurrentIntermediateTxToStorage` of process/block/preprocess/intermediateResults.go) -/

/-- The `dataRetriever.StorageService` collaborator behind the field `store`, as
far as `Put` on the unsigned-transaction unit goes: `putErr key data` is the
error, if any, with which the store answers that call, and `puts` records the
calls received, in order. -/
structure StorageService where
  putErr : Bytes → Bytes → Option ProcessError
  puts : List (Bytes × Bytes)

/-- The call `store.Put(dataRetriever.UnsignedTransactionUnit, key, data)`: the
store after the call and the returned error. -/
def StorageService.Put (store : StorageService) (key data : Bytes) :
    StorageService × Option ProcessError :=
  ({ store with puts := store.puts ++ [(key, data)] }, store.putErr key data)

/-- The method `SaveCurrentIntermediateTxToStorage`, over the entries of the map
in the order in which `range` yields them (`visit`): the store after the call
and the returned error. The error of `Put` is logged and dropped. -/
def intermediateResultsProcessor.SaveCurrentIntermediateTxToStorage
    (irp : intermediateResultsProcessor) :
    StorageService → List (Bytes × txInfo) → StorageService × Option ProcessError
  | store, [] => (store, none)
  | store, (_, txInfoValue) :: rest =>
    match txInfoValue.tx with
    | none => (store, some .ErrMissingTransaction)
    | some tx =>
      match irp.marshalizer.MarshalTx (.scr tx) with
      | .error err => (store, some err)
      | .ok buff =>
        irp.SaveCurrentIntermediateTxToStorage (store.Put (irp.hasher.Compute buff) buff).1 rest

/-- A store that refuses every `Put`. -/
def scenarioStore : StorageService :=
  { putErr := fun _ _ => some (.collaborator 2), puts := [] }

/-! ## The account hooks of the virtual machine
(process/smartContract/hooks/vmAccountsDB.go) -/

/-- The struct `VMAccountsDB`. `GetExistingAccount` is the method of that name of
the field `accounts`, the one method of the adapter that `AccountExists`
reaches (the `AccountsStub` of the tests); it answers with an error or with an
account handler (`none` is a nil handler). `addrConv` is
`CreateAddressFromPublicKeyBytes`, and the map `tempAccounts` is an association
list. -/
structure VMAccountsDB where
  GetExistingAccount : Bytes → Except ProcessError (Option AccountHandler)
  addrConv : Bytes → Except ProcessError Bytes
  tempAccounts : List (Bytes × AccountHandler)

/-- The method `getAccountFromTemporaryAccounts`: the account and `true`, or nil
and `false`. -/
def VMAccountsDB.getAccountFromTemporaryAccounts (vadb : VMAccountsDB) (address : Bytes) :
    Option AccountHandler × Bool :=
  match vadb.tempAccounts.lookup address with
  | some tempAcc => (some tempAcc, true)
  | none => (none, false)

/-- The method `getAccountFromAddressBytes`. -/
def VMAccountsDB.getAccountFromAddressBytes (vadb : VMAccountsDB) (address : Bytes) :
    Except ProcessError (Option AccountHandler) :=
  match vadb.getAccountFromTemporaryAccounts address with
  | (tempAcc, true) => .ok tempAcc
  | (_, false) =>
    match vadb.addrConv address with
    | .error err => .error err
    | .ok addr => vadb.GetExistingAccount addr

/-- The method `AccountExists`. -/
def VMAccountsDB.AccountExists (vadb : VMAccountsDB) (address : Bytes) :
    Bool × Option ProcessError :=
  match vadb.getAccountFromAddressBytes address with
  | .error err => if err = .ErrAccNotFound then (false, none) else (false, some err)
  | .ok _ => (true, none)

/-- The accounts hook of `TestVMAccountsDB_AccountExists*`: the ledger answers
every lookup with `answer`, the converter accepts every address, and there is
no temporary account. -/
def scenarioVadb (answer : Except ProcessError (Option AccountHandler)) : VMAccountsDB :=
  { GetExistingAccount := fun _ => answer, addrConv := fun pk => .ok pk, tempAccounts := [] }

/-! ## Further scenario data of the transaction dispatcher and the aggregator -/

/-- The four errors of the validation that opens `ProcessTransaction`. -/
def isValidationError (err : ProcessError) : Prop :=
  err = .ErrNilTransaction ∨ isDebitSideError err

/-- A ledger in which the account under address `[1]` holds balance 100 at the
largest nonce of a `uint64`. -/
def scenarioAccountsLastNonce : AccountsAdapter :=
  { scenarioAccounts with
    objects := fun a => if a = [1] then ⟨true, 2 ^ 64 - 1, 100⟩ else ⟨true, 0, 0⟩ }

/-- The self-transfer of 40 by the account `[1]` at the largest nonce. -/
def scenarioTxSelfLastNonce : Transaction :=
  { Nonce := 2 ^ 64 - 1, Value := 40, RcvAddr := [1], SndAddr := [1], GasPrice := 1,
    GasLimit := 10, Data := [] }

/-- A transaction of the sender `[1]` at nonce 7 with `gasPrice = gasLimit = 2^32`
and value 0. -/
def scenarioTxLargeGas : Transaction :=
  { Nonce := 7, Value := 0, RcvAddr := [2], SndAddr := [1], GasPrice := 2 ^ 32,
    GasLimit := 2 ^ 32, Data := [] }

/-- The scenario aggregator with a marshalizer that refuses mini-blocks. -/
def scenarioIrpNoMiniBlockMarshal : intermediateResultsProcessor :=
  { scenarioIrpFiled with
    marshalizer :=
      { scenarioIrp.marshalizer with MarshalMiniBlock := fun _ => .error (.collaborator 3) } }

/-- A node of shard 0 in which every address is local, on the ledger
`scenarioAccountsLastNonce`. -/
def scenarioLastNonce : txProcessor :=
  { scenarioBothLocal with accounts := scenarioAccountsLastNonce }

/-- The error with which one iteration of the loop of `AddIntermediateTransactions`
returns for `tx`: that of the type assertion, of the hashing or of the address
conversion; `none` when the iteration files the element. -/
def intermediateResultsProcessor.errorOf (irp : intermediateResultsProcessor)
    (tx : TransactionHandler) : Option ProcessError :=
  match tx with
  | .other _ => some .ErrWrongTypeAssertion
  | .scr addScr =>
    match CalculateHash irp.marshalizer.MarshalTx irp.hasher tx with
    | .error err => some err
    | .ok _ => (irp.getShardIdsFromAddresses addScr.SndAddr addScr.RcvAddr).2.2

/-- A contract processor that classifies every transaction as a contract call
and refuses every deployment and call with `ErrInsufficientFunds`, leaving the
ledger as it is. -/
def scenarioScProcessorRefusing : SmartContractProcessor :=
  { ComputeTransactionType := fun _ => .ok .SCInvoking
    DeploySmartContract := fun accounts _ _ _ => (accounts, some .ErrInsufficientFunds)
    ExecuteSmartContractTransaction := fun accounts _ _ _ _ =>
      (accounts, some .ErrInsufficientFunds) }

/-- The node `scenarioSenderLocal` with the refusing contract processor. -/
def scenarioSenderLocalRefusing : txProcessor :=
  { scenarioSenderLocal with scProcessor := scenarioScProcessorRefusing }

/-- The node `scenarioReceiverLocal` with the refusing contract processor. -/
def scenarioReceiverLocalRefusing : txProcessor :=
  { scenarioReceiverLocal with scProcessor := scenarioScProcessorRefusing }

/-- The ledger `scenarioAccounts` behind an adapter that refuses every
journalled write of the account `[2]` with `ErrInsufficientFunds`. -/
def scenarioAccountsCreditRefused : AccountsAdapter :=
  { scenarioAccounts with
    saveErr := fun a => if a = [2] then some .ErrInsufficientFunds else none }

/-- The node `scenarioBothLocal` on the ledger `scenarioAccountsCreditRefused`. -/
def scenarioCreditRefused : txProcessor :=
  { scenarioBothLocal with accounts := scenarioAccountsCreditRefused }

/-- A contract processor that classifies every transaction as a contract call,
charges the gas to the sender account it is handed and then refuses the call
with `ErrInsufficientFunds`. -/
def scenarioScProcessorCharging : SmartContractProcessor :=
  { ComputeTransactionType := fun _ => .ok .SCInvoking
    DeploySmartContract := fun accounts _ _ _ => (accounts, none)
    ExecuteSmartContractTransaction := fun accounts tx acntSrc _ _ =>
      match acntSrc with
      | some src =>
        ((accounts.SetBalanceWithJournal src
            ((accounts.objects src).Balance - (tx.GasPrice : Int) * (tx.GasLimit : Int))).1,
          some .ErrInsufficientFunds)
      | none => (accounts, some .ErrInsufficientFunds) }

/-- The node `scenarioSenderLocal` with the charging contract processor. -/
def scenarioSenderLocalCharging : txProcessor :=
  { scenarioSenderLocal with scProcessor := scenarioScProcessorCharging }

/-! ## Theorems -/

theorem ProcessTransaction_unfold (txProc : txProcessor) (tx : Transaction) (roundIndex : Nat)
    (adrSrc adrDst : Bytes)
    (hSnd : txProc.adrConv tx.SndAddr = .ok adrSrc)
    (hRcv : txProc.adrConv tx.RcvAddr = .ok adrDst) :
    txProc.ProcessTransaction (some tx) roundIndex =
      match txProc.getAccountFromAddress adrSrc with
      | .error err => (txProc.accounts, some err)
      | .ok acntSnd =>
        match txProc.checkTxValues tx acntSnd with
        | some err => (txProc.accounts, some err)
        | none =>
          match txProc.scProcessor.ComputeTransactionType tx with
          | .error err => (txProc.accounts, some err)
          | .ok txType => txProc.dispatch tx adrSrc adrDst roundIndex txType := by
  simp [txProcessor.ProcessTransaction, txProcessor.getAddresses, hSnd, hRcv]

theorem SetBalanceWithJournal_ok {accounts post : AccountsAdapter} {p : Bytes} {b : Int}
    (h : accounts.SetBalanceWithJournal p b = (post, none)) :
    post.saveErr = accounts.saveErr ∧
    ∀ a, post.objects a =
      if a = p then { accounts.objects p with Balance := b } else accounts.objects a := by
  unfold AccountsAdapter.SetBalanceWithJournal at h
  cases hs : accounts.saveErr p with
  | some e => simp [hs] at h
  | none =>
    simp only [hs, Prod.mk.injEq, and_true] at h
    subst h
    exact ⟨rfl, fun a => rfl⟩

theorem SetNonceWithJournal_ok {accounts post : AccountsAdapter} {p : Bytes} {n : Nat}
    (h : accounts.SetNonceWithJournal p n = (post, none)) :
    post.saveErr = accounts.saveErr ∧
    ∀ a, post.objects a =
      if a = p then { accounts.objects p with Nonce := n } else accounts.objects a := by
  unfold AccountsAdapter.SetNonceWithJournal at h
  cases hs : accounts.saveErr p with
  | some e => simp [hs] at h
  | none =>
    simp only [hs, Prod.mk.injEq, and_true] at h
    subst h
    exact ⟨rfl, fun a => rfl⟩

theorem moveBalances_ok {accounts post : AccountsAdapter} {acntSrc acntDst : Option Bytes}
    {value : Int} (h : moveBalances accounts acntSrc acntDst value = (post, none)) :
    ∃ mid : AccountsAdapter,
      (∀ a, mid.objects a =
        if some a = acntSrc then
          { accounts.objects a with Balance := (accounts.objects a).Balance - value }
        else accounts.objects a) ∧
      (∀ a, post.objects a =
        if some a = acntDst then { mid.objects a with Balance := (mid.objects a).Balance + value }
        else mid.objects a) := by
  unfold moveBalances at h
  cases acntSrc with
  | none =>
    refine ⟨accounts, fun a => by simp, ?_⟩
    cases acntDst with
    | none =>
      simp only [Prod.mk.injEq, and_true] at h
      subst h
      intro a; simp
    | some dst =>
      simp only at h
      intro a
      rw [(SetBalanceWithJournal_ok h).2 a]
      by_cases hd : a = dst <;> simp [hd]
  | some src =>
    simp only at h
    cases hm : accounts.SetBalanceWithJournal src ((accounts.objects src).Balance - value) with
    | mk mid err =>
      rw [hm] at h
      cases err with
      | some e => simp at h
      | none =>
        refine ⟨mid, ?_, ?_⟩
        · intro a
          rw [(SetBalanceWithJournal_ok hm).2 a]
          by_cases hd : a = src <;> simp [hd]
        · cases acntDst with
          | none =>
            simp only [Prod.mk.injEq, and_true] at h
            subst h
            intro a; simp
          | some dst =>
            simp only at h
            intro a
            rw [(SetBalanceWithJournal_ok h).2 a]
            by_cases hd : a = dst <;> simp [hd]

theorem loadAccount_ok {txProc : txProcessor} {adr p : Bytes}
    (h : txProc.loadAccount adr = .ok p) :
    p = adr ∧ txProc.accounts.getErr adr = none ∧
      (txProc.accounts.objects adr).isAccount = true := by
  unfold txProcessor.loadAccount AccountsAdapter.GetAccountWithJournal at h
  cases hg : txProc.accounts.getErr adr with
  | some e => simp [hg] at h
  | none =>
    simp only [hg] at h
    cases hi : (txProc.accounts.objects adr).isAccount with
    | false => simp [hi] at h
    | true =>
      simp [hi] at h
      exact ⟨h.symm, rfl, rfl⟩

theorem getAccounts_ok {txProc : txProcessor} {adrSrc adrDst : Bytes}
    {acntSrc acntDst : Option Bytes}
    (h : txProc.getAccounts adrSrc adrDst = .ok (acntSrc, acntDst)) :
    (adrSrc = adrDst → acntSrc = some adrSrc ∧ acntDst = some adrSrc) ∧
    (adrSrc ≠ adrDst →
      acntSrc = (if txProc.shardCoordinator.ComputeId adrSrc = txProc.shardCoordinator.SelfId
        then some adrSrc else none) ∧
      acntDst = (if txProc.shardCoordinator.ComputeId adrDst = txProc.shardCoordinator.SelfId
        then some adrDst else none)) := by
  unfold txProcessor.getAccounts at h
  by_cases hEq : adrSrc = adrDst
  · simp only [hEq, if_true] at h
    refine ⟨fun _ => ?_, fun hne => absurd hEq hne⟩
    cases hl : txProc.loadAccount adrDst with
    | error e => simp [hl] at h
    | ok p =>
      simp only [hl, Except.ok.injEq, Prod.mk.injEq] at h
      have := (loadAccount_ok hl).1
      subst this
      exact ⟨by rw [hEq]; exact h.1.symm, by rw [hEq]; exact h.2.symm⟩
  · simp only [hEq, if_false] at h
    refine ⟨fun he => absurd he hEq, fun _ => ?_⟩
    by_cases hs : txProc.shardCoordinator.ComputeId adrSrc = txProc.shardCoordinator.SelfId
    · by_cases hd : txProc.shardCoordinator.ComputeId adrDst = txProc.shardCoordinator.SelfId
      · simp only [hs, hd, decide_True, if_true] at h ⊢
        cases hl : txProc.loadAccount adrSrc with
        | error e => simp [hl, Except.map] at h
        | ok p =>
          cases hl2 : txProc.loadAccount adrDst with
          | error e => simp [hl, hl2, Except.map] at h
          | ok q =>
            simp only [hl, hl2, Except.map, Except.ok.injEq, Prod.mk.injEq] at h
            rw [← h.1, ← h.2, (loadAccount_ok hl).1, (loadAccount_ok hl2).1]
            exact ⟨rfl, rfl⟩
      · simp only [hs, hd, decide_True, decide_False, if_true, if_false] at h ⊢
        cases hl : txProc.loadAccount adrSrc with
        | error e => simp [hl, Except.map] at h
        | ok p =>
          simp only [hl, Except.map, Bool.false_eq_true, if_false, Except.ok.injEq,
            Prod.mk.injEq] at h
          rw [← h.1, ← h.2, (loadAccount_ok hl).1]
          simp
    · by_cases hd : txProc.shardCoordinator.ComputeId adrDst = txProc.shardCoordinator.SelfId
      · simp only [hs, hd, decide_True, decide_False, if_true, if_false] at h ⊢
        cases hl2 : txProc.loadAccount adrDst with
        | error e => simp [hl2, Except.map] at h
        | ok q =>
          simp only [hl2, Except.map, Bool.false_eq_true, if_false, Except.ok.injEq,
            Prod.mk.injEq] at h
          rw [← h.1, ← h.2, (loadAccount_ok hl2).1]
          simp
      · simp only [hs, hd, decide_False, if_false, Except.ok.injEq, Prod.mk.injEq] at h ⊢
        simp only [Bool.false_eq_true, if_false, Except.ok.injEq, Prod.mk.injEq] at h
        exact ⟨h.1.symm, h.2.symm⟩


theorem processMoveBalance_ok {txProc : txProcessor} {tx : Transaction} {adrSrc adrDst : Bytes}
    {post : AccountsAdapter}
    (h : txProc.processMoveBalance tx adrSrc adrDst = (post, none)) :
    ∃ acntSrc acntDst mid,
      txProc.getAccounts adrSrc adrDst = .ok (acntSrc, acntDst) ∧
      moveBalances txProc.accounts acntSrc acntDst tx.Value = (mid, none) ∧
      ∀ a, post.objects a =
        if some a = acntSrc then
          { mid.objects a with Nonce := ((mid.objects a).Nonce + 1) % 2 ^ 64 }
        else mid.objects a := by
  unfold txProcessor.processMoveBalance at h
  cases hg : txProc.getAccounts adrSrc adrDst with
  | error e => simp [hg] at h
  | ok pr =>
    obtain ⟨acntSrc, acntDst⟩ := pr
    simp only [hg] at h
    cases hm : moveBalances txProc.accounts acntSrc acntDst tx.Value with
    | mk mid err =>
      rw [hm] at h
      cases err with
      | some e => simp at h
      | none =>
        refine ⟨acntSrc, acntDst, mid, rfl, hm, ?_⟩
        cases acntSrc with
        | none =>
          simp only [Prod.mk.injEq, and_true] at h
          subst h
          intro a; simp
        | some src =>
          simp only [increaseNonce] at h
          intro a
          rw [(SetNonceWithJournal_ok h).2 a]
          by_cases hd : a = src <;> simp [hd]

theorem processMoveBalance_objects {txProc : txProcessor} {tx : Transaction}
    {adrSrc adrDst : Bytes} {post : AccountsAdapter}
    (h : txProc.processMoveBalance tx adrSrc adrDst = (post, none)) (a : Bytes) :
    post.objects a =
      if adrSrc = adrDst then
        if a = adrSrc then
          { txProc.accounts.objects a with
            Nonce := ((txProc.accounts.objects a).Nonce + 1) % 2 ^ 64 }
        else txProc.accounts.objects a
      else if a = adrSrc ∧
          txProc.shardCoordinator.ComputeId adrSrc = txProc.shardCoordinator.SelfId then
        { txProc.accounts.objects a with
          Balance := (txProc.accounts.objects a).Balance - tx.Value
          Nonce := ((txProc.accounts.objects a).Nonce + 1) % 2 ^ 64 }
      else if a = adrDst ∧
          txProc.shardCoordinator.ComputeId adrDst = txProc.shardCoordinator.SelfId then
        { txProc.accounts.objects a with
          Balance := (txProc.accounts.objects a).Balance + tx.Value }
      else txProc.accounts.objects a := by
  obtain ⟨acntSrc, acntDst, mid, hg, hm, hpost⟩ := processMoveBalance_ok h
  obtain ⟨mid0, hmid0, hmid⟩ := moveBalances_ok hm
  have hacc := getAccounts_ok hg
  rw [hpost a, hmid a, hmid0 a]
  by_cases hEq : adrSrc = adrDst
  · obtain ⟨h1, h2⟩ := hacc.1 hEq
    subst h1 h2
    simp only [hEq, if_true, Option.some.injEq]
    by_cases ha : a = adrDst
    · simp [ha]
    · simp [ha]
  · obtain ⟨h1, h2⟩ := hacc.2 hEq
    subst h1 h2
    simp only [hEq, if_false]
    by_cases hs : txProc.shardCoordinator.ComputeId adrSrc = txProc.shardCoordinator.SelfId
    · by_cases hd : txProc.shardCoordinator.ComputeId adrDst = txProc.shardCoordinator.SelfId
      · by_cases ha : a = adrSrc
        · subst ha; simp [hs, hd, hEq]
        · by_cases hb : a = adrDst
          · subst hb; simp [hs, hd, ha]
          · simp [hs, hd, ha, hb]
      · by_cases ha : a = adrSrc
        · subst ha; simp [hs, hd]
        · simp [hs, hd, ha]
    · by_cases hd : txProc.shardCoordinator.ComputeId adrDst = txProc.shardCoordinator.SelfId
      · by_cases hb : a = adrDst
        · subst hb; simp [hs, hd]
        · simp [hs, hd, hb]
      · simp [hs, hd]

theorem ProcessTransaction_moveBalance_ok {txProc : txProcessor} {tx : Transaction}
    {roundIndex : Nat} {adrSrc adrDst : Bytes} {post : AccountsAdapter}
    (hSnd : txProc.adrConv tx.SndAddr = .ok adrSrc)
    (hRcv : txProc.adrConv tx.RcvAddr = .ok adrDst)
    (hType : txProc.scProcessor.ComputeTransactionType tx = .ok .MoveBalance)
    (hOk : txProc.ProcessTransaction (some tx) roundIndex = (post, none)) :
    txProc.processMoveBalance tx adrSrc adrDst = (post, none) := by
  rw [ProcessTransaction_unfold txProc tx roundIndex adrSrc adrDst hSnd hRcv] at hOk
  cases hga : txProc.getAccountFromAddress adrSrc with
  | error e => simp [hga] at hOk
  | ok acntSnd =>
    simp only [hga] at hOk
    cases hc : txProc.checkTxValues tx acntSnd with
    | some e => simp [hc] at hOk
    | none => simpa [hc, hType, txProcessor.dispatch] using hOk

theorem getAccountFromAddress_local {txProc : txProcessor} {adrSrc : Bytes}
    (hLocal : txProc.shardCoordinator.ComputeId adrSrc = txProc.shardCoordinator.SelfId)
    (hGet : txProc.accounts.getErr adrSrc = none) :
    txProc.getAccountFromAddress adrSrc = .ok (some adrSrc) := by
  simp [txProcessor.getAccountFromAddress, AccountsAdapter.GetAccountWithJournal, hLocal, hGet]

/-- C1 (as amended): for every MoveBalance transaction whose sender address is in
the local shard and on which `ProcessTransaction` returns nil (so the nonce and
funds validation passed), the sender's nonce ends at its old nonce + 1 (on
`uint64`) and the sender's balance at its old balance minus `tx.Value` only: the
gas cost `gasPrice * gasLimit` enters the funds check and is not debited. When
the receiver is the sender itself the account is debited and credited, so its
balance is unchanged. -/
theorem ProcessTransaction_moveBalance_sender (txProc : txProcessor) (tx : Transaction)
    (roundIndex : Nat) (adrSrc adrDst : Bytes) (post : AccountsAdapter)
    (hSnd : txProc.adrConv tx.SndAddr = .ok adrSrc)
    (hRcv : txProc.adrConv tx.RcvAddr = .ok adrDst)
    (hLocal : txProc.shardCoordinator.ComputeId adrSrc = txProc.shardCoordinator.SelfId)
    (hType : txProc.scProcessor.ComputeTransactionType tx = .ok .MoveBalance)
    (hOk : txProc.ProcessTransaction (some tx) roundIndex = (post, none)) :
    (post.objects adrSrc).Nonce = ((txProc.accounts.objects adrSrc).Nonce + 1) % 2 ^ 64 ∧
    (post.objects adrSrc).Balance =
      if adrDst = adrSrc then (txProc.accounts.objects adrSrc).Balance
      else (txProc.accounts.objects adrSrc).Balance - tx.Value := by
  have hmb := ProcessTransaction_moveBalance_ok hSnd hRcv hType hOk
  rw [processMoveBalance_objects hmb adrSrc]
  by_cases hEq : adrSrc = adrDst
  · simp [hEq]
  · have hEq2 : ¬ adrDst = adrSrc := fun h => hEq h.symm
    simp [hEq, hEq2, hLocal]

/-- Witness of C1 (as amended), on the scenario: balance 100 at nonce 7, value 40,
gas 1 * 10 leaves balance 60 at nonce 8. -/
theorem ProcessTransaction_moveBalance_sender_witness :
    scenarioSenderLocal.adrConv scenarioTx.SndAddr = .ok [1] ∧
    scenarioSenderLocal.adrConv scenarioTx.RcvAddr = .ok [2] ∧
    scenarioSenderLocal.shardCoordinator.ComputeId [1] =
      scenarioSenderLocal.shardCoordinator.SelfId ∧
    scenarioSenderLocal.scProcessor.ComputeTransactionType scenarioTx = .ok .MoveBalance ∧
    scenarioSenderLocal.ProcessTransaction (some scenarioTx) 0 =
      ((scenarioSenderLocal.ProcessTransaction (some scenarioTx) 0).1, none) ∧
    (((scenarioSenderLocal.ProcessTransaction (some scenarioTx) 0).1.objects [1]).Nonce = 8 ∧
     ((scenarioSenderLocal.ProcessTransaction (some scenarioTx) 0).1.objects [1]).Balance = 60) :=
  ⟨rfl, rfl, rfl, rfl, rfl,
    ProcessTransaction_moveBalance_sender scenarioSenderLocal scenarioTx 0 [1] [2]
      (scenarioSenderLocal.ProcessTransaction (some scenarioTx) 0).1 rfl rfl rfl rfl rfl⟩

/-- C1 (counterexample): on the scenario (local sender with balance 100, value 40,
`gasPrice * gasLimit = 10`) the transaction passes `checkTxValues`,
`ProcessTransaction` returns nil, and the sender's balance is 60, which is not
the old balance minus `value + gasPrice * gasLimit`. -/
theorem ProcessTransaction_moveBalance_sender_keeps_fee :
    (scenarioSenderLocal.ProcessTransaction (some scenarioTx) 0).2 = none ∧
    scenarioSenderLocal.checkTxValues scenarioTx (some [1]) = none ∧
    ((scenarioSenderLocal.ProcessTransaction (some scenarioTx) 0).1.objects [1]).Balance = 60 ∧
    ((scenarioSenderLocal.ProcessTransaction (some scenarioTx) 0).1.objects [1]).Balance ≠
      (scenarioSenderLocal.accounts.objects [1]).Balance -
        (scenarioTx.Value + (scenarioTx.GasPrice : Int) * (scenarioTx.GasLimit : Int)) := by
  decide

/-- C3: for a transaction whose sender account is loaded from the local shard,
`ProcessTransaction` returns `ErrHigherNonceInTransaction` when the account's
nonce is below the transaction's and `ErrLowerNonceInTransaction` when it is
above, whatever the funds; when the nonces are equal `checkTxValues` returns
neither nonce error and its result is that of the funds check; and the funds
check answers `ErrInsufficientFunds` only for equal nonces. -/
theorem checkTxValues_nonce (txProc : txProcessor) (tx : Transaction)
    (roundIndex : Nat) (adrSrc adrDst : Bytes)
    (hSnd : txProc.adrConv tx.SndAddr = .ok adrSrc)
    (hRcv : txProc.adrConv tx.RcvAddr = .ok adrDst)
    (hLocal : txProc.shardCoordinator.ComputeId adrSrc = txProc.shardCoordinator.SelfId)
    (hGet : txProc.accounts.getErr adrSrc = none) :
    ((txProc.accounts.objects adrSrc).Nonce < tx.Nonce →
      txProc.ProcessTransaction (some tx) roundIndex =
        (txProc.accounts, some .ErrHigherNonceInTransaction)) ∧
    (tx.Nonce < (txProc.accounts.objects adrSrc).Nonce →
      txProc.ProcessTransaction (some tx) roundIndex =
        (txProc.accounts, some .ErrLowerNonceInTransaction)) ∧
    ((txProc.accounts.objects adrSrc).Nonce = tx.Nonce →
      txProc.checkTxValues tx (some adrSrc) ≠ some .ErrHigherNonceInTransaction ∧
      txProc.checkTxValues tx (some adrSrc) ≠ some .ErrLowerNonceInTransaction ∧
      txProc.checkTxValues tx (some adrSrc) =
        if (tx.GasPrice : Int) * (tx.GasLimit : Int) + tx.Value = 0 then none
        else if (txProc.accounts.objects adrSrc).isAccount = false then
          some .ErrWrongTypeAssertion
        else if (txProc.accounts.objects adrSrc).Balance <
            (tx.GasPrice : Int) * (tx.GasLimit : Int) + tx.Value then
          some .ErrInsufficientFunds
        else none) ∧
    (txProc.checkTxValues tx (some adrSrc) = some .ErrInsufficientFunds →
      (txProc.accounts.objects adrSrc).Nonce = tx.Nonce) := by
  have hunf := ProcessTransaction_unfold txProc tx roundIndex adrSrc adrDst hSnd hRcv
  rw [getAccountFromAddress_local hLocal hGet] at hunf
  simp only at hunf
  refine ⟨?_, ?_, ?_, ?_⟩
  · intro hlt
    rw [hunf]
    simp [txProcessor.checkTxValues, hlt]
  · intro hgt
    rw [hunf]
    simp [txProcessor.checkTxValues, hgt, Nat.lt_asymm hgt]
  · intro heq
    have hchk : txProc.checkTxValues tx (some adrSrc) =
        if (tx.GasPrice : Int) * (tx.GasLimit : Int) + tx.Value = 0 then none
        else if (txProc.accounts.objects adrSrc).isAccount = false then
          some .ErrWrongTypeAssertion
        else if (txProc.accounts.objects adrSrc).Balance <
            (tx.GasPrice : Int) * (tx.GasLimit : Int) + tx.Value then
          some .ErrInsufficientFunds
        else none := by
      simp [txProcessor.checkTxValues, heq]
    refine ⟨?_, ?_, hchk⟩
    · rw [hchk]; split_ifs <;> simp
    · rw [hchk]; split_ifs <;> simp
  · intro h
    unfold txProcessor.checkTxValues at h
    simp only at h
    split_ifs at h with h1 h2
    all_goals first | omega | simp at h

/-- Witness of C3: transaction nonce 9 against account nonce 7. -/
theorem checkTxValues_nonce_witness :
    scenarioSenderLocal.adrConv scenarioTxHighNonce.SndAddr = .ok [1] ∧
    scenarioSenderLocal.adrConv scenarioTxHighNonce.RcvAddr = .ok [2] ∧
    scenarioSenderLocal.shardCoordinator.ComputeId [1] =
      scenarioSenderLocal.shardCoordinator.SelfId ∧
    scenarioSenderLocal.accounts.getErr [1] = none ∧
    scenarioSenderLocal.ProcessTransaction (some scenarioTxHighNonce) 0 =
      (scenarioSenderLocal.accounts, some .ErrHigherNonceInTransaction) :=
  ⟨rfl, rfl, rfl, rfl,
    (checkTxValues_nonce scenarioSenderLocal scenarioTxHighNonce 0 [1] [2]
      rfl rfl rfl rfl).1 (by decide)⟩

/-- C4: for every MoveBalance transaction whose receiver is in the local shard and
whose sender is not, a `ProcessTransaction` that returns nil increases the
receiver's balance by exactly `tx.Value`, leaves the receiver's nonce unchanged,
and changes neither the sender's account nor any account but the receiver's. -/
theorem ProcessTransaction_moveBalance_receiver (txProc : txProcessor) (tx : Transaction)
    (roundIndex : Nat) (adrSrc adrDst : Bytes) (post : AccountsAdapter)
    (hSnd : txProc.adrConv tx.SndAddr = .ok adrSrc)
    (hRcv : txProc.adrConv tx.RcvAddr = .ok adrDst)
    (hSrc : txProc.shardCoordinator.ComputeId adrSrc ≠ txProc.shardCoordinator.SelfId)
    (hDst : txProc.shardCoordinator.ComputeId adrDst = txProc.shardCoordinator.SelfId)
    (hType : txProc.scProcessor.ComputeTransactionType tx = .ok .MoveBalance)
    (hOk : txProc.ProcessTransaction (some tx) roundIndex = (post, none)) :
    (post.objects adrDst).Balance = (txProc.accounts.objects adrDst).Balance + tx.Value ∧
    (post.objects adrDst).Nonce = (txProc.accounts.objects adrDst).Nonce ∧
    post.objects adrSrc = txProc.accounts.objects adrSrc ∧
    ∀ a, a ≠ adrDst → post.objects a = txProc.accounts.objects a := by
  have hmb := ProcessTransaction_moveBalance_ok hSnd hRcv hType hOk
  have hEq : ¬ adrSrc = adrDst := fun h => hSrc (h ▸ hDst)
  have hEq2 : ¬ adrDst = adrSrc := fun h => hEq h.symm
  have hframe : ∀ a, a ≠ adrDst → post.objects a = txProc.accounts.objects a := by
    intro a ha
    rw [processMoveBalance_objects hmb a]
    simp [hEq, hSrc, ha]
  refine ⟨?_, ?_, hframe adrSrc hEq, hframe⟩
  · rw [processMoveBalance_objects hmb adrDst]
    simp [hEq, hEq2, hSrc, hDst]
  · rw [processMoveBalance_objects hmb adrDst]
    simp [hEq, hEq2, hSrc, hDst]

/-- Witness of C4, on the scenario with only the receiver local: the receiver
ends with balance 40 at nonce 0, the sender's account is untouched. -/
theorem ProcessTransaction_moveBalance_receiver_witness :
    scenarioReceiverLocal.adrConv scenarioTx.SndAddr = .ok [1] ∧
    scenarioReceiverLocal.adrConv scenarioTx.RcvAddr = .ok [2] ∧
    scenarioReceiverLocal.shardCoordinator.ComputeId [1] ≠
      scenarioReceiverLocal.shardCoordinator.SelfId ∧
    scenarioReceiverLocal.shardCoordinator.ComputeId [2] =
      scenarioReceiverLocal.shardCoordinator.SelfId ∧
    scenarioReceiverLocal.scProcessor.ComputeTransactionType scenarioTx = .ok .MoveBalance ∧
    scenarioReceiverLocal.ProcessTransaction (some scenarioTx) 0 =
      ((scenarioReceiverLocal.ProcessTransaction (some scenarioTx) 0).1, none) ∧
    ((scenarioReceiverLocal.ProcessTransaction (some scenarioTx) 0).1.objects [2]).Balance = 40 ∧
    ((scenarioReceiverLocal.ProcessTransaction (some scenarioTx) 0).1.objects [2]).Nonce = 0 ∧
    (scenarioReceiverLocal.ProcessTransaction (some scenarioTx) 0).1.objects [1] =
      ⟨true, 7, 100⟩ :=
  have h := ProcessTransaction_moveBalance_receiver scenarioReceiverLocal scenarioTx 0 [1] [2]
    (scenarioReceiverLocal.ProcessTransaction (some scenarioTx) 0).1 rfl rfl (by decide) rfl rfl
    rfl
  ⟨rfl, rfl, by decide, rfl, rfl, rfl, h.1, h.2.1, h.2.2.1⟩

theorem bytesCompare_swap : ∀ a b : Bytes, bytesCompare b a = - bytesCompare a b
  | [], [] => by simp [bytesCompare]
  | [], _ :: _ => by simp [bytesCompare]
  | _ :: _, [] => by simp [bytesCompare]
  | x :: as, y :: bs => by
    have ih := bytesCompare_swap as bs
    simp only [bytesCompare]
    split_ifs <;> omega

theorem bytesCompare_eq_zero : ∀ a b : Bytes, bytesCompare a b = 0 ↔ a = b
  | [], [] => by simp [bytesCompare]
  | [], _ :: _ => by simp [bytesCompare]
  | _ :: _, [] => by simp [bytesCompare]
  | x :: as, y :: bs => by
    have ih := bytesCompare_eq_zero as bs
    simp only [bytesCompare, List.cons.injEq]
    split_ifs with h1 h2
    · simp; omega
    · simp; omega
    · have : x = y := by omega
      simp [this, ih]

theorem bytesCompare_le_trans : ∀ a b c : Bytes,
    bytesCompare a b ≤ 0 → bytesCompare b c ≤ 0 → bytesCompare a c ≤ 0
  | [], _, [] => by simp [bytesCompare]
  | [], _, _ :: _ => by simp [bytesCompare]
  | _ :: _, [], _ => by simp [bytesCompare]
  | _ :: _, _ :: _, [] => by simp [bytesCompare]
  | x :: as, y :: bs, z :: cs => by
    have ih := bytesCompare_le_trans as bs cs
    simp only [bytesCompare]
    split_ifs <;> omega

theorem bytesLE_iff (a b : Bytes) : bytesLE a b ↔ bytesCompare a b ≤ 0 := by
  unfold bytesLE
  rw [bytesCompare_swap a b]
  omega

theorem bytesLE_isTotal : IsTotal Bytes bytesLE :=
  ⟨fun a b => by
    rw [bytesLE_iff, bytesLE_iff, bytesCompare_swap a b]
    omega⟩

theorem bytesLE_isTrans : IsTrans Bytes bytesLE :=
  ⟨fun a b c h1 h2 => by
    rw [bytesLE_iff] at *
    exact bytesCompare_le_trans a b c h1 h2⟩

theorem bytesLE_isAntisymm : IsAntisymm Bytes bytesLE :=
  ⟨fun a b h1 h2 => by
    rw [bytesLE_iff] at h1 h2
    rw [bytesCompare_swap a b] at h2
    exact (bytesCompare_eq_zero a b).1 (by omega)⟩

theorem sortTxHashes_perm (l : List Bytes) : (sortTxHashes l).Perm l :=
  List.perm_insertionSort bytesLE l

theorem sortTxHashes_eq_of_perm {l₁ l₂ : List Bytes} (h : l₁.Perm l₂) :
    sortTxHashes l₁ = sortTxHashes l₂ := by
  haveI := bytesLE_isTotal
  haveI := bytesLE_isTrans
  haveI := bytesLE_isAntisymm
  exact List.eq_of_perm_of_sorted (r := bytesLE)
    (((sortTxHashes_perm l₁).trans h).trans (sortTxHashes_perm l₂).symm)
    (List.sorted_insertionSort bytesLE l₁) (List.sorted_insertionSort bytesLE l₂)

theorem sortTxHashes_strict {l : List Bytes} (h : l.Nodup) :
    List.Pairwise (fun a b => bytesCompare a b < 0) (sortTxHashes l) := by
  haveI := bytesLE_isTotal
  haveI := bytesLE_isTrans
  have hs : List.Pairwise bytesLE (sortTxHashes l) := List.sorted_insertionSort bytesLE l
  have hn : (sortTxHashes l).Nodup := (sortTxHashes_perm l).nodup_iff.2 h
  have := hs.and hn
  refine this.imp ?_
  intro a b hab
  have h1 := (bytesLE_iff a b).1 hab.1
  have h2 : bytesCompare a b ≠ 0 := fun h0 => hab.2 ((bytesCompare_eq_zero a b).1 h0)
  omega

theorem keysFor_nil (selfId d : Nat) : keysFor selfId [] d = [] := rfl

theorem keysFor_cons (selfId : Nat) (key : Bytes) (value : txInfo)
    (rest : List (Bytes × txInfo)) (d : Nat) :
    keysFor selfId ((key, value) :: rest) d =
      if value.receiverShardID = d ∧ value.receiverShardID ≠ selfId then
        key :: keysFor selfId rest d
      else keysFor selfId rest d := by
  unfold keysFor
  rw [List.filter_cons]
  split_ifs with hc hd hd <;> simp_all

theorem groupByReceiver_some (selfId : Nat) :
    ∀ (visit : List (Bytes × txInfo)) (miniBlocks result : List MiniBlock),
      groupByReceiver selfId visit miniBlocks = some result →
        result.length = miniBlocks.length ∧
        (∀ e ∈ visit, e.2.receiverShardID ≠ selfId → e.2.receiverShardID < miniBlocks.length) ∧
        ∀ i, (result[i]?).map (fun mb => mb.TxHashes) =
          (miniBlocks[i]?).map (fun mb => mb.TxHashes ++ keysFor selfId visit i)
  | [], miniBlocks, result, h => by
    simp only [groupByReceiver, Option.some.injEq] at h
    subst h
    refine ⟨rfl, by simp, fun i => ?_⟩
    simp [keysFor_nil]
  | (key, value) :: rest, miniBlocks, result, h => by
    simp only [groupByReceiver] at h
    by_cases hs : value.receiverShardID = selfId
    · simp only [hs, ne_eq, not_true_eq_false, if_false] at h
      obtain ⟨h1, h2, h3⟩ := groupByReceiver_some selfId rest miniBlocks result h
      refine ⟨h1, ?_, fun i => ?_⟩
      · intro e he hne
        rcases List.mem_cons.1 he with rfl | he
        · exact absurd hs hne
        · exact h2 e he hne
      · rw [h3 i, keysFor_cons]
        simp [hs]
    · simp only [ne_eq, hs, not_false_eq_true, if_true] at h
      cases hget : miniBlocks[value.receiverShardID]? with
      | none => simp [hget] at h
      | some mb =>
        simp only [hget] at h
        have hlt : value.receiverShardID < miniBlocks.length := by
          rcases List.getElem?_eq_some_iff.1 hget with ⟨hlt, _⟩
          exact hlt
        obtain ⟨h1, h2, h3⟩ := groupByReceiver_some selfId rest _ result h
        rw [List.length_set] at h1 h2
        refine ⟨h1, ?_, fun i => ?_⟩
        · intro e he hne
          rcases List.mem_cons.1 he with rfl | he
          · exact hlt
          · exact h2 e he hne
        · rw [h3 i, keysFor_cons, List.getElem?_set]
          by_cases hi : value.receiverShardID = i
          · subst hi
            simp [hlt, hs, hget]
          · simp [hi]

theorem groupByReceiver_isSome (selfId : Nat) :
    ∀ (visit : List (Bytes × txInfo)) (miniBlocks : List MiniBlock),
      (∀ e ∈ visit, e.2.receiverShardID ≠ selfId → e.2.receiverShardID < miniBlocks.length) →
        ∃ result, groupByReceiver selfId visit miniBlocks = some result
  | [], miniBlocks, _ => ⟨miniBlocks, rfl⟩
  | (key, value) :: rest, miniBlocks, h => by
    simp only [groupByReceiver]
    by_cases hs : value.receiverShardID = selfId
    · simp only [hs, ne_eq, not_true_eq_false, if_false]
      exact groupByReceiver_isSome selfId rest miniBlocks
        (fun e he => h e (List.mem_cons_of_mem _ he))
    · simp only [ne_eq, hs, not_false_eq_true, if_true]
      have hlt : value.receiverShardID < miniBlocks.length :=
        h (key, value) (List.mem_cons_self _ _) hs
      have hget : miniBlocks[value.receiverShardID]? = some miniBlocks[value.receiverShardID] :=
        List.getElem?_eq_getElem hlt
      simp only [hget]
      apply groupByReceiver_isSome
      intro e he hne
      rw [List.length_set]
      exact h e (List.mem_cons_of_mem _ he) hne

theorem mem_finalMiniBlocks (selfId blockType : Nat) :
    ∀ (miniBlocks : List MiniBlock) (i d : Nat) (mb : MiniBlock),
      (d, mb) ∈ finalMiniBlocks selfId blockType i miniBlocks ↔
        i ≤ d ∧ ∃ src, miniBlocks[d - i]? = some src ∧ src.TxHashes ≠ [] ∧
          mb = ⟨sortTxHashes src.TxHashes, d, selfId, blockType⟩
  | [], i, d, mb => by simp [finalMiniBlocks]
  | hd :: rest, i, d, mb => by
    have ih := mem_finalMiniBlocks selfId blockType rest (i + 1) d mb
    simp only [finalMiniBlocks]
    by_cases hne : hd.TxHashes = []
    · simp only [hne, List.length_nil, gt_iff_lt, lt_self_iff_false, if_false, ih]
      constructor
      · rintro ⟨hle, src, hget, hsrc, hmb⟩
        refine ⟨by omega, src, ?_, hsrc, hmb⟩
        have : d - i = (d - (i + 1)) + 1 := by omega
        rw [this, List.getElem?_cons_succ]
        exact hget
      · rintro ⟨hle, src, hget, hsrc, hmb⟩
        by_cases hdi : d = i
        · subst hdi
          simp only [Nat.sub_self, List.getElem?_cons_zero, Option.some.injEq] at hget
          subst hget
          exact absurd hne hsrc
        · refine ⟨by omega, src, ?_, hsrc, hmb⟩
          have : d - i = (d - (i + 1)) + 1 := by omega
          rw [this, List.getElem?_cons_succ] at hget
          exact hget
    · have hpos : hd.TxHashes.length > 0 := List.length_pos.2 hne
      simp only [hpos, if_true, List.mem_cons, Prod.mk.injEq, ih]
      constructor
      · rintro (⟨hd1, hmb⟩ | ⟨hle, src, hget, hsrc, hmb⟩)
        · subst hd1
          exact ⟨le_refl _, hd, by simp, hne, hmb⟩
        · refine ⟨by omega, src, ?_, hsrc, hmb⟩
          have : d - i = (d - (i + 1)) + 1 := by omega
          rw [this, List.getElem?_cons_succ]
          exact hget
      · rintro ⟨hle, src, hget, hsrc, hmb⟩
        by_cases hdi : d = i
        · subst hdi
          simp only [Nat.sub_self, List.getElem?_cons_zero, Option.some.injEq] at hget
          subst hget
          exact Or.inl ⟨rfl, hmb⟩
        · refine Or.inr ⟨by omega, src, ?_, hsrc, hmb⟩
          have : d - i = (d - (i + 1)) + 1 := by omega
          rw [this, List.getElem?_cons_succ] at hget
          exact hget

theorem finalMiniBlocks_keys_ge (selfId blockType : Nat) (miniBlocks : List MiniBlock)
    (i d : Nat) (mb : MiniBlock)
    (h : (d, mb) ∈ finalMiniBlocks selfId blockType i miniBlocks) : i ≤ d :=
  ((mem_finalMiniBlocks selfId blockType miniBlocks i d mb).1 h).1

theorem lookup_eq_none_of_forall_ne {d : Nat} :
    ∀ (l : List (Nat × MiniBlock)), (∀ e ∈ l, e.1 ≠ d) → l.lookup d = none
  | [], _ => rfl
  | (k, v) :: rest, h => by
    have hk : k ≠ d := h (k, v) (List.mem_cons_self _ _)
    have hb : (d == k) = false := by simpa using fun h' => hk h'.symm
    rw [List.lookup_cons, hb]
    exact lookup_eq_none_of_forall_ne rest (fun e he => h e (List.mem_cons_of_mem _ he))

theorem lookup_finalMiniBlocks (selfId blockType : Nat) :
    ∀ (miniBlocks : List MiniBlock) (i d : Nat) (mb : MiniBlock),
      (finalMiniBlocks selfId blockType i miniBlocks).lookup d = some mb ↔
        (d, mb) ∈ finalMiniBlocks selfId blockType i miniBlocks
  | [], i, d, mb => by simp [finalMiniBlocks]
  | hd :: rest, i, d, mb => by
    have ih := lookup_finalMiniBlocks selfId blockType rest (i + 1) d mb
    simp only [finalMiniBlocks]
    by_cases hpos : hd.TxHashes.length > 0
    · simp only [hpos, if_true, List.mem_cons, Prod.mk.injEq]
      by_cases hdi : d = i
      · subst hdi
        simp only [List.lookup_cons_self, Option.some.injEq, true_and]
        constructor
        · intro h; exact Or.inl h.symm
        · rintro (h | h)
          · exact h.symm
          · have := finalMiniBlocks_keys_ge selfId blockType rest (d + 1) d mb h
            omega
      · have hb : (d == i) = false := by simpa using hdi
        rw [List.lookup_cons, hb, ih]
        simp [hdi]
    · simp only [hpos, if_false, ih]

theorem finalMiniBlocks_congr (selfId blockType : Nat) :
    ∀ (l₁ l₂ : List MiniBlock) (i : Nat), l₁.length = l₂.length →
      (∀ (j : Nat) (a b : MiniBlock), l₁[j]? = some a → l₂[j]? = some b →
        a.TxHashes.Perm b.TxHashes) →
        finalMiniBlocks selfId blockType i l₁ = finalMiniBlocks selfId blockType i l₂
  | [], [], _, _, _ => rfl
  | [], _ :: _, _, hlen, _ => by simp at hlen
  | _ :: _, [], _, hlen, _ => by simp at hlen
  | a :: r₁, b :: r₂, i, hlen, h => by
    have hab : a.TxHashes.Perm b.TxHashes := h 0 a b (by simp) (by simp)
    have ih := finalMiniBlocks_congr selfId blockType r₁ r₂ (i + 1)
      (by simpa using hlen)
      (fun j x y hx hy => h (j + 1) x y (by simpa using hx) (by simpa using hy))
    simp only [finalMiniBlocks, hab.length_eq, sortTxHashes_eq_of_perm hab, ih]

theorem keysFor_perm (selfId : Nat) {v₁ v₂ : List (Bytes × txInfo)} (h : v₁.Perm v₂) (d : Nat) :
    (keysFor selfId v₁ d).Perm (keysFor selfId v₂ d) :=
  (h.filter _).map _

theorem keysFor_nodup (selfId : Nat) {visit : List (Bytes × txInfo)}
    (h : (visit.map Prod.fst).Nodup) (d : Nat) : (keysFor selfId visit d).Nodup :=
  List.Nodup.sublist ((List.filter_sublist _).map _) h

theorem mem_keysFor (selfId : Nat) (visit : List (Bytes × txInfo)) (d : Nat) (k : Bytes) :
    k ∈ keysFor selfId visit d ↔
      ∃ v, (k, v) ∈ visit ∧ v.receiverShardID = d ∧ v.receiverShardID ≠ selfId := by
  simp only [keysFor, List.mem_map, List.mem_filter, Bool.and_eq_true, decide_eq_true_eq,
    Prod.exists, exists_and_right, exists_eq_right]

theorem CreateAllInterMiniBlocks_some {irp : intermediateResultsProcessor}
    {visit : List (Bytes × txInfo)} {finalMBs : List (Nat × MiniBlock)}
    (h : irp.CreateAllInterMiniBlocks visit = some finalMBs) :
    (∀ e ∈ visit, e.2.receiverShardID ≠ irp.shardCoordinator.SelfId →
      e.2.receiverShardID < irp.shardCoordinator.NumberOfShards) ∧
    ∀ d mb, (d, mb) ∈ finalMBs ↔
      d < irp.shardCoordinator.NumberOfShards ∧
      keysFor irp.shardCoordinator.SelfId visit d ≠ [] ∧
      mb = ⟨sortTxHashes (keysFor irp.shardCoordinator.SelfId visit d), d,
        irp.shardCoordinator.SelfId, irp.blockType⟩ := by
  unfold intermediateResultsProcessor.CreateAllInterMiniBlocks at h
  simp only at h
  cases hg : groupByReceiver irp.shardCoordinator.SelfId visit
      (List.replicate irp.shardCoordinator.NumberOfShards ⟨[], 0, 0, 0⟩) with
  | none => simp [hg] at h
  | some result =>
    simp only [hg, Option.some.injEq] at h
    subst h
    obtain ⟨hlen, hrange, hkeys⟩ := groupByReceiver_some _ _ _ _ hg
    rw [List.length_replicate] at hlen hrange
    refine ⟨hrange, fun d mb => ?_⟩
    rw [mem_finalMiniBlocks]
    simp only [Nat.sub_zero, Nat.zero_le, true_and]
    have hk := hkeys d
    rw [List.getElem?_replicate] at hk
    constructor
    · rintro ⟨src, hget, hsrc, hmb⟩
      have hd : d < irp.shardCoordinator.NumberOfShards := by
        rcases List.getElem?_eq_some_iff.1 hget with ⟨hlt, _⟩
        omega
      simp only [hget, hd, if_true, Option.map_some', List.nil_append, Option.some.injEq] at hk
      rw [← hk]
      exact ⟨hd, hsrc, hmb⟩
    · rintro ⟨hd, hne, hmb⟩
      have hlt : d < result.length := by omega
      refine ⟨result[d], List.getElem?_eq_getElem hlt, ?_, ?_⟩
      · simp only [List.getElem?_eq_getElem hlt, hd, if_true, Option.map_some',
          List.nil_append, Option.some.injEq] at hk
        rw [hk]; exact hne
      · simp only [List.getElem?_eq_getElem hlt, hd, if_true, Option.map_some',
          List.nil_append, Option.some.injEq] at hk
        rw [hk]; exact hmb

theorem CreateAllInterMiniBlocks_isSome {irp : intermediateResultsProcessor}
    {visit : List (Bytes × txInfo)}
    (h : ∀ e ∈ visit, e.2.receiverShardID ≠ irp.shardCoordinator.SelfId →
      e.2.receiverShardID < irp.shardCoordinator.NumberOfShards) :
    ∃ finalMBs, irp.CreateAllInterMiniBlocks visit = some finalMBs := by
  unfold intermediateResultsProcessor.CreateAllInterMiniBlocks
  obtain ⟨result, hr⟩ := groupByReceiver_isSome irp.shardCoordinator.SelfId visit
    (List.replicate irp.shardCoordinator.NumberOfShards ⟨[], 0, 0, 0⟩)
    (by simpa using h)
  exact ⟨finalMiniBlocks irp.shardCoordinator.SelfId irp.blockType 0 result, by simp only [hr]⟩

theorem CreateAllInterMiniBlocks_lookup {irp : intermediateResultsProcessor}
    {visit : List (Bytes × txInfo)} {finalMBs : List (Nat × MiniBlock)}
    (h : irp.CreateAllInterMiniBlocks visit = some finalMBs) (d : Nat) (mb : MiniBlock) :
    finalMBs.lookup d = some mb ↔ (d, mb) ∈ finalMBs := by
  unfold intermediateResultsProcessor.CreateAllInterMiniBlocks at h
  simp only at h
  cases hg : groupByReceiver irp.shardCoordinator.SelfId visit
      (List.replicate irp.shardCoordinator.NumberOfShards ⟨[], 0, 0, 0⟩) with
  | none => simp [hg] at h
  | some result =>
    simp only [hg, Option.some.injEq] at h
    subst h
    exact lookup_finalMiniBlocks _ _ _ _ _ _

theorem CreateAllInterMiniBlocks_perm (irp irp' : intermediateResultsProcessor)
    {v₁ v₂ : List (Bytes × txInfo)} (hp : v₁.Perm v₂)
    (hc : irp'.shardCoordinator = irp.shardCoordinator) (hb : irp'.blockType = irp.blockType) :
    irp.CreateAllInterMiniBlocks v₁ = irp'.CreateAllInterMiniBlocks v₂ := by
  have key : ∀ (a b : List (Bytes × txInfo)), a.Perm b → ∀ r₁,
      groupByReceiver irp.shardCoordinator.SelfId a
        (List.replicate irp.shardCoordinator.NumberOfShards ⟨[], 0, 0, 0⟩) = some r₁ →
      ∃ r₂, groupByReceiver irp.shardCoordinator.SelfId b
        (List.replicate irp.shardCoordinator.NumberOfShards ⟨[], 0, 0, 0⟩) = some r₂ ∧
        finalMiniBlocks irp.shardCoordinator.SelfId irp.blockType 0 r₁ =
          finalMiniBlocks irp.shardCoordinator.SelfId irp.blockType 0 r₂ := by
    intro a b hab r₁ h₁
    obtain ⟨hlen₁, hrange₁, hkeys₁⟩ := groupByReceiver_some _ _ _ _ h₁
    obtain ⟨r₂, h₂⟩ := groupByReceiver_isSome irp.shardCoordinator.SelfId b
      (List.replicate irp.shardCoordinator.NumberOfShards ⟨[], 0, 0, 0⟩)
      (fun e he => hrange₁ e (hab.mem_iff.2 he))
    obtain ⟨hlen₂, _, hkeys₂⟩ := groupByReceiver_some _ _ _ _ h₂
    refine ⟨r₂, h₂, finalMiniBlocks_congr _ _ r₁ r₂ 0 (by rw [hlen₁, hlen₂]) ?_⟩
    intro j x y hx hy
    have h1 := hkeys₁ j
    have h2 := hkeys₂ j
    by_cases hj : j < irp.shardCoordinator.NumberOfShards
    · simp only [hx, hy, hj, if_true, List.getElem?_replicate, Option.map_some',
        List.nil_append, Option.some.injEq] at h1 h2
      rw [h1, h2]
      exact keysFor_perm _ hab j
    · simp [hx, List.getElem?_replicate, hj] at h1
  unfold intermediateResultsProcessor.CreateAllInterMiniBlocks
  simp only [hc, hb]
  cases h₁ : groupByReceiver irp.shardCoordinator.SelfId v₁
      (List.replicate irp.shardCoordinator.NumberOfShards ⟨[], 0, 0, 0⟩) with
  | some r₁ =>
    obtain ⟨r₂, h₂, heq⟩ := key v₁ v₂ hp r₁ h₁
    simp only [h₂, heq]
  | none =>
    cases h₂ : groupByReceiver irp.shardCoordinator.SelfId v₂
        (List.replicate irp.shardCoordinator.NumberOfShards ⟨[], 0, 0, 0⟩) with
    | none => rfl
    | some r₂ =>
      obtain ⟨r₁, h₁', _⟩ := key v₂ v₁ hp.symm r₂ h₂
      rw [h₁] at h₁'
      simp at h₁'

theorem mem_mapSet (m : List (Bytes × txInfo)) (key : Bytes) (value : txInfo)
    (e : Bytes × txInfo) :
    e ∈ mapSet m key value ↔ (e ∈ m ∧ e.1 ≠ key) ∨ e = (key, value) := by
  simp [mapSet, List.mem_filter]

theorem mapSet_keys_nodup {m : List (Bytes × txInfo)} (key : Bytes) (value : txInfo)
    (h : (m.map Prod.fst).Nodup) : ((mapSet m key value).map Prod.fst).Nodup := by
  unfold mapSet
  rw [List.map_append, List.nodup_append]
  refine ⟨List.Nodup.sublist ((List.filter_sublist _).map _) h, by simp, ?_⟩
  intro a ha hb
  simp only [List.map_cons, List.map_nil, List.mem_singleton] at hb
  subst hb
  simp only [List.mem_map, List.mem_filter, decide_eq_true_eq] at ha
  obtain ⟨e, ⟨_, hne⟩, he⟩ := ha
  exact hne he

theorem mem_foldl_mapSet :
    ∀ (es m : List (Bytes × txInfo)),
      (∀ e₁ ∈ es, ∀ e₂ ∈ es, e₁.1 = e₂.1 → e₁ = e₂) → ∀ e,
        (e ∈ es.foldl (fun m e => mapSet m e.1 e.2) m ↔
          e ∈ es ∨ (e ∈ m ∧ ∀ e' ∈ es, e'.1 ≠ e.1))
  | [], _, _, e => by simp
  | a :: r, m, hkd, e => by
    have ih := mem_foldl_mapSet r (mapSet m a.1 a.2)
      (fun e₁ h₁ e₂ h₂ => hkd e₁ (List.mem_cons_of_mem _ h₁) e₂ (List.mem_cons_of_mem _ h₂)) e
    rw [List.foldl_cons, ih, mem_mapSet]
    constructor
    · rintro (h | ⟨(⟨hm, hne⟩ | ha), hr⟩)
      · exact Or.inl (List.mem_cons_of_mem _ h)
      · refine Or.inr ⟨hm, fun e' he' => ?_⟩
        rcases List.mem_cons.1 he' with rfl | he'
        · exact fun h => hne h.symm
        · exact hr e' he'
      · exact Or.inl (by rw [ha]; exact List.mem_cons_self _ _)
    · rintro (h | ⟨hm, hall⟩)
      · by_cases her : e ∈ r
        · exact Or.inl her
        · rcases List.mem_cons.1 h with rfl | h
          · refine Or.inr ⟨Or.inr rfl, fun e' he' heq => her ?_⟩
            have := hkd e' (List.mem_cons_of_mem _ he') e (List.mem_cons_self _ _) heq
            rw [← this]; exact he'
          · exact absurd h her
      · refine Or.inr ⟨Or.inl ⟨hm, fun h => hall a (List.mem_cons_self _ _) h.symm⟩,
          fun e' he' => hall e' (List.mem_cons_of_mem _ he')⟩

theorem foldl_mapSet_keys_nodup :
    ∀ (es m : List (Bytes × txInfo)), (m.map Prod.fst).Nodup →
      ((es.foldl (fun m e => mapSet m e.1 e.2) m).map Prod.fst).Nodup
  | [], _, h => h
  | a :: r, _, h => foldl_mapSet_keys_nodup r _ (mapSet_keys_nodup a.1 a.2 h)

theorem AddIntermediateTransactions_cons_none {irp : intermediateResultsProcessor}
    {tx : TransactionHandler} (rest : List TransactionHandler) (h : irp.entryOf tx = none) :
    ∃ err, irp.AddIntermediateTransactions (tx :: rest) = (irp, some err) := by
  unfold intermediateResultsProcessor.entryOf at h
  unfold intermediateResultsProcessor.AddIntermediateTransactions
  cases tx with
  | other t => exact ⟨_, rfl⟩
  | scr addScr =>
    simp only at h ⊢
    cases hh : CalculateHash irp.marshalizer.MarshalTx irp.hasher (.scr addScr) with
    | error err => exact ⟨err, rfl⟩
    | ok scrHash =>
      simp only [hh] at h ⊢
      rcases hs : irp.getShardIdsFromAddresses addScr.SndAddr addScr.RcvAddr with ⟨s, d, err⟩
      cases err with
      | some err => exact ⟨err, rfl⟩
      | none => simp [hs] at h

theorem AddIntermediateTransactions_cons_some {irp : intermediateResultsProcessor}
    {tx : TransactionHandler} (rest : List TransactionHandler) {e : Bytes × txInfo}
    (h : irp.entryOf tx = some e) :
    irp.AddIntermediateTransactions (tx :: rest) =
      intermediateResultsProcessor.AddIntermediateTransactions
        { irp with interResultsForBlock := mapSet irp.interResultsForBlock e.1 e.2 } rest := by
  unfold intermediateResultsProcessor.entryOf at h
  cases tx with
  | other t => simp at h
  | scr addScr =>
    simp only [intermediateResultsProcessor.AddIntermediateTransactions] at h ⊢
    cases hh : CalculateHash irp.marshalizer.MarshalTx irp.hasher (.scr addScr) with
    | error err => simp [hh] at h
    | ok scrHash =>
      simp only [hh] at h ⊢
      rcases hs : irp.getShardIdsFromAddresses addScr.SndAddr addScr.RcvAddr with ⟨s, d, err⟩
      cases err with
      | some err => simp [hs] at h
      | none =>
        simp only [hs, Option.some.injEq] at h
        subst h
        rfl

theorem entryOf_setRegistry (irp : intermediateResultsProcessor) (m : List (Bytes × txInfo)) :
    intermediateResultsProcessor.entryOf { irp with interResultsForBlock := m } = irp.entryOf :=
  rfl

theorem AddIntermediateTransactions_fst :
    ∀ (txs : List TransactionHandler) (irp : intermediateResultsProcessor),
      (irp.AddIntermediateTransactions txs).1 =
        { irp with
          interResultsForBlock :=
            ((txs.takeWhile (fun tx => (irp.entryOf tx).isSome)).filterMap irp.entryOf).foldl
              (fun m e => mapSet m e.1 e.2) irp.interResultsForBlock }
  | [], irp => rfl
  | tx :: rest, irp => by
    cases h : irp.entryOf tx with
    | none =>
      obtain ⟨err, herr⟩ := AddIntermediateTransactions_cons_none rest h
      rw [herr]
      simp [List.takeWhile_cons, h]
    | some e =>
      rw [AddIntermediateTransactions_cons_some rest h,
        AddIntermediateTransactions_fst rest, entryOf_setRegistry]
      simp [List.takeWhile_cons, h, List.filterMap_cons]

theorem AddIntermediateTransactions_snd :
    ∀ (txs : List TransactionHandler) (irp : intermediateResultsProcessor),
      (irp.AddIntermediateTransactions txs).2 = none ↔
        ∀ tx ∈ txs, (irp.entryOf tx).isSome
  | [], irp => by simp [intermediateResultsProcessor.AddIntermediateTransactions]
  | tx :: rest, irp => by
    cases h : irp.entryOf tx with
    | none =>
      obtain ⟨err, herr⟩ := AddIntermediateTransactions_cons_none rest h
      rw [herr]
      simp [h]
    | some e =>
      rw [AddIntermediateTransactions_cons_some rest h,
        AddIntermediateTransactions_snd rest, entryOf_setRegistry]
      simp [h]

theorem addBatches_fst_of_ok :
    ∀ (batches : List (List TransactionHandler)) (irp filed : intermediateResultsProcessor),
      irp.addBatches batches = (filed, none) →
        (∀ tx ∈ batches.flatten, (irp.entryOf tx).isSome) ∧
        filed = { irp with
          interResultsForBlock :=
            (batches.flatten.filterMap irp.entryOf).foldl
              (fun m e => mapSet m e.1 e.2) irp.interResultsForBlock }
  | [], irp, filed, h => by
    simp only [intermediateResultsProcessor.addBatches, Prod.mk.injEq, and_true] at h
    subst h
    exact ⟨by simp, rfl⟩
  | txs :: rest, irp, filed, h => by
    simp only [intermediateResultsProcessor.addBatches] at h
    have h1 := AddIntermediateTransactions_fst txs irp
    have h2 := AddIntermediateTransactions_snd txs irp
    cases hc : irp.AddIntermediateTransactions txs with
    | mk irp1 err =>
      rw [hc] at h h1 h2
      cases err with
      | some e => simp at h
      | none =>
        simp only at h h1
        have hall := h2.1 rfl
        obtain ⟨ih1, ih2⟩ := addBatches_fst_of_ok rest irp1 filed h
        have htw : txs.takeWhile (fun tx => (irp.entryOf tx).isSome) = txs :=
          List.takeWhile_eq_self_iff.2 (fun tx htx => by simpa using hall tx htx)
        rw [htw] at h1
        have hent : irp1.entryOf = irp.entryOf := by rw [h1]; rfl
        rw [hent] at ih1 ih2
        refine ⟨?_, ?_⟩
        · intro tx htx
          simp only [List.flatten_cons, List.mem_append] at htx
          rcases htx with htx | htx
          · exact hall tx htx
          · exact ih1 tx htx
        · rw [ih2, h1]
          simp [List.filterMap_append, List.foldl_append]

theorem AddIntermediateTransactions_keys_nodup (txs : List TransactionHandler)
    (irp : intermediateResultsProcessor) (h : (irp.interResultsForBlock.map Prod.fst).Nodup) :
    ((irp.AddIntermediateTransactions txs).1.interResultsForBlock.map Prod.fst).Nodup := by
  rw [AddIntermediateTransactions_fst]
  exact foldl_mapSet_keys_nodup _ _ h

theorem AddIntermediateTransactions_config (txs : List TransactionHandler)
    (irp : intermediateResultsProcessor) :
    (irp.AddIntermediateTransactions txs).1.shardCoordinator = irp.shardCoordinator ∧
    (irp.AddIntermediateTransactions txs).1.blockType = irp.blockType ∧
    (irp.AddIntermediateTransactions txs).1.marshalizer = irp.marshalizer ∧
    (irp.AddIntermediateTransactions txs).1.hasher = irp.hasher := by
  rw [AddIntermediateTransactions_fst]
  exact ⟨rfl, rfl, rfl, rfl⟩

theorem addBatches_keys_nodup :
    ∀ (batches : List (List TransactionHandler)) (irp : intermediateResultsProcessor),
      (irp.interResultsForBlock.map Prod.fst).Nodup →
        ((irp.addBatches batches).1.interResultsForBlock.map Prod.fst).Nodup
  | [], _, h => h
  | txs :: rest, irp, h => by
    simp only [intermediateResultsProcessor.addBatches]
    have h1 := AddIntermediateTransactions_keys_nodup txs irp h
    cases hc : irp.AddIntermediateTransactions txs with
    | mk irp1 err =>
      rw [hc] at h1
      cases err with
      | some e => exact h1
      | none => exact addBatches_keys_nodup rest irp1 h1

theorem addBatches_config :
    ∀ (batches : List (List TransactionHandler)) (irp : intermediateResultsProcessor),
      (irp.addBatches batches).1.shardCoordinator = irp.shardCoordinator ∧
      (irp.addBatches batches).1.blockType = irp.blockType ∧
      (irp.addBatches batches).1.marshalizer = irp.marshalizer ∧
      (irp.addBatches batches).1.hasher = irp.hasher
  | [], _ => ⟨rfl, rfl, rfl, rfl⟩
  | txs :: rest, irp => by
    simp only [intermediateResultsProcessor.addBatches]
    have h1 := AddIntermediateTransactions_config txs irp
    cases hc : irp.AddIntermediateTransactions txs with
    | mk irp1 err =>
      rw [hc] at h1
      cases err with
      | some e => exact h1
      | none =>
        have h2 := addBatches_config rest irp1
        simp only at h1 ⊢
        rw [← h1.1, ← h1.2.1, ← h1.2.2.1, ← h1.2.2.2]
        exact h2

theorem entryOf_eq_some (irp : intermediateResultsProcessor) (tx : TransactionHandler)
    (key : Bytes) (value : txInfo) :
    irp.entryOf tx = some (key, value) ↔
      ∃ r, tx = .scr r ∧
        CalculateHash irp.marshalizer.MarshalTx irp.hasher tx = .ok key ∧
        (irp.getShardIdsFromAddresses r.SndAddr r.RcvAddr).2.2 = none ∧
        value =
          { senderShardID := (irp.getShardIdsFromAddresses r.SndAddr r.RcvAddr).1
            receiverShardID := (irp.getShardIdsFromAddresses r.SndAddr r.RcvAddr).2.1
            tx := some r } := by
  unfold intermediateResultsProcessor.entryOf
  cases tx with
  | other t => simp
  | scr addScr =>
    simp only [TransactionHandler.scr.injEq, exists_eq_left']
    cases hh : CalculateHash irp.marshalizer.MarshalTx irp.hasher (.scr addScr) with
    | error err => simp
    | ok scrHash =>
      rcases hs : irp.getShardIdsFromAddresses addScr.SndAddr addScr.RcvAddr with ⟨s, d, err⟩
      cases err with
      | some err => simp
      | none =>
        simp only [Option.some.injEq, Prod.mk.injEq, Except.ok.injEq, true_and]
        constructor
        · rintro ⟨h1, h2⟩; exact ⟨h1, h2.symm⟩
        · rintro ⟨h1, h2⟩; exact ⟨h1, h2.symm⟩

/-- The registry built by successful calls from an empty map, for results whose
hashes do not collide. -/
theorem mem_registry_of_addBatches {irp filed : intermediateResultsProcessor}
    {batches : List (List TransactionHandler)}
    (hInj : ∀ tx₁ ∈ batches.flatten, ∀ tx₂ ∈ batches.flatten,
      CalculateHash irp.marshalizer.MarshalTx irp.hasher tx₁ =
        CalculateHash irp.marshalizer.MarshalTx irp.hasher tx₂ → tx₁ = tx₂)
    (hFiled : irp.CreateBlockStarted.addBatches batches = (filed, none)) :
    (∀ tx ∈ batches.flatten, (irp.entryOf tx).isSome) ∧
    ∀ e, e ∈ filed.interResultsForBlock ↔ ∃ tx ∈ batches.flatten, irp.entryOf tx = some e := by
  obtain ⟨hall, hfiled⟩ := addBatches_fst_of_ok batches irp.CreateBlockStarted filed hFiled
  have hent : irp.CreateBlockStarted.entryOf = irp.entryOf := rfl
  rw [hent] at hall hfiled
  refine ⟨hall, fun e => ?_⟩
  have hkd : ∀ e₁ ∈ batches.flatten.filterMap irp.entryOf,
      ∀ e₂ ∈ batches.flatten.filterMap irp.entryOf, e₁.1 = e₂.1 → e₁ = e₂ := by
    intro e₁ h₁ e₂ h₂ hk
    obtain ⟨tx₁, ht₁, he₁⟩ := List.mem_filterMap.1 h₁
    obtain ⟨tx₂, ht₂, he₂⟩ := List.mem_filterMap.1 h₂
    have hh₁ := ((entryOf_eq_some irp tx₁ e₁.1 e₁.2).1 he₁)
    have hh₂ := ((entryOf_eq_some irp tx₂ e₂.1 e₂.2).1 he₂)
    obtain ⟨_, _, hc₁, _⟩ := hh₁
    obtain ⟨_, _, hc₂, _⟩ := hh₂
    have : tx₁ = tx₂ := hInj tx₁ ht₁ tx₂ ht₂ (by rw [hc₁, hc₂, hk])
    subst this
    rw [he₁] at he₂
    exact Option.some.inj he₂
  rw [hfiled]
  show e ∈ List.foldl (fun m e => mapSet m e.1 e.2) [] (batches.flatten.filterMap irp.entryOf) ↔ _
  rw [mem_foldl_mapSet _ _ hkd]
  simp only [List.mem_filterMap, List.not_mem_nil, false_and, or_false]

/-- C5: after any sequence of `AddIntermediateTransactions` calls on an empty map,
and whatever the order in which `range` visits the map, in every mini-block
returned by `CreateAllInterMiniBlocks` the `TxHashes` are in strictly ascending
lexicographic byte order: `bytes.Compare` is negative between each element and
its successor, and between each element and every later one. -/
theorem CreateAllInterMiniBlocks_sorted (irp : intermediateResultsProcessor)
    (batches : List (List TransactionHandler)) (visit : List (Bytes × txInfo))
    (finalMBs : List (Nat × MiniBlock))
    (hVisit : visit.Perm (irp.CreateBlockStarted.addBatches batches).1.interResultsForBlock)
    (hCreate : (irp.CreateBlockStarted.addBatches batches).1.CreateAllInterMiniBlocks visit =
      some finalMBs) :
    ∀ d mb, (d, mb) ∈ finalMBs →
      List.Pairwise (fun a b => bytesCompare a b < 0) mb.TxHashes ∧
      List.Chain' (fun a b => bytesCompare a b < 0) mb.TxHashes := by
  intro d mb hmem
  have hnd : (visit.map Prod.fst).Nodup :=
    (hVisit.map Prod.fst).nodup_iff.2
      (addBatches_keys_nodup batches irp.CreateBlockStarted List.nodup_nil)
  obtain ⟨_, hmb⟩ := ((CreateAllInterMiniBlocks_some hCreate).2 d mb).1 hmem
  have hp := sortTxHashes_strict (keysFor_nodup
    (irp.CreateBlockStarted.addBatches batches).1.shardCoordinator.SelfId hnd d)
  rw [hmb.2]
  exact ⟨hp, hp.chain'⟩

/-- Witness of C5: the mini-block for shard 1 of the scenario. -/
theorem CreateAllInterMiniBlocks_sorted_witness :
    scenarioFiled.Perm
      (scenarioIrp.CreateBlockStarted.addBatches
        [[.scr scrA, .scr scrB], [.scr scrC, .scr scrD]]).1.interResultsForBlock ∧
    (scenarioIrp.CreateBlockStarted.addBatches
        [[.scr scrA, .scr scrB], [.scr scrC, .scr scrD]]).1.CreateAllInterMiniBlocks
      scenarioFiled = some scenarioMiniBlocks ∧
    List.Pairwise (fun a b => bytesCompare a b < 0) [[7, 1, 1], [8, 1, 2]] ∧
    List.Chain' (fun a b => bytesCompare a b < 0) [[7, 1, 1], [8, 1, 2]] :=
  ⟨List.Perm.refl _, rfl,
    CreateAllInterMiniBlocks_sorted scenarioIrp [[.scr scrA, .scr scrB], [.scr scrC, .scr scrD]]
      scenarioFiled scenarioMiniBlocks (List.Perm.refl _) rfl 1 ⟨[[7, 1, 1], [8, 1, 2]], 1, 0, 3⟩
      (by decide)⟩

/-- C6: for results filed by successful `AddIntermediateTransactions` calls on an
empty map, with no two distinct filed results sharing a hash, the map returned
by `CreateAllInterMiniBlocks` has an entry for shard `d` if and only if `d`
differs from `SelfId` and some filed result has receiver shard `d`, and the
`TxHashes` of that entry are duplicate-free and are exactly the hashes of the
filed results whose receiver shard is `d`. -/
theorem CreateAllInterMiniBlocks_groups (irp filed : intermediateResultsProcessor)
    (batches : List (List TransactionHandler)) (visit : List (Bytes × txInfo))
    (finalMBs : List (Nat × MiniBlock))
    (hInj : ∀ tx₁ ∈ batches.flatten, ∀ tx₂ ∈ batches.flatten,
      CalculateHash irp.marshalizer.MarshalTx irp.hasher tx₁ =
        CalculateHash irp.marshalizer.MarshalTx irp.hasher tx₂ → tx₁ = tx₂)
    (hFiled : irp.CreateBlockStarted.addBatches batches = (filed, none))
    (hVisit : visit.Perm filed.interResultsForBlock)
    (hCreate : filed.CreateAllInterMiniBlocks visit = some finalMBs) :
    (∀ d, (∃ mb, finalMBs.lookup d = some mb) ↔
      d ≠ irp.shardCoordinator.SelfId ∧
      ∃ r, TransactionHandler.scr r ∈ batches.flatten ∧
        (irp.getShardIdsFromAddresses r.SndAddr r.RcvAddr).2.1 = d) ∧
    (∀ d mb, finalMBs.lookup d = some mb →
      mb.TxHashes.Nodup ∧
      ∀ h, h ∈ mb.TxHashes ↔
        ∃ r, TransactionHandler.scr r ∈ batches.flatten ∧
          CalculateHash irp.marshalizer.MarshalTx irp.hasher (.scr r) = .ok h ∧
          (irp.getShardIdsFromAddresses r.SndAddr r.RcvAddr).2.1 = d) := by
  obtain ⟨hall, hreg⟩ := mem_registry_of_addBatches hInj hFiled
  have hcfg := addBatches_config batches irp.CreateBlockStarted
  rw [hFiled] at hcfg
  have hsc : filed.shardCoordinator = irp.shardCoordinator := hcfg.1
  obtain ⟨hrange, hmem⟩ := CreateAllInterMiniBlocks_some hCreate
  rw [hsc] at hrange hmem
  have hnd : (visit.map Prod.fst).Nodup := by
    have := addBatches_keys_nodup batches irp.CreateBlockStarted List.nodup_nil
    rw [hFiled] at this
    exact (hVisit.map Prod.fst).nodup_iff.2 this
  -- membership of a key in the group of shard `d`, in terms of the filed results
  have hkey : ∀ d h, h ∈ keysFor irp.shardCoordinator.SelfId visit d ↔
      d ≠ irp.shardCoordinator.SelfId ∧
      ∃ r, TransactionHandler.scr r ∈ batches.flatten ∧
        CalculateHash irp.marshalizer.MarshalTx irp.hasher (.scr r) = .ok h ∧
        (irp.getShardIdsFromAddresses r.SndAddr r.RcvAddr).2.1 = d := by
    intro d h
    rw [mem_keysFor]
    constructor
    · rintro ⟨v, hv, hd, hself⟩
      obtain ⟨tx, htx, he⟩ := (hreg (h, v)).1 (hVisit.mem_iff.1 hv)
      obtain ⟨r, rfl, hc, _, hval⟩ := (entryOf_eq_some irp tx h v).1 he
      subst hval
      exact ⟨fun hd' => hself (hd.trans hd'), r, htx, hc, hd⟩
    · rintro ⟨hself, r, hr, hc, hd⟩
      have hsome := hall _ hr
      obtain ⟨e, he⟩ := Option.isSome_iff_exists.1 hsome
      obtain ⟨k, v⟩ := e
      obtain ⟨r', hr', hc', _, hval⟩ := (entryOf_eq_some irp _ k v).1 he
      cases hr'
      rw [hc] at hc'
      cases hc'
      refine ⟨v, hVisit.mem_iff.2 ((hreg (h, v)).2 ⟨_, hr, he⟩), ?_, ?_⟩
      · rw [hval]; exact hd
      · rw [hval]; exact fun h' => hself (hd.symm.trans h')
  have hlookup := CreateAllInterMiniBlocks_lookup hCreate
  refine ⟨fun d => ?_, fun d mb hmb => ?_⟩
  · constructor
    · rintro ⟨mb, hmb⟩
      obtain ⟨_, hne, _⟩ := (hmem d mb).1 ((hlookup d mb).1 hmb)
      obtain ⟨h, hh⟩ := List.exists_mem_of_ne_nil _ hne
      obtain ⟨hself, r, hr, _, hd⟩ := (hkey d h).1 hh
      exact ⟨hself, r, hr, hd⟩
    · rintro ⟨hself, r, hr, hd⟩
      have hsome := hall _ hr
      obtain ⟨e, he⟩ := Option.isSome_iff_exists.1 hsome
      obtain ⟨k, v⟩ := e
      obtain ⟨r', hr', hc, _, hval⟩ := (entryOf_eq_some irp _ k v).1 he
      cases hr'
      have hk : k ∈ keysFor irp.shardCoordinator.SelfId visit d :=
        (hkey d k).2 ⟨hself, r, hr, hc, hd⟩
      have hv : (k, v) ∈ visit := hVisit.mem_iff.2 ((hreg (k, v)).2 ⟨_, hr, he⟩)
      have hlt : d < irp.shardCoordinator.NumberOfShards := by
        have := hrange (k, v) hv (by simp only [hval]; rw [hd]; exact hself)
        simp only [hval] at this
        rw [hd] at this
        exact this
      refine ⟨_, (hlookup d _).2 ((hmem d _).2 ⟨hlt, List.ne_nil_of_mem hk, rfl⟩)⟩
  · obtain ⟨_, hne, hmbeq⟩ := (hmem d mb).1 ((hlookup d mb).1 hmb)
    rw [hmbeq]
    simp only
    refine ⟨(sortTxHashes_perm _).nodup_iff.2 (keysFor_nodup _ hnd d), fun h => ?_⟩
    rw [(sortTxHashes_perm _).mem_iff, hkey d h]
    constructor
    · rintro ⟨_, hr⟩; exact hr
    · intro hr
      obtain ⟨h', hh'⟩ := List.exists_mem_of_ne_nil _ hne
      exact ⟨((hkey d h').1 hh').1, hr⟩

/-- C7: starting from an empty map, two runs of successful
`AddIntermediateTransactions` calls that file the same results, in any order and
batching, with no two distinct results sharing a hash, make
`CreateAllInterMiniBlocks` return equal maps of mini-blocks, whatever the order
in which `range` visits either map. -/
theorem CreateAllInterMiniBlocks_order_independent
    (irp filed₁ filed₂ : intermediateResultsProcessor)
    (batches₁ batches₂ : List (List TransactionHandler)) (visit₁ visit₂ : List (Bytes × txInfo))
    (hSame : ∀ tx, tx ∈ batches₁.flatten ↔ tx ∈ batches₂.flatten)
    (hInj : ∀ tx₁ ∈ batches₁.flatten, ∀ tx₂ ∈ batches₁.flatten,
      CalculateHash irp.marshalizer.MarshalTx irp.hasher tx₁ =
        CalculateHash irp.marshalizer.MarshalTx irp.hasher tx₂ → tx₁ = tx₂)
    (hFiled₁ : irp.CreateBlockStarted.addBatches batches₁ = (filed₁, none))
    (hFiled₂ : irp.CreateBlockStarted.addBatches batches₂ = (filed₂, none))
    (hVisit₁ : visit₁.Perm filed₁.interResultsForBlock)
    (hVisit₂ : visit₂.Perm filed₂.interResultsForBlock) :
    filed₁.CreateAllInterMiniBlocks visit₁ = filed₂.CreateAllInterMiniBlocks visit₂ := by
  have hInj₂ : ∀ tx₁ ∈ batches₂.flatten, ∀ tx₂ ∈ batches₂.flatten,
      CalculateHash irp.marshalizer.MarshalTx irp.hasher tx₁ =
        CalculateHash irp.marshalizer.MarshalTx irp.hasher tx₂ → tx₁ = tx₂ :=
    fun tx₁ h₁ tx₂ h₂ => hInj tx₁ ((hSame tx₁).2 h₁) tx₂ ((hSame tx₂).2 h₂)
  obtain ⟨_, hreg₁⟩ := mem_registry_of_addBatches hInj hFiled₁
  obtain ⟨_, hreg₂⟩ := mem_registry_of_addBatches hInj₂ hFiled₂
  have hnd₁ := addBatches_keys_nodup batches₁ irp.CreateBlockStarted List.nodup_nil
  have hnd₂ := addBatches_keys_nodup batches₂ irp.CreateBlockStarted List.nodup_nil
  have hcfg₁ := addBatches_config batches₁ irp.CreateBlockStarted
  have hcfg₂ := addBatches_config batches₂ irp.CreateBlockStarted
  rw [hFiled₁] at hnd₁ hcfg₁
  rw [hFiled₂] at hnd₂ hcfg₂
  have hperm : filed₁.interResultsForBlock.Perm filed₂.interResultsForBlock := by
    refine (List.perm_ext_iff_of_nodup (List.Nodup.of_map _ hnd₁) (List.Nodup.of_map _ hnd₂)).2 ?_
    intro e
    rw [hreg₁ e, hreg₂ e]
    constructor
    · rintro ⟨tx, htx, he⟩; exact ⟨tx, (hSame tx).1 htx, he⟩
    · rintro ⟨tx, htx, he⟩; exact ⟨tx, (hSame tx).2 htx, he⟩
  exact CreateAllInterMiniBlocks_perm filed₁ filed₂ ((hVisit₁.trans hperm).trans hVisit₂.symm)
    (hcfg₂.1.trans hcfg₁.1.symm) (hcfg₂.2.1.trans hcfg₁.2.1.symm)

theorem scenario_hash_injective :
    ∀ tx₁ ∈ [TransactionHandler.scr scrA, .scr scrB, .scr scrC, .scr scrD],
      ∀ tx₂ ∈ [TransactionHandler.scr scrA, .scr scrB, .scr scrC, .scr scrD],
        CalculateHash scenarioIrp.marshalizer.MarshalTx scenarioIrp.hasher tx₁ =
          CalculateHash scenarioIrp.marshalizer.MarshalTx scenarioIrp.hasher tx₂ → tx₁ = tx₂ := by
  intro tx₁ h₁ tx₂ h₂ h
  simp only [List.mem_cons, List.mem_singleton, List.not_mem_nil, or_false] at h₁ h₂
  rcases h₁ with rfl | rfl | rfl | rfl <;> rcases h₂ with rfl | rfl | rfl | rfl <;>
    first
      | rfl
      | (exfalso; revert h; simp [CalculateHash, scenarioIrp, scrA, scrB, scrC, scrD])

/-- Witness of C6, on the scenario: no entry for the node's own shard 0. -/
theorem CreateAllInterMiniBlocks_groups_witness :
    scenarioIrp.CreateBlockStarted.addBatches [[.scr scrA, .scr scrB], [.scr scrC, .scr scrD]] =
      ((scenarioIrp.CreateBlockStarted.addBatches
        [[.scr scrA, .scr scrB], [.scr scrC, .scr scrD]]).1, none) ∧
    (scenarioIrp.CreateBlockStarted.addBatches
        [[.scr scrA, .scr scrB], [.scr scrC, .scr scrD]]).1.CreateAllInterMiniBlocks
      scenarioFiled = some scenarioMiniBlocks ∧
    ((∃ mb, scenarioMiniBlocks.lookup 0 = some mb) ↔
      0 ≠ scenarioIrp.shardCoordinator.SelfId ∧
      ∃ r, TransactionHandler.scr r ∈
          [[TransactionHandler.scr scrA, .scr scrB], [.scr scrC, .scr scrD]].flatten ∧
        (scenarioIrp.getShardIdsFromAddresses r.SndAddr r.RcvAddr).2.1 = 0) ∧
    ([[7, 1, 1], [8, 1, 2]] : List Bytes).Nodup :=
  have h := CreateAllInterMiniBlocks_groups scenarioIrp
    (scenarioIrp.CreateBlockStarted.addBatches
      [[.scr scrA, .scr scrB], [.scr scrC, .scr scrD]]).1
    [[.scr scrA, .scr scrB], [.scr scrC, .scr scrD]] scenarioFiled scenarioMiniBlocks
    scenario_hash_injective rfl (List.Perm.refl _) rfl
  ⟨rfl, rfl, h.1 0, (h.2 1 ⟨[[7, 1, 1], [8, 1, 2]], 1, 0, 3⟩ rfl).1⟩

/-- Witness of C7: filing A, B and then C, against filing C, A, B in one call; the
two maps hold their entries in different orders. -/
theorem CreateAllInterMiniBlocks_order_independent_witness :
    (scenarioIrp.CreateBlockStarted.addBatches [[.scr scrA, .scr scrB], [.scr scrC]]).2 = none ∧
    (scenarioIrp.CreateBlockStarted.addBatches [[.scr scrC, .scr scrA, .scr scrB]]).2 = none ∧
    (scenarioIrp.CreateBlockStarted.addBatches
        [[.scr scrA, .scr scrB], [.scr scrC]]).1.interResultsForBlock ≠
      (scenarioIrp.CreateBlockStarted.addBatches
        [[.scr scrC, .scr scrA, .scr scrB]]).1.interResultsForBlock ∧
    (scenarioIrp.CreateBlockStarted.addBatches
        [[.scr scrA, .scr scrB], [.scr scrC]]).1.CreateAllInterMiniBlocks
      (scenarioIrp.CreateBlockStarted.addBatches
        [[.scr scrA, .scr scrB], [.scr scrC]]).1.interResultsForBlock =
    (scenarioIrp.CreateBlockStarted.addBatches
        [[.scr scrC, .scr scrA, .scr scrB]]).1.CreateAllInterMiniBlocks
      (scenarioIrp.CreateBlockStarted.addBatches
        [[.scr scrC, .scr scrA, .scr scrB]]).1.interResultsForBlock :=
  ⟨rfl, rfl, by decide,
    CreateAllInterMiniBlocks_order_independent scenarioIrp
      (scenarioIrp.CreateBlockStarted.addBatches [[.scr scrA, .scr scrB], [.scr scrC]]).1
      (scenarioIrp.CreateBlockStarted.addBatches [[.scr scrC, .scr scrA, .scr scrB]]).1
      [[.scr scrA, .scr scrB], [.scr scrC]] [[.scr scrC, .scr scrA, .scr scrB]]
      (scenarioIrp.CreateBlockStarted.addBatches
        [[.scr scrA, .scr scrB], [.scr scrC]]).1.interResultsForBlock
      (scenarioIrp.CreateBlockStarted.addBatches
        [[.scr scrC, .scr scrA, .scr scrB]]).1.interResultsForBlock
      (fun tx => by simp [List.flatten]; tauto)
      (fun tx₁ h₁ tx₂ h₂ =>
        scenario_hash_injective tx₁ (by simp [List.flatten] at h₁; simp; tauto)
          tx₂ (by simp [List.flatten] at h₂; simp; tauto))
      rfl rfl (List.Perm.refl _) (List.Perm.refl _)⟩

/-- C8: `VerifyInterMiniBlocks` ignores the mini-blocks of another type or destined
to the node's shard (its result is that on the body without them); on a body
that starts with a mini-block it does not ignore, it returns `ErrNilMiniBlocks`
when `CreateAllInterMiniBlocks` has no entry for the receiver shard,
`ErrMiniBlockHashMismatch` when the entry's hash differs from the mini-block's,
and goes on with the rest of the body when the hashes agree; and it returns nil
only if every mini-block it does not ignore has an entry with the same hash. -/
theorem VerifyInterMiniBlocks_spec (irp : intermediateResultsProcessor)
    (visit : List (Bytes × txInfo)) (scrMbs : List (Nat × MiniBlock))
    (hCreate : irp.CreateAllInterMiniBlocks visit = some scrMbs) :
    (∀ body, irp.VerifyInterMiniBlocks visit body =
      irp.VerifyInterMiniBlocks visit
        (body.filter (fun mb =>
          decide (mb.Type_ = irp.blockType) &&
            decide (mb.ReceiverShardID ≠ irp.shardCoordinator.SelfId)))) ∧
    (∀ mb rest, mb.Type_ = irp.blockType →
      mb.ReceiverShardID ≠ irp.shardCoordinator.SelfId →
      (scrMbs.lookup mb.ReceiverShardID = none →
        irp.VerifyInterMiniBlocks visit (mb :: rest) = some (some .ErrNilMiniBlocks)) ∧
      (∀ created createdHash receivedHash,
        scrMbs.lookup mb.ReceiverShardID = some created →
        CalculateHash irp.marshalizer.MarshalMiniBlock irp.hasher created = .ok createdHash →
        CalculateHash irp.marshalizer.MarshalMiniBlock irp.hasher mb = .ok receivedHash →
        (createdHash ≠ receivedHash →
          irp.VerifyInterMiniBlocks visit (mb :: rest) =
            some (some .ErrMiniBlockHashMismatch)) ∧
        (createdHash = receivedHash →
          irp.VerifyInterMiniBlocks visit (mb :: rest) =
            irp.VerifyInterMiniBlocks visit rest))) ∧
    (∀ body, irp.VerifyInterMiniBlocks visit body = some none →
      ∀ mb ∈ body, mb.Type_ = irp.blockType →
        mb.ReceiverShardID ≠ irp.shardCoordinator.SelfId →
        ∃ created hash, scrMbs.lookup mb.ReceiverShardID = some created ∧
          CalculateHash irp.marshalizer.MarshalMiniBlock irp.hasher created = .ok hash ∧
          CalculateHash irp.marshalizer.MarshalMiniBlock irp.hasher mb = .ok hash) := by
  have hV : ∀ body, irp.VerifyInterMiniBlocks visit body = some (irp.verifyBody scrMbs body) := by
    intro body
    simp [intermediateResultsProcessor.VerifyInterMiniBlocks, hCreate]
  refine ⟨fun body => ?_, fun mb rest ht hr => ⟨fun hl => ?_, fun c h1 h2 hl hc hm => ⟨?_, ?_⟩⟩,
    fun body => ?_⟩
  · rw [hV, hV]
    congr 1
    induction body with
    | nil => rfl
    | cons mb rest ih =>
      by_cases ht : mb.Type_ = irp.blockType
      · by_cases hr : mb.ReceiverShardID = irp.shardCoordinator.SelfId
        · simp [intermediateResultsProcessor.verifyBody, List.filter_cons, ht, hr, ih]
        · simp only [List.filter_cons, ht, hr, decide_True, decide_not, decide_False,
            Bool.not_false, Bool.and_self, if_true]
          simp only [intermediateResultsProcessor.verifyBody, ht, hr, ne_eq, not_true_eq_false,
            if_false]
          cases scrMbs.lookup mb.ReceiverShardID with
          | none => rfl
          | some created =>
            simp only
            cases CalculateHash irp.marshalizer.MarshalMiniBlock irp.hasher created with
            | error e => rfl
            | ok ch =>
              simp only
              cases CalculateHash irp.marshalizer.MarshalMiniBlock irp.hasher mb with
              | error e => rfl
              | ok rh =>
                simp only
                split_ifs
                · simpa [decide_not] using ih
                · rfl
      · simp [intermediateResultsProcessor.verifyBody, List.filter_cons, ht, ih]
  · rw [hV]
    simp [intermediateResultsProcessor.verifyBody, ht, hr, hl]
  · intro hne
    rw [hV]
    simp [intermediateResultsProcessor.verifyBody, ht, hr, hl, hc, hm, hne]
  · intro heq
    rw [hV, hV]
    simp [intermediateResultsProcessor.verifyBody, ht, hr, hl, hc, hm, heq]
  · rw [hV]
    intro h
    have h' : irp.verifyBody scrMbs body = none := Option.some.inj h
    clear h
    induction body with
    | nil => intro mb hmb; simp at hmb
    | cons hd rest ih =>
      intro mb hmb ht hr
      simp only [intermediateResultsProcessor.verifyBody] at h'
      by_cases ht' : hd.Type_ = irp.blockType
      · by_cases hr' : hd.ReceiverShardID = irp.shardCoordinator.SelfId
        · simp only [ht', hr', ne_eq, not_true_eq_false, if_false, if_true] at h'
          rcases List.mem_cons.1 hmb with rfl | hmb
          · exact absurd hr' hr
          · exact ih h' mb hmb ht hr
        · simp only [ht', hr', ne_eq, not_true_eq_false, if_false] at h'
          cases hl : scrMbs.lookup hd.ReceiverShardID with
          | none => simp [hl] at h'
          | some created =>
            simp only [hl] at h'
            cases hc : CalculateHash irp.marshalizer.MarshalMiniBlock irp.hasher created with
            | error e => simp [hc] at h'
            | ok ch =>
              simp only [hc] at h'
              cases hm : CalculateHash irp.marshalizer.MarshalMiniBlock irp.hasher hd with
              | error e => simp [hm] at h'
              | ok rh =>
                simp only [hm] at h'
                by_cases heq : ch = rh
                · simp only [heq, not_true_eq_false, if_false] at h'
                  rcases List.mem_cons.1 hmb with rfl | hmb
                  · exact ⟨created, rh, hl, by rw [hc, heq], hm⟩
                  · exact ih h' mb hmb ht hr
                · simp [heq] at h'
      · simp only [ht', ne_eq, not_false_eq_true, if_true] at h'
        rcases List.mem_cons.1 hmb with rfl | hmb
        · exact absurd ht ht'
        · exact ih h' mb hmb ht hr

/-- Witness of C8: a body whose first mini-block, for shard 1, has other hashes
than the created one. -/
theorem VerifyInterMiniBlocks_spec_witness :
    scenarioIrpFiled.CreateAllInterMiniBlocks scenarioFiled = some scenarioMiniBlocks ∧
    scenarioIrpFiled.VerifyInterMiniBlocks scenarioFiled
        [⟨[[9]], 1, 0, 3⟩, ⟨[[8, 2, 3]], 2, 0, 3⟩] =
      some (some .ErrMiniBlockHashMismatch) :=
  ⟨rfl,
    (((VerifyInterMiniBlocks_spec scenarioIrpFiled scenarioFiled scenarioMiniBlocks rfl).2.1
      ⟨[[9]], 1, 0, 3⟩ [⟨[[8, 2, 3]], 2, 0, 3⟩] rfl (by decide)).2
        ⟨[[7, 1, 1], [8, 1, 2]], 1, 0, 3⟩ [1, 0, 3, 7, 1, 1, 8, 1, 2].reverse
        [1, 0, 3, 9].reverse rfl rfl rfl).1 (by decide)⟩

/-- The assertions of `TestBlockProcessor_CheckBlockValidity`, in the test's
order ("X" is the byte 88; the current header has round 1 and nonce 1). -/
theorem TestBlockProcessor_CheckBlockValidity :
    blproc.CheckBlockValidity blproc.scenarioHeaderHash none
        (some (blproc.scenarioHeader 1 1 [] [88])) (some blproc.scenarioBody) =
      some .ErrBlockHashDoesNotMatch ∧
    blproc.CheckBlockValidity blproc.scenarioHeaderHash none
        (some (blproc.scenarioHeader 1 1 [] [])) (some blproc.scenarioBody) = none ∧
    blproc.CheckBlockValidity blproc.scenarioHeaderHash none
        (some (blproc.scenarioHeader 2 1 [] [])) (some blproc.scenarioBody) =
      some .ErrWrongNonceInBlock ∧
    blproc.CheckBlockValidity blproc.scenarioHeaderHash (some (blproc.scenarioHeader 1 1 [] []))
        (some (blproc.scenarioHeader 0 0 [] [])) (some blproc.scenarioBody) =
      some .ErrLowerRoundInBlock ∧
    blproc.CheckBlockValidity blproc.scenarioHeaderHash (some (blproc.scenarioHeader 1 1 [] []))
        (some (blproc.scenarioHeader 1 2 [] [])) (some blproc.scenarioBody) =
      some .ErrWrongNonceInBlock ∧
    blproc.CheckBlockValidity blproc.scenarioHeaderHash (some (blproc.scenarioHeader 1 1 [] []))
        (some (blproc.scenarioHeader 2 2 [88] [])) (some blproc.scenarioBody) =
      some .ErrRandSeedMismatch ∧
    blproc.CheckBlockValidity blproc.scenarioHeaderHash (some (blproc.scenarioHeader 1 1 [] []))
        (some (blproc.scenarioHeader 2 2 [] [88])) (some blproc.scenarioBody) =
      some .ErrBlockHashDoesNotMatch ∧
    blproc.CheckBlockValidity blproc.scenarioHeaderHash (some (blproc.scenarioHeader 1 1 [] []))
        (some (blproc.scenarioHeader 3 2 [] [])) (some blproc.scenarioBody) =
      some .ErrWrongNonceInBlock ∧
    blproc.CheckBlockValidity blproc.scenarioHeaderHash (some (blproc.scenarioHeader 1 1 [] []))
        (some (blproc.scenarioHeader 2 2 [] [1, 1])) (some blproc.scenarioBody) = none := by
  decide

/-- C9: with a current header and a body that passes its integrity check, the block
processor's `CheckBlockValidity` accepts a header if and only if its `PrevHash`
is the hash of the current header, its `PrevRandSeed` is the current `RandSeed`,
its round is strictly above the current round and its nonce is the current
nonce + 1 (on `uint64`); a failing header is reported by the first failing
check in the order round (`ErrLowerRoundInBlock`), nonce
(`ErrWrongNonceInBlock`), random seed (`ErrRandSeedMismatch`), hash
(`ErrBlockHashDoesNotMatch`). -/
theorem blproc_CheckBlockValidity_linkage
    (computeHeaderHash : Header → Except ProcessError Bytes) (current header : Header)
    (body : BodyHandler) (hBody : body.IntegrityAndValidity = none) :
    (blproc.CheckBlockValidity computeHeaderHash (some current) (some header) (some body) = none ↔
      computeHeaderHash current = .ok header.PrevHash ∧
      header.PrevRandSeed = current.RandSeed ∧
      current.Round < header.Round ∧
      header.Nonce = (current.Nonce + 1) % 2 ^ 64) ∧
    (header.Round ≤ current.Round →
      blproc.CheckBlockValidity computeHeaderHash (some current) (some header) (some body) =
        some .ErrLowerRoundInBlock) ∧
    (current.Round < header.Round → header.Nonce ≠ (current.Nonce + 1) % 2 ^ 64 →
      blproc.CheckBlockValidity computeHeaderHash (some current) (some header) (some body) =
        some .ErrWrongNonceInBlock) ∧
    (current.Round < header.Round → header.Nonce = (current.Nonce + 1) % 2 ^ 64 →
      header.PrevRandSeed ≠ current.RandSeed →
      blproc.CheckBlockValidity computeHeaderHash (some current) (some header) (some body) =
        some .ErrRandSeedMismatch) ∧
    (current.Round < header.Round → header.Nonce = (current.Nonce + 1) % 2 ^ 64 →
      header.PrevRandSeed = current.RandSeed →
      ∀ prevHeaderHash, computeHeaderHash current = .ok prevHeaderHash →
        prevHeaderHash ≠ header.PrevHash →
        blproc.CheckBlockValidity computeHeaderHash (some current) (some header) (some body) =
          some .ErrBlockHashDoesNotMatch) := by
  have e64 : (2 : Nat) ^ 64 = 18446744073709551616 := by norm_num
  rw [e64]
  refine ⟨?_, ?_, ?_, ?_, ?_⟩
  · simp only [blproc.CheckBlockValidity, hBody]
    by_cases hr : header.Round ≤ current.Round
    · have hr' : ¬ current.Round < header.Round := by omega
      simp [hr, hr']
    · have hr' : current.Round < header.Round := by omega
      by_cases hn : header.Nonce = (current.Nonce + 1) % 18446744073709551616
      · by_cases hs : header.PrevRandSeed = current.RandSeed
        · cases hh : computeHeaderHash current with
          | error e => simp [hr, hn, hs]
          | ok h =>
            by_cases he : h = header.PrevHash
            · simp [hr, hr', hn, hs, he]
            · simp [hr, hn, hs, he]
        · simp [hr, hn, hs]
      · simp [hr, hn]
  · intro hr
    simp [blproc.CheckBlockValidity, hBody, hr]
  · intro hr hn
    have hr' : ¬ header.Round ≤ current.Round := by omega
    simp [blproc.CheckBlockValidity, hBody, hr', hn]
  · intro hr hn hs
    have hr' : ¬ header.Round ≤ current.Round := by omega
    simp [blproc.CheckBlockValidity, hBody, hr', hn, hs]
  · intro hr hn hs h hh he
    have hr' : ¬ header.Round ≤ current.Round := by omega
    simp [blproc.CheckBlockValidity, hBody, hr', hn, hs, hh, he]

/-- Witness of C9: the accepted header of the test, nonce 2 and round 2 on a
current header of nonce 1 and round 1. -/
theorem blproc_CheckBlockValidity_linkage_witness :
    blproc.scenarioBody.IntegrityAndValidity = none ∧
    (blproc.CheckBlockValidity blproc.scenarioHeaderHash (some (blproc.scenarioHeader 1 1 [] []))
        (some (blproc.scenarioHeader 2 2 [] [1, 1])) (some blproc.scenarioBody) = none ↔
      blproc.scenarioHeaderHash (blproc.scenarioHeader 1 1 [] []) =
        .ok (blproc.scenarioHeader 2 2 [] [1, 1]).PrevHash ∧
      (blproc.scenarioHeader 2 2 [] [1, 1]).PrevRandSeed =
        (blproc.scenarioHeader 1 1 [] []).RandSeed ∧
      (blproc.scenarioHeader 1 1 [] []).Round < (blproc.scenarioHeader 2 2 [] [1, 1]).Round ∧
      (blproc.scenarioHeader 2 2 [] [1, 1]).Nonce =
        ((blproc.scenarioHeader 1 1 [] []).Nonce + 1) % 2 ^ 64) :=
  ⟨rfl, (blproc_CheckBlockValidity_linkage blproc.scenarioHeaderHash
    (blproc.scenarioHeader 1 1 [] []) (blproc.scenarioHeader 2 2 [] [1, 1])
    blproc.scenarioBody rfl).1⟩

/-- C10 (counterexample): with no current header, the header of nonce 1 with an
empty previous hash is accepted, and its nonce is not 0. -/
theorem blproc_CheckBlockValidity_genesis_accepts_nonce_one :
    blproc.CheckBlockValidity blproc.scenarioHeaderHash none
        (some (blproc.scenarioHeader 1 1 [] [])) (some blproc.scenarioBody) = none ∧
    (blproc.scenarioHeader 1 1 [] []).Nonce ≠ 0 := by
  decide

/-- C10 (as amended): with no current header and a body that passes its integrity
check, the block processor's `CheckBlockValidity` accepts a header only if its
nonce is 1, the first block after genesis, and returns `ErrWrongNonceInBlock`
for every other nonce. -/
theorem blproc_CheckBlockValidity_genesis
    (computeHeaderHash : Header → Except ProcessError Bytes) (header : Header)
    (body : BodyHandler) (hBody : body.IntegrityAndValidity = none) :
    (blproc.CheckBlockValidity computeHeaderHash none (some header) (some body) = none →
      header.Nonce = 1) ∧
    (header.Nonce ≠ 1 →
      blproc.CheckBlockValidity computeHeaderHash none (some header) (some body) =
        some .ErrWrongNonceInBlock) := by
  simp only [blproc.CheckBlockValidity, hBody]
  by_cases hn : header.Nonce = 1
  · simp [hn]
  · simp [hn]

/-- Witness of C10 (as amended): nonce 2 with no current header. -/
theorem blproc_CheckBlockValidity_genesis_witness :
    blproc.scenarioBody.IntegrityAndValidity = none ∧
    blproc.CheckBlockValidity blproc.scenarioHeaderHash none
        (some (blproc.scenarioHeader 2 1 [] [])) (some blproc.scenarioBody) =
      some .ErrWrongNonceInBlock :=
  ⟨rfl, (blproc_CheckBlockValidity_genesis blproc.scenarioHeaderHash
    (blproc.scenarioHeader 2 1 [] []) blproc.scenarioBody rfl).2 (by decide)⟩

/-! ## The processing paths of the transaction dispatcher -/

theorem ProcessTransaction_ok_inv {txProc : txProcessor} {tx : Transaction} {roundIndex : Nat}
    {post : AccountsAdapter}
    (hOk : txProc.ProcessTransaction (some tx) roundIndex = (post, none)) :
    ∃ adrSrc adrDst acntSnd txType,
      txProc.adrConv tx.SndAddr = .ok adrSrc ∧ txProc.adrConv tx.RcvAddr = .ok adrDst ∧
      txProc.getAccountFromAddress adrSrc = .ok acntSnd ∧
      txProc.checkTxValues tx acntSnd = none ∧
      txProc.scProcessor.ComputeTransactionType tx = .ok txType ∧
      txProc.dispatch tx adrSrc adrDst roundIndex txType = (post, none) := by
  cases hS : txProc.adrConv tx.SndAddr with
  | error e => simp [txProcessor.ProcessTransaction, txProcessor.getAddresses, hS] at hOk
  | ok adrSrc =>
    cases hR : txProc.adrConv tx.RcvAddr with
    | error e => simp [txProcessor.ProcessTransaction, txProcessor.getAddresses, hS, hR] at hOk
    | ok adrDst =>
      rw [ProcessTransaction_unfold txProc tx roundIndex adrSrc adrDst hS hR] at hOk
      cases hga : txProc.getAccountFromAddress adrSrc with
      | error e => simp [hga] at hOk
      | ok acntSnd =>
        simp only [hga] at hOk
        cases hc : txProc.checkTxValues tx acntSnd with
        | some e => simp [hc] at hOk
        | none =>
          simp only [hc] at hOk
          cases ht : txProc.scProcessor.ComputeTransactionType tx with
          | error e => simp [ht] at hOk
          | ok txType =>
            simp only [ht] at hOk
            exact ⟨adrSrc, adrDst, acntSnd, txType, rfl, rfl, hga, hc, rfl, hOk⟩

theorem getAccountFromAddress_ok_local {txProc : txProcessor} {adrSrc : Bytes}
    {acntSnd : Option Bytes}
    (hLocal : txProc.shardCoordinator.ComputeId adrSrc = txProc.shardCoordinator.SelfId)
    (h : txProc.getAccountFromAddress adrSrc = .ok acntSnd) : acntSnd = some adrSrc := by
  unfold txProcessor.getAccountFromAddress AccountsAdapter.GetAccountWithJournal at h
  cases hg : txProc.accounts.getErr adrSrc with
  | some e => simp [hLocal, hg] at h
  | none =>
    simp [hLocal, hg] at h
    exact h.symm

theorem checkTxValues_none_funds {txProc : txProcessor} {tx : Transaction} {p : Bytes}
    (hValue : 0 ≤ tx.Value) (h : txProc.checkTxValues tx (some p) = none) :
    tx.Value ≤ (txProc.accounts.objects p).Balance ∨ tx.Value = 0 := by
  have hgas : (0 : Int) ≤ (tx.GasPrice : Int) * (tx.GasLimit : Int) := by positivity
  unfold txProcessor.checkTxValues at h
  simp only at h
  split_ifs at h with h1 h2 h3 h4 h5
  · right; omega
  · left; omega

/-- C16: if every account balance is non-negative before the call and
`tx.Value >= 0`, then after a `ProcessTransaction` that returns nil on the
MoveBalance path every account balance is still non-negative. -/
theorem ProcessTransaction_balances_nonneg (txProc : txProcessor) (tx : Transaction)
    (roundIndex : Nat) (post : AccountsAdapter)
    (hType : txProc.scProcessor.ComputeTransactionType tx = .ok .MoveBalance)
    (hValue : 0 ≤ tx.Value)
    (hPre : ∀ a, 0 ≤ (txProc.accounts.objects a).Balance)
    (hOk : txProc.ProcessTransaction (some tx) roundIndex = (post, none)) :
    ∀ a, 0 ≤ (post.objects a).Balance := by
  obtain ⟨adrSrc, adrDst, acntSnd, txType, hS, hR, hga, hc, ht, hd⟩ :=
    ProcessTransaction_ok_inv hOk
  rw [hType] at ht
  cases ht
  have hmb : txProc.processMoveBalance tx adrSrc adrDst = (post, none) := hd
  intro a
  rw [processMoveBalance_objects hmb a]
  by_cases hEq : adrSrc = adrDst
  · simp only [hEq, if_true]
    split_ifs
    · exact hPre a
    · exact hPre a
  · simp only [hEq, if_false]
    split_ifs with h1 h2
    · obtain ⟨ha, hLocal⟩ := h1
      have hsome := getAccountFromAddress_ok_local hLocal hga
      subst hsome
      subst ha
      have := checkTxValues_none_funds hValue hc
      have hp := hPre a
      simp only
      omega
    · have hp := hPre a
      simp only
      omega
    · exact hPre a

/-- Witness of C16, on the scenario with both accounts local. -/
theorem ProcessTransaction_balances_nonneg_witness :
    scenarioBothLocal.scProcessor.ComputeTransactionType scenarioTx = .ok .MoveBalance ∧
    (0 : Int) ≤ scenarioTx.Value ∧
    (∀ a, 0 ≤ (scenarioBothLocal.accounts.objects a).Balance) ∧
    scenarioBothLocal.ProcessTransaction (some scenarioTx) 0 =
      ((scenarioBothLocal.ProcessTransaction (some scenarioTx) 0).1, none) ∧
    0 ≤ ((scenarioBothLocal.ProcessTransaction (some scenarioTx) 0).1.objects [1]).Balance :=
  have hPre : ∀ a, 0 ≤ (scenarioBothLocal.accounts.objects a).Balance := by
    intro a
    show 0 ≤ (if a = [1] then (⟨true, 7, 100⟩ : AccountHandler) else ⟨true, 0, 0⟩).Balance
    split_ifs <;> decide
  ⟨rfl, by decide, hPre, rfl,
    ProcessTransaction_balances_nonneg scenarioBothLocal scenarioTx 0
      (scenarioBothLocal.ProcessTransaction (some scenarioTx) 0).1 rfl (by decide) hPre rfl [1]⟩

/-- C17 (failing input): a transfer from the address `[1]` to itself, processed by
a node whose coordinator maps `[1]` to another shard. `getAccounts` takes its
equal-addresses branch, which loads the account without looking at the shard,
and `ProcessTransaction` returns nil with the nonce of that foreign account
raised from 7 to 8. -/
theorem ProcessTransaction_selfTransfer_foreign_account :
    scenarioReceiverLocal.shardCoordinator.ComputeId [1] ≠
      scenarioReceiverLocal.shardCoordinator.SelfId ∧
    scenarioReceiverLocal.scProcessor.ComputeTransactionType scenarioTxSelf = .ok .MoveBalance ∧
    (scenarioReceiverLocal.ProcessTransaction (some scenarioTxSelf) 0).2 = none ∧
    (scenarioReceiverLocal.accounts.objects [1]).Nonce = 7 ∧
    ((scenarioReceiverLocal.ProcessTransaction (some scenarioTxSelf) 0).1.objects [1]).Nonce = 8 :=
  ⟨by decide, rfl, rfl, rfl, rfl⟩

theorem SetBalanceWithJournal_error {accounts post : AccountsAdapter} {p : Bytes} {b : Int}
    {e : ProcessError} (h : accounts.SetBalanceWithJournal p b = (post, some e)) :
    accounts.saveErr p = some e := by
  unfold AccountsAdapter.SetBalanceWithJournal at h
  cases hs : accounts.saveErr p with
  | some e1 =>
    simp only [hs, Prod.mk.injEq, Option.some.injEq] at h
    rw [h.2]
  | none => simp [hs] at h

theorem SetNonceWithJournal_error {accounts post : AccountsAdapter} {p : Bytes} {n : Nat}
    {e : ProcessError} (h : accounts.SetNonceWithJournal p n = (post, some e)) :
    accounts.saveErr p = some e := by
  unfold AccountsAdapter.SetNonceWithJournal at h
  cases hs : accounts.saveErr p with
  | some e1 =>
    simp only [hs, Prod.mk.injEq, Option.some.injEq] at h
    rw [h.2]
  | none => simp [hs] at h

theorem moveBalances_saveErr {accounts post : AccountsAdapter} {acntSrc acntDst : Option Bytes}
    {value : Int} (h : moveBalances accounts acntSrc acntDst value = (post, none)) :
    post.saveErr = accounts.saveErr := by
  unfold moveBalances at h
  cases acntSrc with
  | none =>
    cases acntDst with
    | none =>
      simp only [Prod.mk.injEq, and_true] at h
      rw [← h]
    | some dst =>
      simp only at h
      exact (SetBalanceWithJournal_ok h).1
  | some src =>
    simp only at h
    cases hm : accounts.SetBalanceWithJournal src ((accounts.objects src).Balance - value) with
    | mk mid err =>
      rw [hm] at h
      cases err with
      | some e => simp at h
      | none =>
        have h1 := (SetBalanceWithJournal_ok hm).1
        cases acntDst with
        | none =>
          simp only [Prod.mk.injEq, and_true] at h
          rw [← h, h1]
        | some dst =>
          simp only at h
          rw [(SetBalanceWithJournal_ok h).1, h1]

theorem moveBalances_error {accounts post : AccountsAdapter} {acntSrc acntDst : Option Bytes}
    {value : Int} {e : ProcessError}
    (h : moveBalances accounts acntSrc acntDst value = (post, some e)) :
    ∃ a, accounts.saveErr a = some e := by
  unfold moveBalances at h
  cases acntSrc with
  | none =>
    cases acntDst with
    | none => simp at h
    | some dst =>
      simp only at h
      exact ⟨dst, SetBalanceWithJournal_error h⟩
  | some src =>
    simp only at h
    cases hm : accounts.SetBalanceWithJournal src ((accounts.objects src).Balance - value) with
    | mk mid err =>
      rw [hm] at h
      cases err with
      | some e1 =>
        simp only [Prod.mk.injEq, Option.some.injEq] at h
        refine ⟨src, ?_⟩
        rw [← h.2]
        exact SetBalanceWithJournal_error hm
      | none =>
        have h1 := (SetBalanceWithJournal_ok hm).1
        cases acntDst with
        | none => simp at h
        | some dst =>
          simp only at h
          refine ⟨dst, ?_⟩
          rw [← h1]
          exact SetBalanceWithJournal_error h

theorem loadAccount_error {txProc : txProcessor} {adr : Bytes} {e : ProcessError}
    (h : txProc.loadAccount adr = .error e) :
    e = .ErrWrongTypeAssertion ∨ txProc.accounts.getErr adr = some e := by
  unfold txProcessor.loadAccount AccountsAdapter.GetAccountWithJournal at h
  cases hg : txProc.accounts.getErr adr with
  | some e1 =>
    simp only [hg, Except.error.injEq] at h
    right; rw [h]
  | none =>
    simp only [hg] at h
    split_ifs at h
    left
    simp only [Except.error.injEq] at h
    exact h.symm

theorem getAccounts_error {txProc : txProcessor} {adrSrc adrDst : Bytes} {e : ProcessError}
    (h : txProc.getAccounts adrSrc adrDst = .error e) :
    e = .ErrWrongTypeAssertion ∨ ∃ a, txProc.accounts.getErr a = some e := by
  have key : ∀ adr, txProc.loadAccount adr = .error e →
      e = .ErrWrongTypeAssertion ∨ ∃ a, txProc.accounts.getErr a = some e := by
    intro adr hl
    rcases loadAccount_error hl with h1 | h1
    · exact Or.inl h1
    · exact Or.inr ⟨adr, h1⟩
  unfold txProcessor.getAccounts at h
  by_cases hEq : adrSrc = adrDst
  · simp only [hEq, if_true] at h
    cases hl : txProc.loadAccount adrDst with
    | error e1 =>
      simp only [hl, Except.error.injEq] at h
      subst h
      exact key _ hl
    | ok p => simp [hl] at h
  · simp only [hEq, if_false] at h
    by_cases hs : txProc.shardCoordinator.ComputeId adrSrc = txProc.shardCoordinator.SelfId
    · by_cases hd : txProc.shardCoordinator.ComputeId adrDst = txProc.shardCoordinator.SelfId
      · simp only [hs, hd, decide_True, if_true] at h
        cases hl : txProc.loadAccount adrSrc with
        | error e1 =>
          simp only [hl, Except.map, Except.error.injEq] at h
          subst h
          exact key _ hl
        | ok p =>
          cases hl2 : txProc.loadAccount adrDst with
          | error e1 =>
            simp only [hl, hl2, Except.map, Except.error.injEq] at h
            subst h
            exact key _ hl2
          | ok q => simp [hl, hl2, Except.map] at h
      · simp only [hs, hd, decide_True, decide_False, if_true, if_false, Bool.false_eq_true] at h
        cases hl : txProc.loadAccount adrSrc with
        | error e1 =>
          simp only [hl, Except.map, Except.error.injEq] at h
          subst h
          exact key _ hl
        | ok p => simp [hl, Except.map] at h
    · by_cases hd : txProc.shardCoordinator.ComputeId adrDst = txProc.shardCoordinator.SelfId
      · simp only [hs, hd, decide_True, decide_False, if_true, if_false, Bool.false_eq_true] at h
        cases hl2 : txProc.loadAccount adrDst with
        | error e1 =>
          simp only [hl2, Except.map, Except.error.injEq] at h
          subst h
          exact key _ hl2
        | ok q => simp [hl2, Except.map] at h
      · simp [hs, hd] at h

theorem processMoveBalance_error {txProc : txProcessor} {tx : Transaction}
    {adrSrc adrDst : Bytes} {post : AccountsAdapter} {e : ProcessError}
    (h : txProc.processMoveBalance tx adrSrc adrDst = (post, some e)) :
    e = .ErrWrongTypeAssertion ∨ (∃ a, txProc.accounts.getErr a = some e) ∨
      ∃ a, txProc.accounts.saveErr a = some e := by
  unfold txProcessor.processMoveBalance at h
  cases hg : txProc.getAccounts adrSrc adrDst with
  | error e1 =>
    simp only [hg, Prod.mk.injEq, Option.some.injEq] at h
    rw [← h.2]
    rcases getAccounts_error hg with h1 | h1
    · exact Or.inl h1
    · exact Or.inr (Or.inl h1)
  | ok pr =>
    obtain ⟨acntSrc, acntDst⟩ := pr
    simp only [hg] at h
    cases hm : moveBalances txProc.accounts acntSrc acntDst tx.Value with
    | mk mid err =>
      rw [hm] at h
      cases err with
      | some e1 =>
        simp only [Prod.mk.injEq, Option.some.injEq] at h
        rw [← h.2]
        exact Or.inr (Or.inr (moveBalances_error hm))
      | none =>
        cases acntSrc with
        | none => simp at h
        | some src =>
          simp only [increaseNonce] at h
          refine Or.inr (Or.inr ⟨src, ?_⟩)
          rw [← moveBalances_saveErr hm]
          exact SetNonceWithJournal_error h

theorem getAccountFromAddress_error {txProc : txProcessor} {adr : Bytes} {e : ProcessError}
    (h : txProc.getAccountFromAddress adr = .error e) : txProc.accounts.getErr adr = some e := by
  unfold txProcessor.getAccountFromAddress AccountsAdapter.GetAccountWithJournal at h
  simp only at h
  by_cases hs : txProc.shardCoordinator.SelfId ≠ txProc.shardCoordinator.ComputeId adr
  · rw [if_pos hs] at h
    cases h
  · rw [if_neg hs] at h
    cases hg : txProc.accounts.getErr adr with
    | some e1 =>
      simp only [hg, Except.error.injEq] at h
      rw [h]
    | none => simp [hg] at h

theorem dispatch_error_source {txProc : txProcessor} {tx : Transaction} {adrSrc adrDst : Bytes}
    {roundIndex : Nat} {e : ProcessError} :
    (match txProc.scProcessor.ComputeTransactionType tx with
      | .error err => (txProc.accounts, some err)
      | .ok txType => txProc.dispatch tx adrSrc adrDst roundIndex txType).2 = some e →
    e = .ErrWrongTypeAssertion ∨ e = .ErrWrongTransaction ∨
      txProc.scProcessor.ComputeTransactionType tx = .error e ∨
      (∃ p, (txProc.scProcessor.DeploySmartContract txProc.accounts tx p roundIndex).2 =
        some e) ∨
      (∃ s d,
        (txProc.scProcessor.ExecuteSmartContractTransaction txProc.accounts tx s d roundIndex).2 =
          some e) ∨
      (∃ a, txProc.accounts.getErr a = some e) ∨ ∃ a, txProc.accounts.saveErr a = some e := by
  intro he
  cases ht : txProc.scProcessor.ComputeTransactionType tx with
  | error e1 =>
    simp only [ht, Option.some.injEq] at he
    subst he
    exact Or.inr (Or.inr (Or.inl rfl))
  | ok txType =>
    simp only [ht] at he
    cases txType with
    | MoveBalance =>
      have hmb : txProc.processMoveBalance tx adrSrc adrDst =
          ((txProc.processMoveBalance tx adrSrc adrDst).1, some e) := by
        rw [← he]; rfl
      rcases processMoveBalance_error hmb with h1 | h1 | h1
      · exact Or.inl h1
      · exact Or.inr (Or.inr (Or.inr (Or.inr (Or.inr (Or.inl h1)))))
      · exact Or.inr (Or.inr (Or.inr (Or.inr (Or.inr (Or.inr h1)))))
    | SCDeployment =>
      simp only [txProcessor.dispatch, txProcessor.processSCDeployment] at he
      cases hga : txProc.getAccountFromAddress adrSrc with
      | error e1 =>
        simp only [hga, Option.some.injEq] at he
        subst he
        exact Or.inr (Or.inr (Or.inr (Or.inr (Or.inr (Or.inl
          ⟨adrSrc, getAccountFromAddress_error hga⟩)))))
      | ok acntSrc =>
        simp only [hga] at he
        exact Or.inr (Or.inr (Or.inr (Or.inl ⟨acntSrc, he⟩)))
    | SCInvoking =>
      simp only [txProcessor.dispatch, txProcessor.processSCInvoking] at he
      cases hg : txProc.getAccounts adrSrc adrDst with
      | error e1 =>
        simp only [hg, Option.some.injEq] at he
        subst he
        rcases getAccounts_error hg with h1 | h1
        · exact Or.inl h1
        · exact Or.inr (Or.inr (Or.inr (Or.inr (Or.inr (Or.inl h1)))))
      | ok pr =>
        obtain ⟨s, d⟩ := pr
        simp only [hg] at he
        exact Or.inr (Or.inr (Or.inr (Or.inr (Or.inl ⟨s, d, he⟩))))
    | InvalidTransaction =>
      simp only [txProcessor.dispatch, Option.some.injEq] at he
      exact Or.inr (Or.inl he.symm)

/-- C2 (counterexample): the local sender `[1]` holds 100 at nonce 7 and sends
40 at nonce 7 with gas 1 * 10, so the cost is 50 and the balance is not below
it; the funds check passes, the contract processor refuses the call with
`ErrInsufficientFunds`, and `ProcessTransaction` returns that error. -/
theorem ProcessTransaction_insufficientFunds_from_contract :
    (0 : Int) ≤ scenarioTx.Value ∧
    scenarioSenderLocalRefusing.shardCoordinator.ComputeId [1] =
      scenarioSenderLocalRefusing.shardCoordinator.SelfId ∧
    (scenarioSenderLocalRefusing.accounts.objects [1]).Nonce = scenarioTx.Nonce ∧
    (scenarioSenderLocalRefusing.accounts.objects [1]).Balance = 100 ∧
    (scenarioTx.GasPrice : Int) * (scenarioTx.GasLimit : Int) + scenarioTx.Value = 50 ∧
    scenarioSenderLocalRefusing.checkTxValues scenarioTx (some [1]) = none ∧
    (scenarioSenderLocalRefusing.ProcessTransaction (some scenarioTx) 0).2 =
      some .ErrInsufficientFunds := by
  decide

/-- C2 (amended): for every transaction with `value >= 0` whose sender account
is a local `*state.Account` at the transaction's nonce, with
`cost = gasPrice * gasLimit + value`: the funds check of `checkTxValues` answers
`ErrInsufficientFunds` exactly when `cost > 0` and the balance is below `cost`;
in that case `ProcessTransaction` returns `ErrInsufficientFunds` and leaves the
ledger as it was; otherwise the check passes and `ProcessTransaction` goes on
to classify and dispatch the transaction; with `cost = 0` the check passes
whatever the balance; and `ProcessTransaction` returns `ErrInsufficientFunds`
exactly when `cost > 0` and the balance is below `cost`, provided no
collaborator hands that error back after the check (the classification, the
contract processor, a load or a journalled write of the accounts adapter). -/
theorem checkTxValues_insufficientFunds (txProc : txProcessor) (tx : Transaction)
    (roundIndex : Nat) (adrSrc adrDst : Bytes)
    (hValue : 0 ≤ tx.Value)
    (hSnd : txProc.adrConv tx.SndAddr = .ok adrSrc)
    (hRcv : txProc.adrConv tx.RcvAddr = .ok adrDst)
    (hLocal : txProc.shardCoordinator.ComputeId adrSrc = txProc.shardCoordinator.SelfId)
    (hGet : txProc.accounts.getErr adrSrc = none)
    (hAcc : (txProc.accounts.objects adrSrc).isAccount = true)
    (hNonce : (txProc.accounts.objects adrSrc).Nonce = tx.Nonce) :
    (txProc.checkTxValues tx (some adrSrc) = some .ErrInsufficientFunds ↔
      0 < (tx.GasPrice : Int) * (tx.GasLimit : Int) + tx.Value ∧
      (txProc.accounts.objects adrSrc).Balance <
        (tx.GasPrice : Int) * (tx.GasLimit : Int) + tx.Value) ∧
    (0 < (tx.GasPrice : Int) * (tx.GasLimit : Int) + tx.Value ∧
      (txProc.accounts.objects adrSrc).Balance <
        (tx.GasPrice : Int) * (tx.GasLimit : Int) + tx.Value →
      txProc.ProcessTransaction (some tx) roundIndex =
        (txProc.accounts, some .ErrInsufficientFunds)) ∧
    (¬ (0 < (tx.GasPrice : Int) * (tx.GasLimit : Int) + tx.Value ∧
      (txProc.accounts.objects adrSrc).Balance <
        (tx.GasPrice : Int) * (tx.GasLimit : Int) + tx.Value) →
      txProc.checkTxValues tx (some adrSrc) = none ∧
      txProc.ProcessTransaction (some tx) roundIndex =
        match txProc.scProcessor.ComputeTransactionType tx with
        | .error err => (txProc.accounts, some err)
        | .ok txType => txProc.dispatch tx adrSrc adrDst roundIndex txType) ∧
    ((tx.GasPrice : Int) * (tx.GasLimit : Int) + tx.Value = 0 →
      txProc.checkTxValues tx (some adrSrc) = none) ∧
    (txProc.scProcessor.ComputeTransactionType tx ≠ .error .ErrInsufficientFunds →
     (∀ p, (txProc.scProcessor.DeploySmartContract txProc.accounts tx p roundIndex).2 ≠
        some .ErrInsufficientFunds) →
     (∀ s d,
        (txProc.scProcessor.ExecuteSmartContractTransaction txProc.accounts tx s d roundIndex).2 ≠
          some .ErrInsufficientFunds) →
     (∀ a, txProc.accounts.getErr a ≠ some .ErrInsufficientFunds) →
     (∀ a, txProc.accounts.saveErr a ≠ some .ErrInsufficientFunds) →
     ((txProc.ProcessTransaction (some tx) roundIndex).2 = some .ErrInsufficientFunds ↔
        0 < (tx.GasPrice : Int) * (tx.GasLimit : Int) + tx.Value ∧
        (txProc.accounts.objects adrSrc).Balance <
          (tx.GasPrice : Int) * (tx.GasLimit : Int) + tx.Value)) := by
  have hcost : (0 : Int) ≤ (tx.GasPrice : Int) * (tx.GasLimit : Int) + tx.Value := by positivity
  have hunf := ProcessTransaction_unfold txProc tx roundIndex adrSrc adrDst hSnd hRcv
  rw [getAccountFromAddress_local hLocal hGet] at hunf
  simp only at hunf
  have hchk : txProc.checkTxValues tx (some adrSrc) =
      if (tx.GasPrice : Int) * (tx.GasLimit : Int) + tx.Value = 0 then none
      else if (txProc.accounts.objects adrSrc).Balance <
          (tx.GasPrice : Int) * (tx.GasLimit : Int) + tx.Value
        then some .ErrInsufficientFunds else none := by
    simp [txProcessor.checkTxValues, hNonce, hAcc]
  have hIf : 0 < (tx.GasPrice : Int) * (tx.GasLimit : Int) + tx.Value ∧
      (txProc.accounts.objects adrSrc).Balance <
        (tx.GasPrice : Int) * (tx.GasLimit : Int) + tx.Value →
      txProc.ProcessTransaction (some tx) roundIndex =
        (txProc.accounts, some .ErrInsufficientFunds) := by
    rintro ⟨hpos, hb⟩
    rw [hunf, hchk]
    simp [ne_of_gt hpos, hb]
  have hElse : ¬ (0 < (tx.GasPrice : Int) * (tx.GasLimit : Int) + tx.Value ∧
      (txProc.accounts.objects adrSrc).Balance <
        (tx.GasPrice : Int) * (tx.GasLimit : Int) + tx.Value) →
      txProc.checkTxValues tx (some adrSrc) = none ∧
      txProc.ProcessTransaction (some tx) roundIndex =
        match txProc.scProcessor.ComputeTransactionType tx with
        | .error err => (txProc.accounts, some err)
        | .ok txType => txProc.dispatch tx adrSrc adrDst roundIndex txType := by
    intro hn
    have hc : txProc.checkTxValues tx (some adrSrc) = none := by
      rw [hchk]
      by_cases h0 : (tx.GasPrice : Int) * (tx.GasLimit : Int) + tx.Value = 0
      · simp [h0]
      · have hpos : 0 < (tx.GasPrice : Int) * (tx.GasLimit : Int) + tx.Value :=
          lt_of_le_of_ne hcost (Ne.symm h0)
        have hb : ¬ (txProc.accounts.objects adrSrc).Balance <
            (tx.GasPrice : Int) * (tx.GasLimit : Int) + tx.Value := fun hb => hn ⟨hpos, hb⟩
        simp [h0, hb]
    refine ⟨hc, ?_⟩
    rw [hunf, hc]
  refine ⟨?_, hIf, hElse, ?_, ?_⟩
  · rw [hchk]
    by_cases h0 : (tx.GasPrice : Int) * (tx.GasLimit : Int) + tx.Value = 0
    · simp [h0]
    · have hpos : 0 < (tx.GasPrice : Int) * (tx.GasLimit : Int) + tx.Value :=
        lt_of_le_of_ne hcost (Ne.symm h0)
      by_cases hb : (txProc.accounts.objects adrSrc).Balance <
          (tx.GasPrice : Int) * (tx.GasLimit : Int) + tx.Value
      · simp [h0, hb, hpos]
      · simp [h0, hb]
  · intro h0
    rw [hchk]
    simp [h0]
  · intro hType hDeploy hExec hLoad hSave
    constructor
    · intro he
      by_contra hn
      rw [(hElse hn).2] at he
      rcases dispatch_error_source he with h | h | h | ⟨p, h⟩ | ⟨sd, d, h⟩ | ⟨a, h⟩ | ⟨a, h⟩
      · cases h
      · cases h
      · exact hType h
      · exact hDeploy p h
      · exact hExec sd d h
      · exact hLoad a h
      · exact hSave a h
    · intro hc
      rw [hIf hc]

/-- Witness of C2: value 95 with gas 10 against balance 100. -/
theorem checkTxValues_insufficientFunds_witness :
    (0 : Int) ≤ scenarioTxTooDear.Value ∧
    scenarioSenderLocal.adrConv scenarioTxTooDear.SndAddr = .ok [1] ∧
    scenarioSenderLocal.adrConv scenarioTxTooDear.RcvAddr = .ok [2] ∧
    scenarioSenderLocal.shardCoordinator.ComputeId [1] =
      scenarioSenderLocal.shardCoordinator.SelfId ∧
    scenarioSenderLocal.accounts.getErr [1] = none ∧
    (scenarioSenderLocal.accounts.objects [1]).isAccount = true ∧
    (scenarioSenderLocal.accounts.objects [1]).Nonce = scenarioTxTooDear.Nonce ∧
    scenarioSenderLocal.ProcessTransaction (some scenarioTxTooDear) 0 =
      (scenarioSenderLocal.accounts, some .ErrInsufficientFunds) :=
  ⟨by decide, rfl, rfl, rfl, rfl, rfl, rfl,
    (checkTxValues_insufficientFunds scenarioSenderLocal scenarioTxTooDear 0 [1] [2]
      (by decide) rfl rfl rfl rfl rfl rfl).2.1 ⟨by decide, by decide⟩⟩

/-- C19 (counterexample): on the node where the sender `[1]` is of another
shard, no sender account is loaded for validation, and `ProcessTransaction`
returns `ErrInsufficientFunds`: the error of the contract processor, handed
back unchanged by `processSCInvoking`. -/
theorem ProcessTransaction_foreign_sender_contract_error :
    scenarioReceiverLocalRefusing.shardCoordinator.ComputeId [1] ≠
      scenarioReceiverLocalRefusing.shardCoordinator.SelfId ∧
    scenarioReceiverLocalRefusing.getAccountFromAddress [1] = .ok none ∧
    (scenarioReceiverLocalRefusing.ProcessTransaction (some scenarioTx) 0).2 =
      some .ErrInsufficientFunds :=
  ⟨by decide, rfl, by decide⟩

/-- C19 (amended): when the sender's shard differs from the local shard,
`ProcessTransaction` loads no sender account for validation
(`getAccountFromAddress` answers nil), `checkTxValues` has nothing to check,
and the call is the classification followed by the dispatch alone; whatever
the transaction's nonce, value, gasPrice and gasLimit, it returns none of
`ErrHigherNonceInTransaction`, `ErrLowerNonceInTransaction` and
`ErrInsufficientFunds`, unless a collaborator (the classification, the
contract processor, a load or a write of the accounts adapter) hands that
error back. -/
theorem ProcessTransaction_foreign_sender (txProc : txProcessor) (tx : Transaction)
    (roundIndex : Nat) (adrSrc adrDst : Bytes)
    (hSnd : txProc.adrConv tx.SndAddr = .ok adrSrc)
    (hRcv : txProc.adrConv tx.RcvAddr = .ok adrDst)
    (hForeign : txProc.shardCoordinator.ComputeId adrSrc ≠ txProc.shardCoordinator.SelfId) :
    txProc.getAccountFromAddress adrSrc = .ok none ∧
    txProc.checkTxValues tx none = none ∧
    txProc.ProcessTransaction (some tx) roundIndex =
      (match txProc.scProcessor.ComputeTransactionType tx with
       | .error err => (txProc.accounts, some err)
       | .ok txType => txProc.dispatch tx adrSrc adrDst roundIndex txType) ∧
    ((∀ e, txProc.scProcessor.ComputeTransactionType tx = .error e → ¬ isDebitSideError e) →
     (∀ p e, (txProc.scProcessor.DeploySmartContract txProc.accounts tx p roundIndex).2 = some e →
        ¬ isDebitSideError e) →
     (∀ s d e,
        (txProc.scProcessor.ExecuteSmartContractTransaction txProc.accounts tx s d roundIndex).2 =
          some e → ¬ isDebitSideError e) →
     (∀ a e, txProc.accounts.getErr a = some e → ¬ isDebitSideError e) →
     (∀ a e, txProc.accounts.saveErr a = some e → ¬ isDebitSideError e) →
     ∀ e, (txProc.ProcessTransaction (some tx) roundIndex).2 = some e → ¬ isDebitSideError e) := by
  have hga : txProc.getAccountFromAddress adrSrc = .ok none := by
    unfold txProcessor.getAccountFromAddress
    simp only
    rw [if_pos (fun h => hForeign h.symm)]
  have hPT : txProc.ProcessTransaction (some tx) roundIndex =
      (match txProc.scProcessor.ComputeTransactionType tx with
       | .error err => (txProc.accounts, some err)
       | .ok txType => txProc.dispatch tx adrSrc adrDst roundIndex txType) := by
    rw [ProcessTransaction_unfold txProc tx roundIndex adrSrc adrDst hSnd hRcv, hga]
    rfl
  have hWTA : ¬ isDebitSideError .ErrWrongTypeAssertion := by
    unfold isDebitSideError; decide
  have hWT : ¬ isDebitSideError .ErrWrongTransaction := by
    unfold isDebitSideError; decide
  refine ⟨hga, rfl, hPT, ?_⟩
  intro hType hDeploy hExec hGet hSave e he
  rw [hPT] at he
  cases ht : txProc.scProcessor.ComputeTransactionType tx with
  | error e1 =>
    simp only [ht, Option.some.injEq] at he
    subst he
    exact hType _ ht
  | ok txType =>
    simp only [ht] at he
    cases txType with
    | MoveBalance =>
      have hmb : txProc.processMoveBalance tx adrSrc adrDst =
          ((txProc.processMoveBalance tx adrSrc adrDst).1, some e) := by
        rw [← he]; rfl
      rcases processMoveBalance_error hmb with h1 | ⟨a, h1⟩ | ⟨a, h1⟩
      · rw [h1]; exact hWTA
      · exact hGet a e h1
      · exact hSave a e h1
    | SCDeployment =>
      simp only [txProcessor.dispatch, txProcessor.processSCDeployment, hga] at he
      exact hDeploy _ e he
    | SCInvoking =>
      simp only [txProcessor.dispatch, txProcessor.processSCInvoking] at he
      cases hg : txProc.getAccounts adrSrc adrDst with
      | error e1 =>
        simp only [hg, Option.some.injEq] at he
        subst he
        rcases getAccounts_error hg with h1 | ⟨a, h1⟩
        · rw [h1]; exact hWTA
        · exact hGet a _ h1
      | ok pr =>
        obtain ⟨s, d⟩ := pr
        simp only [hg] at he
        exact hExec s d e he
    | InvalidTransaction =>
      simp only [txProcessor.dispatch, Option.some.injEq] at he
      rw [← he]; exact hWT

/-- Witness of C19: the transfer of 95 (plus gas 10) out of the foreign account
`[1]`, which holds 100, on the node where only `[2]` is local. -/
theorem ProcessTransaction_foreign_sender_witness :
    scenarioReceiverLocal.adrConv scenarioTxTooDear.SndAddr = .ok [1] ∧
    scenarioReceiverLocal.adrConv scenarioTxTooDear.RcvAddr = .ok [2] ∧
    scenarioReceiverLocal.shardCoordinator.ComputeId [1] ≠
      scenarioReceiverLocal.shardCoordinator.SelfId ∧
    scenarioReceiverLocal.getAccountFromAddress [1] = .ok none ∧
    (scenarioReceiverLocal.ProcessTransaction (some scenarioTxTooDear) 0).2 = none ∧
    ∀ e, (scenarioReceiverLocal.ProcessTransaction (some scenarioTxTooDear) 0).2 = some e →
      ¬ isDebitSideError e :=
  have h := ProcessTransaction_foreign_sender scenarioReceiverLocal scenarioTxTooDear 0 [1] [2]
    rfl rfl (by decide)
  ⟨rfl, rfl, by decide, h.1, rfl,
    h.2.2.2 (by intro e he; cases he) (by intro p e he; cases he)
      (by intro s d e he; cases he) (by intro a e he; cases he) (by intro a e he; cases he)⟩

theorem SetBalanceWithJournal_journal {accounts post : AccountsAdapter} {p : Bytes} {b : Int}
    (h : accounts.SetBalanceWithJournal p b = (post, none)) :
    post.journal = .balance p (accounts.objects p).Balance b :: accounts.journal := by
  unfold AccountsAdapter.SetBalanceWithJournal at h
  cases hs : accounts.saveErr p with
  | some e => simp [hs] at h
  | none =>
    simp only [hs, Prod.mk.injEq, and_true] at h
    subst h
    rfl

theorem SetNonceWithJournal_journal {accounts post : AccountsAdapter} {p : Bytes} {n : Nat}
    (h : accounts.SetNonceWithJournal p n = (post, none)) :
    post.journal = .nonce p (accounts.objects p).Nonce n :: accounts.journal := by
  unfold AccountsAdapter.SetNonceWithJournal at h
  cases hs : accounts.saveErr p with
  | some e => simp [hs] at h
  | none =>
    simp only [hs, Prod.mk.injEq, and_true] at h
    subst h
    rfl

theorem moveBalances_journal {accounts post : AccountsAdapter} {acntSrc acntDst : Option Bytes}
    {value : Int} :
    moveBalances accounts acntSrc acntDst value = (post, none) →
    post.journal =
      (match acntDst with
        | some dst =>
          [JournalEntry.balance dst
            (if acntSrc = some dst then (accounts.objects dst).Balance - value
              else (accounts.objects dst).Balance)
            ((if acntSrc = some dst then (accounts.objects dst).Balance - value
              else (accounts.objects dst).Balance) + value)]
        | none => []) ++
      (match acntSrc with
        | some src =>
          [JournalEntry.balance src (accounts.objects src).Balance
            ((accounts.objects src).Balance - value)]
        | none => []) ++ accounts.journal := by
  intro h
  unfold moveBalances at h
  cases acntSrc with
  | none =>
    cases acntDst with
    | none =>
      simp only [Prod.mk.injEq, and_true] at h
      subst h
      rfl
    | some dst =>
      simp only at h
      rw [SetBalanceWithJournal_journal h]
      simp
  | some src =>
    simp only at h
    cases hm : accounts.SetBalanceWithJournal src ((accounts.objects src).Balance - value) with
    | mk mid err =>
      rw [hm] at h
      cases err with
      | some e => simp at h
      | none =>
        have hj := SetBalanceWithJournal_journal hm
        have ho := (SetBalanceWithJournal_ok hm).2
        cases acntDst with
        | none =>
          simp only [Prod.mk.injEq, and_true] at h
          subst h
          rw [hj]
          simp
        | some dst =>
          simp only at h
          rw [SetBalanceWithJournal_journal h, hj, ho dst]
          by_cases hd : dst = src
          · subst hd; simp
          · have hd2 : ¬ src = dst := fun e => hd e.symm
            simp [hd, hd2]

theorem processMoveBalance_journal {txProc : txProcessor} {tx : Transaction}
    {adrSrc adrDst : Bytes} {post : AccountsAdapter} :
    txProc.processMoveBalance tx adrSrc adrDst = (post, none) →
    ∃ acntSrc acntDst,
      txProc.getAccounts adrSrc adrDst = .ok (acntSrc, acntDst) ∧
      post.journal =
        (match acntSrc with
          | some src =>
            [JournalEntry.nonce src (txProc.accounts.objects src).Nonce
              (((txProc.accounts.objects src).Nonce + 1) % 2 ^ 64)]
          | none => []) ++
        (match acntDst with
          | some dst =>
            [JournalEntry.balance dst
              (if acntSrc = some dst then (txProc.accounts.objects dst).Balance - tx.Value
                else (txProc.accounts.objects dst).Balance)
              ((if acntSrc = some dst then (txProc.accounts.objects dst).Balance - tx.Value
                else (txProc.accounts.objects dst).Balance) + tx.Value)]
          | none => []) ++
        (match acntSrc with
          | some src =>
            [JournalEntry.balance src (txProc.accounts.objects src).Balance
              ((txProc.accounts.objects src).Balance - tx.Value)]
          | none => []) ++ txProc.accounts.journal := by
  intro h
  unfold txProcessor.processMoveBalance at h
  cases hg : txProc.getAccounts adrSrc adrDst with
  | error e => simp [hg] at h
  | ok pr =>
    obtain ⟨acntSrc, acntDst⟩ := pr
    simp only [hg] at h
    cases hm : moveBalances txProc.accounts acntSrc acntDst tx.Value with
    | mk mid err =>
      rw [hm] at h
      cases err with
      | some e => simp at h
      | none =>
        refine ⟨acntSrc, acntDst, rfl, ?_⟩
        have hj := moveBalances_journal hm
        obtain ⟨mid0, hmid0, hmid⟩ := moveBalances_ok hm
        cases acntSrc with
        | none =>
          simp only [Prod.mk.injEq, and_true] at h
          subst h
          rw [hj]
          simp
        | some src =>
          simp only [increaseNonce] at h
          rw [SetNonceWithJournal_journal h, hj, hmid src, hmid0 src]
          by_cases hd : some src = acntDst
          · simp [hd]
          · simp [hd]

/-- C18 (counterexample): on the node where both `[1]` and `[2]` are local, the
transfer of 40 from `[1]` to `[2]` returns nil after executing both the debit
of the sender and the credit of the receiver, as the journal of the ledger
shows; on the node where neither is local the same transfer returns nil with
no write at all. -/
theorem ProcessTransaction_moveBalance_debits_and_credits :
    (scenarioBothLocal.ProcessTransaction (some scenarioTx) 0).2 = none ∧
    (scenarioBothLocal.ProcessTransaction (some scenarioTx) 0).1.journal =
      [.nonce [1] 7 8, .balance [2] 0 40, .balance [1] 100 60] ∧
    (scenarioNoneLocal.ProcessTransaction (some scenarioTx) 0).2 = none ∧
    (scenarioNoneLocal.ProcessTransaction (some scenarioTx) 0).1.journal = [] :=
  ⟨rfl, rfl, rfl, rfl⟩

/-- C18 (amended): for every transaction on which `ProcessTransaction` returns
nil, exactly one of the three processing paths executes, the one of the
transaction's type: `processMoveBalance`, or the hand-off to
`DeploySmartContract`, or the hand-off to `ExecuteSmartContractTransaction`.
On the `processMoveBalance` path the writes are the debit of the sender when
its account is loaded, then the credit of the receiver when its account is
loaded, then the sender's nonce increase: both for a transfer inside the
shard, none when no account is loaded. -/
theorem ProcessTransaction_ok_one_path (txProc : txProcessor) (tx : Transaction)
    (roundIndex : Nat) (post : AccountsAdapter)
    (hOk : txProc.ProcessTransaction (some tx) roundIndex = (post, none)) :
    ∃ adrSrc adrDst txType,
      txProc.adrConv tx.SndAddr = .ok adrSrc ∧ txProc.adrConv tx.RcvAddr = .ok adrDst ∧
      txProc.scProcessor.ComputeTransactionType tx = .ok txType ∧
      match txType with
      | .MoveBalance =>
        ∃ acntSrc acntDst,
          txProc.getAccounts adrSrc adrDst = .ok (acntSrc, acntDst) ∧
          post.journal =
            (match acntSrc with
              | some src =>
                [JournalEntry.nonce src (txProc.accounts.objects src).Nonce
                  (((txProc.accounts.objects src).Nonce + 1) % 2 ^ 64)]
              | none => []) ++
            (match acntDst with
              | some dst =>
                [JournalEntry.balance dst
                  (if acntSrc = some dst then (txProc.accounts.objects dst).Balance - tx.Value
                    else (txProc.accounts.objects dst).Balance)
                  ((if acntSrc = some dst then (txProc.accounts.objects dst).Balance - tx.Value
                    else (txProc.accounts.objects dst).Balance) + tx.Value)]
              | none => []) ++
            (match acntSrc with
              | some src =>
                [JournalEntry.balance src (txProc.accounts.objects src).Balance
                  ((txProc.accounts.objects src).Balance - tx.Value)]
              | none => []) ++ txProc.accounts.journal
      | .SCDeployment =>
        ∃ acntSrc,
          txProc.getAccountFromAddress adrSrc = .ok acntSrc ∧
          txProc.scProcessor.DeploySmartContract txProc.accounts tx acntSrc roundIndex =
            (post, none)
      | .SCInvoking =>
        ∃ acntSrc acntDst,
          txProc.getAccounts adrSrc adrDst = .ok (acntSrc, acntDst) ∧
          txProc.scProcessor.ExecuteSmartContractTransaction txProc.accounts tx acntSrc acntDst
            roundIndex = (post, none)
      | .InvalidTransaction => False := by
  obtain ⟨adrSrc, adrDst, acntSnd, txType, hS, hR, hga, hc, ht, hd⟩ :=
    ProcessTransaction_ok_inv hOk
  refine ⟨adrSrc, adrDst, txType, hS, hR, ht, ?_⟩
  cases txType with
  | MoveBalance => exact processMoveBalance_journal hd
  | SCDeployment =>
    simp only [txProcessor.dispatch, txProcessor.processSCDeployment] at hd
    cases hg : txProc.getAccountFromAddress adrSrc with
    | error e => simp [hg] at hd
    | ok acntSrc =>
      simp only [hg] at hd
      exact ⟨acntSrc, rfl, hd⟩
  | SCInvoking =>
    simp only [txProcessor.dispatch, txProcessor.processSCInvoking] at hd
    cases hg : txProc.getAccounts adrSrc adrDst with
    | error e => simp [hg] at hd
    | ok pr =>
      obtain ⟨s, d⟩ := pr
      simp only [hg] at hd
      exact ⟨s, d, rfl, hd⟩
  | InvalidTransaction => simp [txProcessor.dispatch] at hd

/-- Witness of C18, on the transfer received from another shard. -/
theorem ProcessTransaction_ok_one_path_witness :
    scenarioReceiverLocal.ProcessTransaction (some scenarioTx) 0 =
      ((scenarioReceiverLocal.ProcessTransaction (some scenarioTx) 0).1, none) ∧
    ∃ adrSrc adrDst txType,
      scenarioReceiverLocal.adrConv scenarioTx.SndAddr = .ok adrSrc ∧
      scenarioReceiverLocal.adrConv scenarioTx.RcvAddr = .ok adrDst ∧
      scenarioReceiverLocal.scProcessor.ComputeTransactionType scenarioTx = .ok txType :=
  ⟨rfl,
    (ProcessTransaction_ok_one_path scenarioReceiverLocal scenarioTx 0
      (scenarioReceiverLocal.ProcessTransaction (some scenarioTx) 0).1 rfl).imp
      fun _ h => h.imp fun _ h => h.imp fun _ h => ⟨h.1, h.2.1, h.2.2.1⟩⟩

theorem finalMiniBlocks_replicate (selfId blockType : Nat) (n i : Nat) :
    finalMiniBlocks selfId blockType i (List.replicate n ⟨[], 0, 0, 0⟩) = [] := by
  induction n generalizing i with
  | zero => rfl
  | succ n ih =>
    rw [List.replicate_succ, finalMiniBlocks]
    simp only [List.length_nil, gt_iff_lt, lt_self_iff_false, if_false]
    exact ih (i + 1)

/-- C20: the registry is cleared at `CreateBlockStarted`: whatever calls of
`AddIntermediateTransactions` came before, on whatever processor, the call of
`CreateAllInterMiniBlocks` that follows `CreateBlockStarted` returns an empty
map (`visit` being the entries of the registry as `range` yields them). -/
theorem CreateBlockStarted_clears (irp : intermediateResultsProcessor)
    (batches : List (List TransactionHandler)) (visit : List (Bytes × txInfo))
    (hVisit : visit.Perm (irp.addBatches batches).1.CreateBlockStarted.interResultsForBlock) :
    (irp.addBatches batches).1.CreateBlockStarted.interResultsForBlock = [] ∧
    (irp.addBatches batches).1.CreateBlockStarted.CreateAllInterMiniBlocks visit = some [] := by
  have hnil : (irp.addBatches batches).1.CreateBlockStarted.interResultsForBlock = [] := rfl
  rw [hnil] at hVisit
  have hv : visit = [] := List.Perm.eq_nil hVisit
  subst hv
  refine ⟨rfl, ?_⟩
  unfold intermediateResultsProcessor.CreateAllInterMiniBlocks
  simp only [groupByReceiver]
  rw [finalMiniBlocks_replicate]

/-- Witness of C20: the scenario aggregator after two calls that filed four
results. -/
theorem CreateBlockStarted_clears_witness :
    (scenarioIrp.addBatches [[.scr scrA, .scr scrB], [.scr scrC, .scr scrD]]).1.interResultsForBlock
      = scenarioFiled ∧
    List.Perm []
      (scenarioIrp.addBatches
        [[.scr scrA, .scr scrB], [.scr scrC, .scr scrD]]).1.CreateBlockStarted.interResultsForBlock ∧
    (scenarioIrp.addBatches
      [[.scr scrA, .scr scrB], [.scr scrC, .scr scrD]]).1.CreateBlockStarted.CreateAllInterMiniBlocks
        [] = some [] :=
  ⟨by decide, List.Perm.nil,
    (CreateBlockStarted_clears scenarioIrp [[.scr scrA, .scr scrB], [.scr scrC, .scr scrD]] []
      List.Perm.nil).2⟩

/-! ## The fork detector -/

section ForkDetector

open sync

/-- The assertions of the tests of `AddHeader` and `CheckBlockValidity` in
basicForkDetector_test.go, replayed on the model; the hash `[]byte("hashN")`
of a test is `[N]` here. -/
theorem TestBasicForkDetector_AddHeader :
    ((NewBasicForkDetector 100).AddHeader none (some []) .BHProcessed).2 = some .ErrNilHeader ∧
    ((NewBasicForkDetector 100).AddHeader (some (signedHeader 0 0)) none .BHProcessed).2 =
      some .ErrNilHash ∧
    ((NewBasicForkDetector 1).AddHeader
      (some { signedHeader 1 1 with PubKeysBitmap := [] }) (some []) .BHProcessed).2 =
      some .ErrBlockIsNotSigned ∧
    ((NewBasicForkDetector 1).AddHeader (some (signedHeader 1 1)) (some []) .BHProcessed).2 = none ∧
    (((NewBasicForkDetector 1).AddHeader (some (signedHeader 1 1)) (some []) .BHProcessed).1.GetHeaders
      1).map (fun hInfo => hInfo.hash) = [[]] ∧
    ((addAt (addAt (NewBasicForkDetector 1) 1 (signedHeader 1 1) [1] .BHProcessed) 1
      (signedHeader 1 1) [2] .BHProcessed).GetHeaders 1).map (fun hInfo => hInfo.hash) =
      [[1], [2]] ∧
    (addAt (NewBasicForkDetector 73) 73 (signedHeader 69 72) [1] .BHProcessed).checkpoint.nonce =
      69 ∧
    ((addAt (addAt (NewBasicForkDetector 1) 1 (signedHeader 1 1) [1] .BHReceived) 1
      (signedHeader 1 1) [1] .BHProcessed).GetHeaders 1) =
      [⟨signedHeader 1 1, [1], .BHProcessed⟩] := by
  decide

/-- See `TestBasicForkDetector_AddHeader`. -/
theorem TestBasicForkDetector_CheckBlockValidity :
    (((NewBasicForkDetector 100).SetFinalCheckpoint 1 1).CheckBlockValidity (signedHeader 0 0)
      .BHProcessed) = some .ErrLowerRoundInBlock ∧
    (((NewBasicForkDetector 100).SetFinalCheckpoint 1 1).CheckBlockValidity (signedHeader 1 2)
      .BHProcessed) = some .ErrLowerNonceInBlock ∧
    ((NewBasicForkDetector 0).CheckBlockValidity (signedHeader 1 2) .BHProcessed) =
      some .ErrHigherRoundInBlock ∧
    (((NewBasicForkDetector 100).SetFinalCheckpoint 97 97).CheckBlockValidity (signedHeader 98 98)
      .BHReceived) = some .ErrLowerRoundInBlock ∧
    ((NewBasicForkDetector 1).CheckBlockValidity (signedHeader 2 1) .BHProcessed) =
      some .ErrHigherNonceInBlock ∧
    ((NewBasicForkDetector 1).CheckBlockValidity { signedHeader 1 1 with PubKeysBitmap := [] }
      .BHProposed) = some .ErrRandomSeedNotValid ∧
    ((NewBasicForkDetector 1).CheckBlockValidity { signedHeader 1 1 with PubKeysBitmap := [] }
      .BHProcessed) = some .ErrBlockIsNotSigned ∧
    ((NewBasicForkDetector 1).CheckBlockValidity (signedHeader 1 1) .BHProcessed) = none := by
  decide

/-- The assertions of the tests of the removals in basicForkDetector_test.go,
replayed on the model. -/
theorem TestBasicForkDetector_Remove :
    ((addAt (addAt (NewBasicForkDetector 0) 1 (signedHeader 1 1) [1] .BHProcessed) 2
      (signedHeader 2 2) [2] .BHProcessed).GetHeaders 1).length = 1 ∧
    ((addAt (addAt (NewBasicForkDetector 0) 1 (signedHeader 1 1) [1] .BHProcessed) 2
      (signedHeader 2 2) [2] .BHProcessed).GetHeaders 2).length = 1 ∧
    (((addAt (addAt (NewBasicForkDetector 0) 1 (signedHeader 1 1) [1] .BHProcessed) 2
      (signedHeader 2 2) [2] .BHProcessed).RemoveHeaders 1 [1]).GetHeaders 1) = [] ∧
    (((addAt (addAt (NewBasicForkDetector 0) 1 (signedHeader 1 1) [1] .BHProcessed) 2
      (signedHeader 2 2) [2] .BHProcessed).RemoveHeaders 1 [1]).GetHeaders 2).length = 1 ∧
    (addAt (NewBasicForkDetector 2) 2 (signedHeader 2 2) [1] .BHProcessed).checkpoint.nonce = 2 ∧
    ((addAt (NewBasicForkDetector 2) 2 (signedHeader 2 2) [1] .BHProcessed).RemoveHeaders 2
      [1]).checkpoint = ⟨0, 0⟩ ∧
    (let bfd := ((addAt (addAt (addAt (addAt (NewBasicForkDetector 0)
        11 (signedHeader 8 10) [0] .BHReceived) 13 (signedHeader 9 12) [1] .BHReceived)
        16 (signedHeader 13 15) [2] .BHReceived) 15 (signedHeader 10 14) [3]
        .BHReceived).SetFinalCheckpoint 9 12).RemoveInvalidHeaders
     bfd.GetHeaders 8 = [] ∧ bfd.GetHeaders 9 ≠ [] ∧ bfd.GetHeaders 13 = [] ∧
       bfd.GetHeaders 10 ≠ [] ∧ bfd.probableHighestNonce = 13 ∧
       bfd.ComputeProbableHighestNonce = 10) ∧
    (let bfd := addAt (addAt (addAt (addAt (addAt (NewBasicForkDetector 0)
        11 (signedHeader 8 10) [0] .BHReceived) 13 (signedHeader 9 12) [1] .BHProcessed)
        16 (signedHeader 13 15) [2] .BHReceived) 15 (signedHeader 10 14) [3] .BHProcessed)
        16 (signedHeader 11 15) [3] .BHReceived
     bfd.probableHighestNonce = 11 ∧ bfd.finalCheckpoint = ⟨9, 12⟩ ∧
       bfd.checkpoint = ⟨10, 14⟩) ∧
    (let bfd := addAt (addAt (addAt (NewBasicForkDetector 0)
        1 (signedHeader 2 1) [1] .BHProcessed) 3 (signedHeader 3 3) [2] .BHProcessed)
        4 (signedHeader 4 4) [3] .BHProcessed
     bfd.finalCheckpoint.nonce = 3 ∧
       (addAt bfd 5 (signedHeader 6 5) [4] .BHProcessed).finalCheckpoint.nonce = 3) ∧
    (let bfd := ((addAt (addAt (addAt (NewBasicForkDetector 100)
        100 (signedHeader 1 0) [1] .BHReceived) 100 (signedHeader 2 0) [2] .BHReceived)
        100 (signedHeader 3 0) [3] .BHReceived).SetFinalCheckpoint 4 4).RemovePastHeaders
     bfd.GetHeaders 3 = [] ∧ bfd.GetHeaders 2 = [] ∧ bfd.GetHeaders 1 = []) := by
  decide

/-- The assertions of the tests of `CheckFork` in basicForkDetector_test.go,
replayed on the model. -/
theorem TestBasicForkDetector_CheckFork :
    (addAt (addAt (NewBasicForkDetector 100) 100 (signedHeader 0 0) [1] .BHProcessed) 100
      (signedHeader 1 0) [2] .BHProcessed).CheckFork.2 = (false, MaxUint64, none) ∧
    (addAt (addAt (NewBasicForkDetector 100) 100 (signedHeader 1 3) [1] .BHReceived) 100
      (signedHeader 1 2) [2] .BHReceived).CheckFork.2 = (false, MaxUint64, none) ∧
    (let bfd := addAt (addAt (addAt (NewBasicForkDetector 0)
        5 (signedHeader 1 4) [1] .BHReceived) 4 (signedHeader 1 3) [2] .BHReceived)
        3 (signedHeader 1 2) [3] .BHProcessed
     (bfd.GetHeaders 1).length = 3 ∧ bfd.CheckFork.2 = (false, MaxUint64, none) ∧
       (bfd.CheckFork.1.GetHeaders 1).length = 1) ∧
    (let bfd := addAt (addAt (NewBasicForkDetector 0)
        4 (signedHeader 1 3) [1] .BHProcessed) 3 (seededHeader 1 2) [2] .BHProposed
     (bfd.GetHeaders 1).length = 2 ∧ bfd.CheckFork.2 = (false, MaxUint64, none)) ∧
    (let bfd := addAt (addAt (addAt (NewBasicForkDetector 0)
        4 (signedHeader 1 3) [1] .BHReceived) 3 (signedHeader 1 2) [2] .BHReceived)
        4 (signedHeader 1 3) [3] .BHProcessed
     (bfd.GetHeaders 1).length = 3 ∧ bfd.CheckFork.2 = (true, 1, some [2]) ∧
       (bfd.CheckFork.1.GetHeaders 1).length = 3) := by
  decide

theorem mem_GetHeaders {bfd : basicForkDetector} {nonce : Nat} {hInfo : HeaderInfo} :
    hInfo ∈ bfd.GetHeaders nonce ↔ hInfo ∈ bfd.headers ∧ hInfo.header.Nonce = nonce := by
  simp [basicForkDetector.GetHeaders]

theorem mem_nonces {bfd : basicForkDetector} {nonce : Nat} :
    nonce ∈ bfd.nonces ↔ ∃ hInfo ∈ bfd.headers, hInfo.header.Nonce = nonce := by
  simp [basicForkDetector.nonces]

theorem lowestRound_eq_none {l : List HeaderInfo} (h : lowestRound l = none) : l = [] := by
  cases l with
  | nil => rfl
  | cons x t =>
    rw [lowestRound] at h
    cases ht : lowestRound t with
    | none => simp [ht] at h
    | some best =>
      simp only [ht] at h
      split_ifs at h

theorem lowestRound_some {l : List HeaderInfo} {hInfo : HeaderInfo}
    (h : lowestRound l = some hInfo) :
    hInfo ∈ l ∧ ∀ x ∈ l, hInfo.header.Round ≤ x.header.Round := by
  induction l generalizing hInfo with
  | nil => simp [lowestRound] at h
  | cons x t ih =>
    rw [lowestRound] at h
    cases ht : lowestRound t with
    | none =>
      simp only [ht, Option.some.injEq] at h
      subst h
      have := lowestRound_eq_none ht
      subst this
      simp
    | some best =>
      simp only [ht] at h
      obtain ⟨hb1, hb2⟩ := ih ht
      split_ifs at h with hlt
      · simp only [Option.some.injEq] at h
        subst h
        refine ⟨List.mem_cons_of_mem _ hb1, ?_⟩
        intro y hy
        rcases List.mem_cons.1 hy with rfl | hy
        · omega
        · exact hb2 y hy
      · simp only [Option.some.injEq] at h
        subst h
        refine ⟨List.mem_cons_self _ _, ?_⟩
        intro y hy
        rcases List.mem_cons.1 hy with rfl | hy
        · exact le_refl _
        · have := hb2 y hy
          omega

theorem isSelf_iff {hInfo : HeaderInfo} :
    isSelf hInfo = true ↔ hInfo.state = .BHProcessed := by
  simp [isSelf]

theorem forkHeaderInfo_some {l : List HeaderInfo} {hInfo : HeaderInfo}
    (h : forkHeaderInfo l = some hInfo) :
    hInfo ∈ l ∧ hInfo.state = .BHReceived ∧
      (∀ x ∈ l, x.state = .BHReceived → hInfo.header.Round ≤ x.header.Round) ∧
      ∃ self ∈ l, self.state = .BHProcessed ∧
        hInfo.header.Round < self.header.Round := by
  unfold forkHeaderInfo at h
  cases hl : lowestRound (l.filter (fun hInfo => hInfo.state = .BHReceived)) with
  | none => simp [hl] at h
  | some lowest =>
    simp only [hl] at h
    split_ifs at h with hany
    simp only [Option.some.injEq] at h
    subst h
    obtain ⟨hm, hmin⟩ := lowestRound_some hl
    simp only [List.mem_filter, decide_eq_true_eq] at hm
    refine ⟨hm.1, hm.2, ?_, ?_⟩
    · intro x hx hxs
      exact hmin x (by simp [List.mem_filter, hx, hxs])
    · simp only [List.any_eq_true, Bool.and_eq_true, decide_eq_true_eq] at hany
      obtain ⟨s, hs, hself, hlt⟩ := hany
      exact ⟨s, hs, isSelf_iff.1 hself, hlt⟩

theorem forkHeaderInfo_isSome {l : List HeaderInfo}
    (h : ∃ self ∈ l, ∃ rcv ∈ l, self.state = .BHProcessed ∧
      rcv.state = .BHReceived ∧ rcv.header.Round < self.header.Round) :
    ∃ hInfo, forkHeaderInfo l = some hInfo := by
  obtain ⟨s, hs, r, hr, hself, hrcv, hlt⟩ := h
  unfold forkHeaderInfo
  cases hl : lowestRound (l.filter (fun hInfo => hInfo.state = .BHReceived)) with
  | none =>
    have := lowestRound_eq_none hl
    have hmem : r ∈ l.filter (fun hInfo => hInfo.state = .BHReceived) := by
      simp [List.mem_filter, hr, hrcv]
    rw [this] at hmem
    simp at hmem
  | some lowest =>
    obtain ⟨_, hmin⟩ := lowestRound_some hl
    have hle := hmin r (by simp [List.mem_filter, hr, hrcv])
    have hany : l.any (fun self =>
        isSelf self && decide (lowest.header.Round < self.header.Round)) = true := by
      simp only [List.any_eq_true, Bool.and_eq_true, decide_eq_true_eq]
      exact ⟨s, hs, isSelf_iff.2 hself, by omega⟩
    simp only [hany, if_true]
    exact ⟨lowest, rfl⟩

theorem lowestFork_some {l : List (Nat × HeaderInfo)} {fork : Nat × HeaderInfo}
    (h : lowestFork l = some fork) : fork ∈ l ∧ ∀ g ∈ l, fork.1 ≤ g.1 := by
  induction l generalizing fork with
  | nil => simp [lowestFork] at h
  | cons x t ih =>
    rw [lowestFork] at h
    cases ht : lowestFork t with
    | none =>
      simp only [ht, Option.some.injEq] at h
      subst h
      cases t with
      | nil => simp
      | cons y t2 =>
        exfalso
        rw [lowestFork] at ht
        cases ht2 : lowestFork t2 with
        | none => simp [ht2] at ht
        | some b =>
          simp only [ht2] at ht
          split_ifs at ht
    | some best =>
      simp only [ht] at h
      obtain ⟨hb1, hb2⟩ := ih ht
      split_ifs at h with hlt
      · simp only [Option.some.injEq] at h
        subst h
        refine ⟨List.mem_cons_of_mem _ hb1, ?_⟩
        intro y hy
        rcases List.mem_cons.1 hy with rfl | hy
        · omega
        · exact hb2 y hy
      · simp only [Option.some.injEq] at h
        subst h
        refine ⟨List.mem_cons_self _ _, ?_⟩
        intro y hy
        rcases List.mem_cons.1 hy with rfl | hy
        · exact le_refl _
        · have := hb2 y hy
          omega

theorem lowestFork_isSome {l : List (Nat × HeaderInfo)} {fork : Nat × HeaderInfo}
    (h : fork ∈ l) : ∃ best, lowestFork l = some best := by
  cases l with
  | nil => simp at h
  | cons x t =>
    rw [lowestFork]
    cases ht : lowestFork t with
    | none => exact ⟨x, rfl⟩
    | some best =>
      simp only
      split_ifs
      · exact ⟨best, rfl⟩
      · exact ⟨x, rfl⟩

theorem mem_forks {bfd : basicForkDetector} {nonce : Nat} {hInfo : HeaderInfo} :
    (nonce, hInfo) ∈ bfd.forks ↔
      nonce ∈ bfd.nonces ∧ forkHeaderInfo (bfd.GetHeaders nonce) = some hInfo := by
  unfold basicForkDetector.forks
  simp only [List.mem_filterMap, Option.map_eq_some', Prod.mk.injEq]
  constructor
  · rintro ⟨n, hn, h, hf, rfl, rfl⟩
    exact ⟨hn, hf⟩
  · rintro ⟨hn, hf⟩
    exact ⟨nonce, hn, hInfo, hf, rfl, rfl⟩

theorem holdsFork_iff {bfd : basicForkDetector} {nonce : Nat} :
    bfd.holdsFork nonce ↔ ∃ hInfo, (nonce, hInfo) ∈ bfd.forks := by
  constructor
  · intro h
    obtain ⟨hInfo, hf⟩ := forkHeaderInfo_isSome h
    refine ⟨hInfo, mem_forks.2 ⟨?_, hf⟩⟩
    obtain ⟨s, hs, _⟩ := h
    exact mem_nonces.2 ⟨s, (mem_GetHeaders.1 hs).1, (mem_GetHeaders.1 hs).2⟩
  · rintro ⟨hInfo, hm⟩
    obtain ⟨_, hf⟩ := mem_forks.1 hm
    obtain ⟨h1, h2, _, s, hs, hself, hlt⟩ := forkHeaderInfo_some hf
    exact ⟨s, hs, hInfo, h1, hself, h2, hlt⟩

/-- C11: whenever some nonce holds a `Processed` header together with a
`Received` header of strictly lower round, `CheckFork` returns detected = true,
the lowest such nonce, and the hash of a `Received` header of lowest round
among the `Received` headers at that nonce. -/
theorem CheckFork_detects (bfd : sync.basicForkDetector) (h : ∃ nonce, bfd.holdsFork nonce) :
    ∃ nonce hInfo,
      bfd.CheckFork.2 = (true, nonce, some hInfo.hash) ∧
      bfd.holdsFork nonce ∧ (∀ m, bfd.holdsFork m → nonce ≤ m) ∧
      hInfo ∈ bfd.GetHeaders nonce ∧ hInfo.state = .BHReceived ∧
      ∀ rcv ∈ bfd.GetHeaders nonce, rcv.state = .BHReceived →
        hInfo.header.Round ≤ rcv.header.Round := by
  obtain ⟨n0, hn0⟩ := h
  obtain ⟨h0, hm0⟩ := holdsFork_iff.1 hn0
  obtain ⟨best, hbest⟩ := lowestFork_isSome hm0
  obtain ⟨hmem, hmin⟩ := lowestFork_some hbest
  obtain ⟨nonce, hInfo⟩ := best
  obtain ⟨_, hf⟩ := mem_forks.1 hmem
  obtain ⟨h1, h2, h3, _⟩ := forkHeaderInfo_some hf
  refine ⟨nonce, hInfo, ?_, holdsFork_iff.2 ⟨hInfo, hmem⟩, ?_, h1, h2, h3⟩
  · unfold basicForkDetector.CheckFork
    simp only [hbest]
  · intro m hm
    obtain ⟨g, hg⟩ := holdsFork_iff.1 hm
    exact hmin (m, g) hg

/-- Witness of C11, on the registry of
`TestBasicForkDetector_CheckForkShouldReturnTrue`: at nonce 1 the hashes `[1]`
(round 3, `Received`), `[2]` (round 2, `Received`) and `[3]` (round 3,
`Processed`) give (true, 1, `[2]`). -/
theorem CheckFork_detects_witness :
    scenarioFork.CheckFork.2 = (true, 1, some [2]) ∧
    (∃ nonce, scenarioFork.holdsFork nonce) ∧
    ∃ nonce hInfo, scenarioFork.CheckFork.2 = (true, nonce, some hInfo.hash) ∧
      scenarioFork.holdsFork nonce ∧ (∀ m, scenarioFork.holdsFork m → nonce ≤ m) ∧
      hInfo ∈ scenarioFork.GetHeaders nonce ∧ hInfo.state = .BHReceived ∧
      ∀ rcv ∈ scenarioFork.GetHeaders nonce, rcv.state = .BHReceived →
        hInfo.header.Round ≤ rcv.header.Round :=
  have h : ∃ nonce, scenarioFork.holdsFork nonce :=
    ⟨1, ⟨sync.signedHeader 1 3, [3], .BHProcessed⟩, by decide,
      ⟨sync.signedHeader 1 2, [2], .BHReceived⟩, by decide, rfl, rfl, by decide⟩
  ⟨by decide, h, CheckFork_detects scenarioFork h⟩

/-- C12: `CheckFork` returns (false, MaxUint64, nil) whenever every nonce that
holds candidates has at most one candidate, or has all but at most one of its
candidates in `Proposed` state, or has no candidate that is `Processed`. -/
theorem CheckFork_no_fork (bfd : sync.basicForkDetector)
    (h : ∀ nonce ∈ bfd.nonces,
      (bfd.GetHeaders nonce).length ≤ 1 ∨
      ((bfd.GetHeaders nonce).filter (fun hInfo => hInfo.state ≠ .BHProposed)).length ≤ 1 ∨
      ∀ hInfo ∈ bfd.GetHeaders nonce, hInfo.state ≠ .BHProcessed) :
    bfd.CheckFork.2 = (false, MaxUint64, none) := by
  have hforks : bfd.forks = [] := by
    rw [List.eq_nil_iff_forall_not_mem]
    rintro ⟨nonce, hInfo⟩ hm
    obtain ⟨hn, hf⟩ := mem_forks.1 hm
    obtain ⟨h1, h2, _, s, hs, hself, hlt⟩ := forkHeaderInfo_some hf
    have hne : s ≠ hInfo := by
      rintro rfl
      omega
    have hsub : [s, hInfo].Sublist (bfd.GetHeaders nonce) ∨
        [hInfo, s].Sublist (bfd.GetHeaders nonce) := by
      have : ∀ (l : List HeaderInfo), s ∈ l → hInfo ∈ l →
          [s, hInfo].Sublist l ∨ [hInfo, s].Sublist l := by
        intro l
        induction l with
        | nil => intro hs; simp at hs
        | cons x t ih =>
          intro hs hh
          by_cases hxs : x = s
          · subst hxs
            have hh2 : hInfo ∈ t := by
              rcases List.mem_cons.1 hh with e | e
              · exact absurd e.symm hne
              · exact e
            left
            exact List.Sublist.cons₂ _ (List.singleton_sublist.2 hh2)
          · by_cases hxh : x = hInfo
            · subst hxh
              have hs2 : s ∈ t := by
                rcases List.mem_cons.1 hs with e | e
                · exact absurd e.symm hxs
                · exact e
              right
              exact List.Sublist.cons₂ _ (List.singleton_sublist.2 hs2)
            · have hs2 : s ∈ t := by
                rcases List.mem_cons.1 hs with e | e
                · exact absurd e.symm hxs
                · exact e
              have hh2 : hInfo ∈ t := by
                rcases List.mem_cons.1 hh with e | e
                · exact absurd e.symm hxh
                · exact e
              rcases ih hs2 hh2 with e | e
              · exact Or.inl (List.Sublist.cons _ e)
              · exact Or.inr (List.Sublist.cons _ e)
      exact this _ hs h1
    have hsP : s.state ≠ .BHProposed := by rw [hself]; decide
    have hhP : hInfo.state ≠ .BHProposed := by rw [h2]; decide
    rcases h nonce hn with hlen | hlen | hnone
    · rcases hsub with e | e
      · have := e.length_le
        simp at this
        omega
      · have := e.length_le
        simp at this
        omega
    · rcases hsub with e | e
      · have hle := (e.filter (fun hInfo => decide (hInfo.state ≠ .BHProposed))).length_le
        have e1 : ([s, hInfo].filter
            (fun hInfo => decide (hInfo.state ≠ .BHProposed))).length = 2 := by
          simp [hsP, hhP]
        rw [e1] at hle
        omega
      · have hle := (e.filter (fun hInfo => decide (hInfo.state ≠ .BHProposed))).length_le
        have e1 : ([hInfo, s].filter
            (fun hInfo => decide (hInfo.state ≠ .BHProposed))).length = 2 := by
          simp [hsP, hhP]
        rw [e1] at hle
        omega
    · exact hnone s hs hself
  unfold basicForkDetector.CheckFork
  rw [hforks]
  rfl

/-- Witness of C12: a registry whose three nonces show the three cases. -/
theorem CheckFork_no_fork_witness :
    scenarioNoFork.nonces = [1, 2, 3] ∧
    (∀ nonce ∈ scenarioNoFork.nonces,
      (scenarioNoFork.GetHeaders nonce).length ≤ 1 ∨
      ((scenarioNoFork.GetHeaders nonce).filter
        (fun hInfo => hInfo.state ≠ .BHProposed)).length ≤ 1 ∨
      ∀ hInfo ∈ scenarioNoFork.GetHeaders nonce, hInfo.state ≠ .BHProcessed) ∧
    scenarioNoFork.CheckFork.2 = (false, MaxUint64, none) :=
  ⟨by decide, by decide, CheckFork_no_fork scenarioNoFork (by decide)⟩

/-- C14: after `SetFinalCheckpoint(n, r)` followed by `RemovePastHeaders`,
`GetHeaders(k)` is empty for every nonce `k < n`, and the entries at the
nonces `k >= n` are unchanged. -/
theorem RemovePastHeaders_after_SetFinalCheckpoint (bfd : sync.basicForkDetector)
    (n r k : Nat) :
    ((bfd.SetFinalCheckpoint n r).RemovePastHeaders).GetHeaders k =
      if k < n then [] else bfd.GetHeaders k := by
  unfold basicForkDetector.GetHeaders basicForkDetector.RemovePastHeaders
    basicForkDetector.SetFinalCheckpoint
  simp only [List.filter_filter]
  split_ifs with hk
  · rw [List.filter_eq_nil_iff]
    intro x _
    simp only [Bool.and_eq_true, decide_eq_true_eq, not_and]
    intro hx
    omega
  · apply List.filter_congr
    intro x _
    by_cases hx : x.header.Nonce = k
    · simp only [hx, decide_True, Bool.true_and, decide_eq_true_eq]
      omega
    · simp [hx]

theorem appendHeaderInfo_keys_nodup {l : List HeaderInfo} (hInfo : HeaderInfo)
    (hl : (l.map (fun x => (x.header.Nonce, x.hash))).Nodup) :
    ((appendHeaderInfo l hInfo).map (fun x => (x.header.Nonce, x.hash))).Nodup := by
  unfold appendHeaderInfo
  split_ifs with hany
  · have : (l.map (fun x =>
        if x.header.Nonce = hInfo.header.Nonce ∧ x.hash = hInfo.hash then hInfo else x)).map
          (fun x => (x.header.Nonce, x.hash)) = l.map (fun x => (x.header.Nonce, x.hash)) := by
      rw [List.map_map]
      apply List.map_congr_left
      intro x _
      simp only [Function.comp]
      split_ifs with hx
      · rw [hx.1, hx.2]
      · rfl
    rw [this]
    exact hl
  · rw [List.map_append, List.nodup_append]
    refine ⟨hl, by simp, ?_⟩
    simp only [List.any_eq_true, decide_eq_true_eq, not_exists, not_and] at hany
    intro a ha hb
    simp only [List.map_cons, List.map_nil, List.mem_singleton] at hb
    subst hb
    obtain ⟨x, hx, hxe⟩ := List.mem_map.1 ha
    simp only [Prod.mk.injEq] at hxe
    exact hany x hx hxe.1 hxe.2

theorem filter_key_appendHeaderInfo {l : List HeaderInfo} (hInfo : HeaderInfo)
    (hl : (l.map (fun x => (x.header.Nonce, x.hash))).Nodup) :
    (appendHeaderInfo l hInfo).filter
      (fun x => x.header.Nonce = hInfo.header.Nonce ∧ x.hash = hInfo.hash) = [hInfo] := by
  unfold appendHeaderInfo
  split_ifs with hany
  · have key : ∀ (t : List HeaderInfo), (t.map (fun x => (x.header.Nonce, x.hash))).Nodup →
        (t.map (fun x =>
          if x.header.Nonce = hInfo.header.Nonce ∧ x.hash = hInfo.hash then hInfo else x)).filter
          (fun x => x.header.Nonce = hInfo.header.Nonce ∧ x.hash = hInfo.hash) =
        if t.any (fun x => x.header.Nonce = hInfo.header.Nonce ∧ x.hash = hInfo.hash)
        then [hInfo] else [] := by
      intro t
      induction t with
      | nil => intro _; rfl
      | cons x t ih =>
        intro hnd
        rw [List.map_cons, List.nodup_cons] at hnd
        by_cases hx : x.header.Nonce = hInfo.header.Nonce ∧ x.hash = hInfo.hash
        · have hnone : t.any
              (fun x => x.header.Nonce = hInfo.header.Nonce ∧ x.hash = hInfo.hash) = false := by
            rw [Bool.eq_false_iff]
            intro hc
            simp only [List.any_eq_true, decide_eq_true_eq] at hc
            obtain ⟨y, hy, hy1, hy2⟩ := hc
            apply hnd.1
            refine List.mem_map.2 ⟨y, hy, ?_⟩
            simp only [Prod.mk.injEq]
            exact ⟨by rw [hy1, hx.1], by rw [hy2, hx.2]⟩
          have := ih hnd.2
          rw [hnone] at this
          simp only [Bool.false_eq_true, if_false] at this
          simp only [List.map_cons, hx, and_self, if_true, List.filter_cons, decide_True,
            List.any_cons, Bool.true_or]
          rw [this]
        · have := ih hnd.2
          simp only [List.map_cons, hx, if_false, List.filter_cons, decide_False,
            List.any_cons, Bool.false_or, Bool.false_eq_true]
          exact this
    rw [key l hl, if_pos hany]
  · rw [List.filter_append]
    have : l.filter (fun x => x.header.Nonce = hInfo.header.Nonce ∧ x.hash = hInfo.hash) = [] := by
      rw [List.filter_eq_nil_iff]
      intro x hx hc
      apply hany
      simp only [List.any_eq_true]
      exact ⟨x, hx, hc⟩
    rw [this]
    simp

theorem AddHeader_ok {bfd post : basicForkDetector} {header : Header} {hash : Bytes}
    {state : BlockHeaderState}
    (h : bfd.AddHeader (some header) (some hash) state = (post, none)) :
    ∃ kept : List HeaderInfo, kept.Sublist bfd.headers ∧
      (state ≠ .BHProcessed → kept = bfd.headers) ∧
      post.headers = appendHeaderInfo kept ⟨header, hash, state⟩ := by
  unfold basicForkDetector.AddHeader at h
  simp only at h
  by_cases hsig : isSigned header = false ∧
      ¬ (state = .BHProposed ∧ isRandomSeedValid header = true)
  · rw [if_pos hsig] at h
    simp at h
  · rw [if_neg hsig] at h
    cases hv : bfd.CheckBlockValidity header state with
    | some err => simp [hv] at h
    | none =>
      simp only [hv, Prod.mk.injEq, and_true] at h
      by_cases hp : state = .BHProcessed
      · simp only [hp, if_true] at h
        refine ⟨_, ?_, fun hne => absurd hp hne, by rw [← h, hp]⟩
        simp only [basicForkDetector.RemoveInvalidHeaders, basicForkDetector.RemovePastHeaders]
        exact (List.filter_sublist _).trans (List.filter_sublist _)
      · simp only [hp, if_false] at h
        exact ⟨bfd.headers, List.Sublist.refl _, fun _ => rfl, by rw [← h]⟩

theorem AddHeader_wellFormed {bfd post : basicForkDetector} {header : Option Header}
    {hash : Option Bytes} {state : BlockHeaderState} {err : Option Error}
    (hwf : bfd.wellFormed) (h : bfd.AddHeader header hash state = (post, err)) :
    post.wellFormed := by
  cases err with
  | some e =>
    have : post = bfd := by
      unfold basicForkDetector.AddHeader at h
      cases header with
      | none =>
        simp only [Prod.mk.injEq] at h
        exact h.1.symm
      | some header =>
        cases hash with
        | none =>
          simp only [Prod.mk.injEq] at h
          exact h.1.symm
        | some hash =>
          simp only at h
          by_cases hsig : isSigned header = false ∧
              ¬ (state = .BHProposed ∧ isRandomSeedValid header = true)
          · rw [if_pos hsig] at h
            simp only [Prod.mk.injEq] at h
            exact h.1.symm
          · rw [if_neg hsig] at h
            cases hv : bfd.CheckBlockValidity header state with
            | some e2 =>
              simp only [hv, Prod.mk.injEq] at h
              exact h.1.symm
            | none => simp [hv] at h
    rw [this]
    exact hwf
  | none =>
    cases header with
    | none => simp [basicForkDetector.AddHeader] at h
    | some header =>
      cases hash with
      | none => simp [basicForkDetector.AddHeader] at h
      | some hash =>
        obtain ⟨kept, hsub, _, hpost⟩ := AddHeader_ok h
        unfold basicForkDetector.wellFormed
        rw [hpost]
        exact appendHeaderInfo_keys_nodup _
          (List.Nodup.sublist (hsub.map _) hwf)

theorem wellFormed_NewBasicForkDetector (roundIndex : Nat) :
    (NewBasicForkDetector roundIndex).wellFormed := by
  simp [basicForkDetector.wellFormed, NewBasicForkDetector]

theorem wellFormed_of_sublist {bfd post : basicForkDetector} (hwf : bfd.wellFormed)
    (h : post.headers.Sublist bfd.headers) : post.wellFormed :=
  List.Nodup.sublist (h.map _) hwf

theorem CheckFork_wellFormed {bfd : basicForkDetector} (hwf : bfd.wellFormed) :
    bfd.CheckFork.1.wellFormed := by
  apply wellFormed_of_sublist hwf
  unfold basicForkDetector.CheckFork
  cases lowestFork bfd.forks with
  | none => exact List.filter_sublist _
  | some best => exact List.filter_sublist _

theorem Remove_wellFormed {bfd : basicForkDetector} (hwf : bfd.wellFormed) (nonce : Nat)
    (hash : Bytes) :
    bfd.RemovePastHeaders.wellFormed ∧ bfd.RemoveInvalidHeaders.wellFormed ∧
      (bfd.RemoveHeaders nonce hash).wellFormed :=
  ⟨wellFormed_of_sublist hwf (List.filter_sublist _),
    wellFormed_of_sublist hwf (List.filter_sublist _),
    wellFormed_of_sublist hwf (List.filter_sublist _)⟩

/-- C13 (counterexample): on a fresh detector at round index 1 the signed header
of nonce 2 and round 1 is refused by `AddHeader` with `ErrHigherNonceInBlock`
(the first step of `TestBasicForkDetector_GetHighestFinalBlockNonce`), so
after adding it twice no `HeaderInfo` with its hash is held at nonce 2. -/
theorem AddHeader_signed_header_refused :
    sync.isSigned (sync.signedHeader 2 1) = true ∧
    ((sync.NewBasicForkDetector 1).AddHeader (some (sync.signedHeader 2 1)) (some [1])
      .BHProcessed).2 = some .ErrHigherNonceInBlock ∧
    (((sync.NewBasicForkDetector 1).AddHeader (some (sync.signedHeader 2 1)) (some [1])
      .BHProcessed).1.AddHeader (some (sync.signedHeader 2 1)) (some [1]) .BHProcessed).2 =
      some .ErrHigherNonceInBlock ∧
    (((sync.NewBasicForkDetector 1).AddHeader (some (sync.signedHeader 2 1)) (some [1])
      .BHProcessed).1.AddHeader (some (sync.signedHeader 2 1)) (some [1])
      .BHProcessed).1.GetHeaders 2 = [] := by
  decide

/-- C13 (amended): on a detector whose registry holds no two entries of the same
nonce and hash (every registry built by the detector's own methods is such),
if `AddHeader` returns nil for the same (header, hash) twice, with the same or
a different state and at whatever round index, then exactly one `HeaderInfo`
with that hash is held at that nonce, and it carries the state of the latest
call; a further `AddHeader` that returns nil for a hash not yet held at that
nonce puts the new entry after the entries kept at that nonce, which are all
the entries held before unless the state is `Processed` (then the pruning of
past and invalid headers comes first). -/
theorem AddHeader_idempotent (bfd bfd1 bfd2 bfd3 : sync.basicForkDetector)
    (header other : Header) (hash otherHash : Bytes)
    (state1 state2 state3 : BlockHeaderState) (roundIndex2 roundIndex3 : Nat)
    (hwf : bfd.wellFormed)
    (h1 : bfd.AddHeader (some header) (some hash) state1 = (bfd1, none))
    (h2 : ({ bfd1 with roundIndex := roundIndex2 }).AddHeader (some header) (some hash) state2 =
      (bfd2, none))
    (hNonce : other.Nonce = header.Nonce)
    (hNew : ∀ hInfo ∈ bfd2.GetHeaders header.Nonce, hInfo.hash ≠ otherHash)
    (h3 : ({ bfd2 with roundIndex := roundIndex3 }).AddHeader (some other) (some otherHash)
      state3 = (bfd3, none)) :
    (bfd2.GetHeaders header.Nonce).filter (fun hInfo => hInfo.hash = hash) =
      [⟨header, hash, state2⟩] ∧
    (∃ kept : List sync.HeaderInfo, kept.Sublist (bfd2.GetHeaders header.Nonce) ∧
      bfd3.GetHeaders header.Nonce = kept ++ [⟨other, otherHash, state3⟩]) ∧
    (state3 ≠ .BHProcessed →
      bfd3.GetHeaders header.Nonce =
        bfd2.GetHeaders header.Nonce ++ [⟨other, otherHash, state3⟩]) := by
  have hwf1 : bfd1.wellFormed := AddHeader_wellFormed hwf h1
  have hwf1r : ({ bfd1 with roundIndex := roundIndex2 } : basicForkDetector).wellFormed := hwf1
  obtain ⟨kept2, hsub2, _, hpost2⟩ := AddHeader_ok h2
  obtain ⟨kept3, hsub3, hall3, hpost3⟩ := AddHeader_ok h3
  have hnd2 : (kept2.map (fun x => (x.header.Nonce, x.hash))).Nodup :=
    List.Nodup.sublist (hsub2.map _) hwf1r
  have hfresh : kept3.any
      (fun x => x.header.Nonce = other.Nonce ∧ x.hash = otherHash) = false := by
    rw [Bool.eq_false_iff]
    intro hc
    simp only [List.any_eq_true, decide_eq_true_eq] at hc
    obtain ⟨x, hx, hx1, hx2⟩ := hc
    exact hNew x (mem_GetHeaders.2 ⟨hsub3.subset hx, by rw [hx1, hNonce]⟩) hx2
  have happ : bfd3.headers = kept3 ++ [⟨other, otherHash, state3⟩] := by
    rw [hpost3]
    unfold appendHeaderInfo
    simp only [hfresh, Bool.false_eq_true, if_false]
  have hget : bfd3.GetHeaders header.Nonce =
      kept3.filter (fun hInfo => hInfo.header.Nonce = header.Nonce) ++
        [⟨other, otherHash, state3⟩] := by
    unfold basicForkDetector.GetHeaders
    rw [happ, List.filter_append]
    simp [hNonce]
  refine ⟨?_, ⟨_, ?_, hget⟩, ?_⟩
  · have := filter_key_appendHeaderInfo ⟨header, hash, state2⟩ hnd2
    rw [← hpost2] at this
    unfold basicForkDetector.GetHeaders
    rw [List.filter_filter, ← this]
    apply List.filter_congr
    intro x _
    simp only [Bool.decide_and, Bool.and_comm]
  · exact hsub3.filter _
  · intro hne
    rw [hget, hall3 hne]
    rfl

/-- Witness of C13: the header of `TestBasicForkDetector_AddHeaderPresentShouldRewriteState`,
added as `Received`, then as `Processed`, then once more under the hash `[2]`. -/
theorem AddHeader_idempotent_witness :
    (sync.NewBasicForkDetector 1).wellFormed ∧
    ((sync.addAt (sync.addAt (sync.NewBasicForkDetector 1) 1 (sync.signedHeader 1 1) [1]
      .BHReceived) 1 (sync.signedHeader 1 1) [1] .BHProcessed).GetHeaders 1).filter
        (fun hInfo => hInfo.hash = [1]) = [⟨sync.signedHeader 1 1, [1], .BHProcessed⟩] ∧
    (sync.addAt (sync.addAt (sync.addAt (sync.NewBasicForkDetector 1) 1 (sync.signedHeader 1 1) [1]
      .BHReceived) 1 (sync.signedHeader 1 1) [1] .BHProcessed) 1 (sync.signedHeader 1 1) [2]
      .BHReceived).GetHeaders 1 =
      [⟨sync.signedHeader 1 1, [1], .BHProcessed⟩, ⟨sync.signedHeader 1 1, [2], .BHReceived⟩] :=
  have h := AddHeader_idempotent (sync.NewBasicForkDetector 1)
    (sync.addAt (sync.NewBasicForkDetector 1) 1 (sync.signedHeader 1 1) [1] .BHReceived)
    (sync.addAt (sync.addAt (sync.NewBasicForkDetector 1) 1 (sync.signedHeader 1 1) [1]
      .BHReceived) 1 (sync.signedHeader 1 1) [1] .BHProcessed)
    (sync.addAt (sync.addAt (sync.addAt (sync.NewBasicForkDetector 1) 1 (sync.signedHeader 1 1) [1]
      .BHReceived) 1 (sync.signedHeader 1 1) [1] .BHProcessed) 1 (sync.signedHeader 1 1) [2]
      .BHReceived)
    (sync.signedHeader 1 1) (sync.signedHeader 1 1) [1] [2] .BHReceived .BHProcessed .BHReceived
    1 1 (wellFormed_NewBasicForkDetector 1) (by decide) (by decide) rfl (by decide) (by decide)
  ⟨wellFormed_NewBasicForkDetector 1, h.1, h.2.2 (by decide)⟩

end ForkDetector

/-! ## The notarization tracker -/

section NotarizationTracker

open blproc

/-- The assertions of the tests of `SetLastNotarizedHeadersSlice` and
`SaveLastNotarizedHeader` in baseProcess_test.go, replayed on the model. -/
theorem TestBaseProcessor_LastNotarizedHeaders :
    ((NewBaseProcessor ⟨0, 1, fun _ => 0⟩ scenarioHandlerHash).SetLastNotarizedHeadersSlice
      none).2 = some .ErrNotarizedHdrsSliceIsNil ∧
    ((NewBaseProcessor ⟨0, 1, fun _ => 0⟩ scenarioHandlerHash).SetLastNotarizedHeadersSlice
      (some (fun _ => none))).2 = some .ErrWrongTypeAssertion ∧
    ((NewBaseProcessor ⟨0, 1, fun _ => 0⟩ scenarioHandlerHash).SetLastNotarizedHeadersSlice
      (some (fun s => if s = 0 then some (.metaBlock (scenarioHeader 0 0 [] []))
        else createGenesisBlocks 1 s))).2 = some .ErrWrongTypeAssertion ∧
    ((NewBaseProcessor ⟨0, 1, fun _ => 0⟩ scenarioHandlerHash).SetLastNotarizedHeadersSlice
      (some (createGenesisBlocks 1))).2 = none ∧
    ((NewBaseProcessor ⟨0, 1, fun _ => 0⟩ scenarioHandlerHash).SetLastNotarizedHeadersSlice
      (some (fun s => if s = MetachainShardId then none else createGenesisBlocks 1 s))).2 =
      some .ErrWrongTypeAssertion ∧
    ((NewBaseProcessor ⟨0, 5, fun _ => 0⟩ scenarioHandlerHash).SetLastNotarizedHeadersSlice
      (some (createGenesisBlocks 5))).2 = none ∧
    ((NewBaseProcessor ⟨0, 5, fun _ => 0⟩ scenarioHandlerHash).SaveLastNotarizedHeader 2
      scenarioShardHdrs).2 = some .ErrNotarizedHdrsSliceIsNil ∧
    (scenarioBaseProcessor.SaveLastNotarizedHeader 6 scenarioShardHdrs).2 =
      some .ErrShardIdMissmatch ∧
    (((NewBaseProcessor ⟨0, 5, fun _ => 0⟩ scenarioHandlerHash).SetLastNotarizedHeadersSlice
      (some (fun s => if s = 2 then none else createGenesisBlocks 5 s))).1.SaveLastNotarizedHeader
        2 scenarioShardHdrs).2 = some .ErrWrongTypeAssertion ∧
    (scenarioBaseProcessor.SaveLastNotarizedHeader 0 scenarioMetaHdrs).2 =
      some .ErrWrongTypeAssertion ∧
    (((scenarioBaseProcessor.SaveLastNotarizedHeader 0 scenarioMetaHdrs).1.notarizedHdrs.map
      (fun notarized => (notarized 0).map (fun hdr => hdr.header.Nonce))) = some [0]) ∧
    (scenarioBaseProcessor.SaveLastNotarizedHeader 0 scenarioShardHdrs).2 = none ∧
    (((scenarioBaseProcessor.SaveLastNotarizedHeader 0 scenarioShardHdrs).1.LastNotarizedHdrForShard
      0).map (fun hdr => hdr.header.Nonce)) = some 10 ∧
    (scenarioBaseProcessor.SaveLastNotarizedHeader MetachainShardId scenarioMetaHdrs).2 = none ∧
    (((scenarioBaseProcessor.SaveLastNotarizedHeader MetachainShardId
      scenarioMetaHdrs).1.LastNotarizedHdrForShard MetachainShardId).map
        (fun hdr => hdr.header.Nonce)) = some 10 := by
  decide

theorem checkHeaderTypeCorrect_of_type {bp : baseProcessor} {shardId : Nat} {hdr : HeaderHandler}
    (hRange : shardId < bp.shardCoordinator.NumberOfShards ∨ shardId = MetachainShardId)
    (hType : (if shardId < bp.shardCoordinator.NumberOfShards then hdr.isShardHeader
      else hdr.isMetaBlock) = true) :
    bp.checkHeaderTypeCorrect shardId (some hdr) = none := by
  unfold baseProcessor.checkHeaderTypeCorrect
  by_cases hlt : shardId < bp.shardCoordinator.NumberOfShards
  · simp only [hlt, if_true] at hType ⊢
    cases hdr with
    | shardHeader h => rfl
    | metaBlock h => simp [HeaderHandler.isMetaBlock, HeaderHandler.isShardHeader] at hType
  · have hm : shardId = MetachainShardId := by
      rcases hRange with h | h
      · exact absurd h hlt
      · exact h
    subst hm
    simp only [hlt, if_false, if_true] at hType ⊢
    cases hdr with
    | shardHeader h => simp [HeaderHandler.isMetaBlock] at hType
    | metaBlock h => rfl

theorem walkProcessedHdrs_chained {bp : baseProcessor} {shardId : Nat}
    (hRange : shardId < bp.shardCoordinator.NumberOfShards ∨ shardId = MetachainShardId)
    (processedHdrs : List HeaderHandler) (last : HeaderHandler)
    (hTypes : ∀ hdr ∈ processedHdrs,
      (if shardId < bp.shardCoordinator.NumberOfShards then hdr.isShardHeader
        else hdr.isMetaBlock) = true)
    (hChain : List.Chain
      (fun prev hdr => bp.computeHeaderHash prev = .ok hdr.header.PrevHash) last processedHdrs) :
    bp.walkProcessedHdrs shardId last processedHdrs =
      .ok ((last :: processedHdrs).getLast (List.cons_ne_nil _ _)) := by
  induction processedHdrs generalizing last with
  | nil => rfl
  | cons hdr rest ih =>
    rw [List.chain_cons] at hChain
    rw [baseProcessor.walkProcessedHdrs,
      checkHeaderTypeCorrect_of_type hRange (hTypes hdr (List.mem_cons_self _ _)), hChain.1]
    simp only [ne_eq, not_true_eq_false, if_false]
    rw [ih hdr (fun h hm => hTypes h (List.mem_cons_of_mem _ hm)) hChain.2]
    rw [List.getLast_cons (List.cons_ne_nil _ _)]

theorem SaveLastNotarizedHeader_error {bp : baseProcessor} {shardId : Nat}
    {processedHdrs : List HeaderHandler} {err : ProcessError}
    (h : (bp.SaveLastNotarizedHeader shardId processedHdrs).2 = some err) :
    (bp.SaveLastNotarizedHeader shardId processedHdrs).1 = bp := by
  unfold baseProcessor.SaveLastNotarizedHeader at h ⊢
  cases hn : bp.notarizedHdrs with
  | none => rfl
  | some notarized =>
    simp only [hn] at h ⊢
    cases hc : bp.checkHeaderTypeCorrect shardId (bp.LastNotarizedHdrForShard shardId) with
    | some e => rfl
    | none =>
      simp only [hc] at h ⊢
      cases hl : bp.LastNotarizedHdrForShard shardId with
      | none => rfl
      | some last =>
        simp only [hl] at h ⊢
        cases hw : bp.walkProcessedHdrs shardId last processedHdrs with
        | error e => rfl
        | ok final => simp [hw] at h

/-- C15: for an initialised notarization tracker and a shard id in the
coordinator's range (a shard of the coordinator or the metachain),
`SaveLastNotarizedHeader` given processed headers of the correct concrete
type, each chaining by `prevHash` from the one before it, the first from the
stored last-notarized header, returns nil and makes
`LastNotarizedHdrForShard(shardId)` the final element of the sequence, the
stored headers of the other shards staying as they were; and whenever it
returns an error, `ErrWrongTypeAssertion` among them, the stored headers are
left unchanged. -/
theorem SaveLastNotarizedHeader_chained (bp : blproc.baseProcessor) (shardId : Nat)
    (processedHdrs : List HeaderHandler) (last : HeaderHandler)
    (hRange : shardId < bp.shardCoordinator.NumberOfShards ∨ shardId = MetachainShardId)
    (hLast : bp.LastNotarizedHdrForShard shardId = some last)
    (hTypes : ∀ hdr ∈ last :: processedHdrs,
      (if shardId < bp.shardCoordinator.NumberOfShards then hdr.isShardHeader
        else hdr.isMetaBlock) = true)
    (hChain : List.Chain
      (fun prev hdr => bp.computeHeaderHash prev = .ok hdr.header.PrevHash) last processedHdrs) :
    (bp.SaveLastNotarizedHeader shardId processedHdrs).2 = none ∧
    (bp.SaveLastNotarizedHeader shardId processedHdrs).1.LastNotarizedHdrForShard shardId =
      (last :: processedHdrs).getLast? ∧
    (∀ other, other ≠ shardId →
      (bp.SaveLastNotarizedHeader shardId processedHdrs).1.LastNotarizedHdrForShard other =
        bp.LastNotarizedHdrForShard other) ∧
    (∀ (hdrs : List HeaderHandler) (err : ProcessError),
      (bp.SaveLastNotarizedHeader shardId hdrs).2 = some err →
        (bp.SaveLastNotarizedHeader shardId hdrs).1.notarizedHdrs = bp.notarizedHdrs) := by
  have hwalk := walkProcessedHdrs_chained hRange processedHdrs last
    (fun h hm => hTypes h (List.mem_cons_of_mem _ hm)) hChain
  have htype := checkHeaderTypeCorrect_of_type hRange (hTypes last (List.mem_cons_self _ _))
  cases hn : bp.notarizedHdrs with
  | none => simp [baseProcessor.LastNotarizedHdrForShard, hn] at hLast
  | some notarized =>
    have hsave : bp.SaveLastNotarizedHeader shardId processedHdrs =
        ({ bp with
            notarizedHdrs := some (fun s =>
              if s = shardId then
                (notarized s).dropLast ++ [(last :: processedHdrs).getLast (List.cons_ne_nil _ _)]
              else notarized s) }, none) := by
      unfold baseProcessor.SaveLastNotarizedHeader
      simp only [hn, hLast, htype, hwalk]
    refine ⟨by rw [hsave], ?_, ?_, ?_⟩
    · rw [hsave]
      simp only [baseProcessor.LastNotarizedHdrForShard, if_true]
      rw [List.getLast?_append_of_ne_nil _ (List.cons_ne_nil _ _)]
      simp only [List.getLast?_singleton]
      rw [List.getLast?_eq_getLast _ (List.cons_ne_nil _ _)]
    · intro other hne
      rw [hsave]
      simp only [baseProcessor.LastNotarizedHdrForShard, hn, hne, if_false]
    · intro hdrs err herr
      rw [SaveLastNotarizedHeader_error herr]
      exact hn

/-- Witness of C15: the genesis shard header of shard 0 and the ten chained
headers of `TestBaseProcessor_SaveLastNoterizedHdrShardGood`. -/
theorem SaveLastNotarizedHeader_chained_witness :
    scenarioBaseProcessor.LastNotarizedHdrForShard 0 = createGenesisBlocks 5 0 ∧
    (scenarioBaseProcessor.SaveLastNotarizedHeader 0 scenarioShardHdrs).2 = none ∧
    ((scenarioBaseProcessor.SaveLastNotarizedHeader 0 scenarioShardHdrs).1.LastNotarizedHdrForShard
      0).map (fun hdr => hdr.header.Nonce) = some 10 :=
  have h := SaveLastNotarizedHeader_chained scenarioBaseProcessor 0 scenarioShardHdrs
    (.shardHeader { scenarioHeader 0 0 [] [] with ShardId := 0 })
    (Or.inl (by decide)) rfl (by decide)
    (List.Chain.cons rfl (List.Chain.cons rfl (List.Chain.cons rfl (List.Chain.cons rfl
      (List.Chain.cons rfl (List.Chain.cons rfl (List.Chain.cons rfl (List.Chain.cons rfl
        (List.Chain.cons rfl (List.Chain.cons rfl List.Chain.nil))))))))))
  ⟨rfl, h.1, by rw [h.2.1]; rfl⟩

end NotarizationTracker

/-! ## Persistence of the intermediate results -/

section Persistence

theorem SaveCurrentIntermediateTxToStorage_puts (irp : intermediateResultsProcessor) :
    ∀ (visit : List (Bytes × txInfo)) (store : StorageService),
      (∀ e ∈ visit, ∃ tx buff, e.2.tx = some tx ∧
        irp.marshalizer.MarshalTx (.scr tx) = .ok buff) →
      (irp.SaveCurrentIntermediateTxToStorage store visit).2 = none ∧
      (irp.SaveCurrentIntermediateTxToStorage store visit).1.putErr = store.putErr ∧
      (irp.SaveCurrentIntermediateTxToStorage store visit).1.puts =
        store.puts ++ visit.filterMap (fun e =>
          e.2.tx.bind (fun tx =>
            ((irp.marshalizer.MarshalTx (.scr tx)).toOption).map
              (fun buff => (irp.hasher.Compute buff, buff))))
  | [], store, _ => by
    simp [intermediateResultsProcessor.SaveCurrentIntermediateTxToStorage]
  | (key, value) :: rest, store, h => by
    obtain ⟨tx, buff, htx, hm⟩ := h (key, value) (List.mem_cons_self _ _)
    simp only at htx
    have ih := SaveCurrentIntermediateTxToStorage_puts irp rest
      (store.Put (irp.hasher.Compute buff) buff).1
      (fun e he => h e (List.mem_cons_of_mem _ he))
    simp only [intermediateResultsProcessor.SaveCurrentIntermediateTxToStorage, htx, hm]
    refine ⟨ih.1, ih.2.1, ?_⟩
    rw [ih.2.2]
    simp [StorageService.Put, List.filterMap_cons, htx, hm, Except.toOption]

theorem length_filterMap_of_isSome {α β : Type} (f : α → Option β) :
    ∀ l : List α, (∀ a ∈ l, (f a).isSome = true) → (l.filterMap f).length = l.length
  | [], _ => rfl
  | a :: rest, h => by
    have ha := h a (List.mem_cons_self _ _)
    obtain ⟨b, hb⟩ := Option.isSome_iff_exists.1 ha
    rw [List.filterMap_cons_some hb, List.length_cons, List.length_cons,
      length_filterMap_of_isSome f rest (fun x hx => h x (List.mem_cons_of_mem _ hx))]

/-- C21: `SaveCurrentIntermediateTxToStorage` treats persistence failures as
non-fatal: whenever every filed result is non-nil and marshals successfully,
it returns nil whatever the store answers to `Put`, and it calls `Put` once
for every filed result, with the hash of its encoding as key and the encoding
as data, in the order in which `range` visits the map. -/
theorem SaveCurrentIntermediateTxToStorage_best_effort (irp : intermediateResultsProcessor)
    (store : StorageService) (visit : List (Bytes × txInfo))
    (hVisit : visit.Perm irp.interResultsForBlock)
    (hFiled : ∀ e ∈ irp.interResultsForBlock, ∃ tx buff, e.2.tx = some tx ∧
      irp.marshalizer.MarshalTx (.scr tx) = .ok buff) :
    (irp.SaveCurrentIntermediateTxToStorage store visit).2 = none ∧
    (irp.SaveCurrentIntermediateTxToStorage store visit).1.puts.length =
      store.puts.length + irp.interResultsForBlock.length ∧
    (irp.SaveCurrentIntermediateTxToStorage store visit).1.puts =
      store.puts ++ visit.filterMap (fun e =>
        e.2.tx.bind (fun tx =>
          ((irp.marshalizer.MarshalTx (.scr tx)).toOption).map
            (fun buff => (irp.hasher.Compute buff, buff)))) ∧
    ∀ e ∈ irp.interResultsForBlock, ∀ tx buff, e.2.tx = some tx →
      irp.marshalizer.MarshalTx (.scr tx) = .ok buff →
      (irp.hasher.Compute buff, buff) ∈
        (irp.SaveCurrentIntermediateTxToStorage store visit).1.puts.drop store.puts.length := by
  have hv : ∀ e ∈ visit, ∃ tx buff, e.2.tx = some tx ∧
      irp.marshalizer.MarshalTx (.scr tx) = .ok buff :=
    fun e he => hFiled e (hVisit.subset he)
  obtain ⟨h1, _, h3⟩ := SaveCurrentIntermediateTxToStorage_puts irp visit store hv
  have hlen : (visit.filterMap (fun e =>
      e.2.tx.bind (fun tx =>
        ((irp.marshalizer.MarshalTx (.scr tx)).toOption).map
          (fun buff => (irp.hasher.Compute buff, buff))))).length = visit.length := by
    apply length_filterMap_of_isSome
    intro e he
    obtain ⟨tx, buff, htx, hm⟩ := hv e he
    simp [htx, hm, Except.toOption]
  refine ⟨h1, ?_, h3, ?_⟩
  · rw [h3, List.length_append, hlen, hVisit.length_eq]
  · intro e he tx buff htx hm
    rw [h3, List.drop_left]
    refine List.mem_filterMap.2 ⟨e, hVisit.symm.subset he, ?_⟩
    simp [htx, hm, Except.toOption]

/-- Witness of C21: the four filed results of the scenario, on a store that
refuses every `Put`. -/
theorem SaveCurrentIntermediateTxToStorage_best_effort_witness :
    (∀ key data, scenarioStore.putErr key data ≠ none) ∧
    (scenarioIrpFiled.SaveCurrentIntermediateTxToStorage scenarioStore scenarioFiled).2 = none ∧
    (scenarioIrpFiled.SaveCurrentIntermediateTxToStorage scenarioStore scenarioFiled).1.puts =
      [([7, 1, 1], [1, 1, 7]), ([8, 1, 2], [2, 1, 8]), ([8, 2, 3], [3, 2, 8]),
        ([8, 0, 4], [4, 0, 8])] :=
  have h := SaveCurrentIntermediateTxToStorage_best_effort scenarioIrpFiled scenarioStore
    scenarioFiled (List.Perm.refl _)
    (by
      intro e he
      simp only [scenarioIrpFiled, scenarioFiled, List.mem_cons, List.mem_singleton,
        List.not_mem_nil, or_false] at he
      rcases he with rfl | rfl | rfl | rfl <;> exact ⟨_, _, rfl, rfl⟩)
  ⟨fun _ _ => by simp [scenarioStore], h.1, by rw [h.2.2.1]; rfl⟩

end Persistence

/-! ## The account hooks of the virtual machine -/

section AccountHooks

/-- The assertions of `TestVMAccountsDB_AccountExists*` in vmAccountsDB_test.go,
replayed on the model; `collaborator 9` is the test's "expected error". -/
theorem TestVMAccountsDB_AccountExists :
    (scenarioVadb (.error (.collaborator 9))).AccountExists [] =
      (false, some (.collaborator 9)) ∧
    (scenarioVadb (.error .ErrAccNotFound)).AccountExists [] = (false, none) ∧
    (scenarioVadb (.ok (some ⟨false, 0, 0⟩))).AccountExists [] = (true, none) := by
  decide

theorem getAccountFromAddressBytes_temp {vadb : VMAccountsDB} {address : Bytes}
    {tempAcc : AccountHandler} (h : vadb.tempAccounts.lookup address = some tempAcc) :
    vadb.getAccountFromAddressBytes address = .ok (some tempAcc) := by
  simp [VMAccountsDB.getAccountFromAddressBytes, VMAccountsDB.getAccountFromTemporaryAccounts, h]

theorem getAccountFromAddressBytes_no_temp {vadb : VMAccountsDB} {address : Bytes}
    (h : vadb.tempAccounts.lookup address = none) :
    vadb.getAccountFromAddressBytes address =
      match vadb.addrConv address with
      | .error err => .error err
      | .ok addr => vadb.GetExistingAccount addr := by
  simp [VMAccountsDB.getAccountFromAddressBytes, VMAccountsDB.getAccountFromTemporaryAccounts, h]

/-- C22: `AccountExists` returns (true, nil) when the address has a temporary
account or, without one, when the address converts and the ledger lookup
succeeds; it returns (false, nil) when the ledger lookup fails with
`ErrAccNotFound`, and (false, err), the error passed through verbatim, for
every other failure of the ledger lookup or of the address conversion. The
test for `ErrAccNotFound` is applied to the error of
`getAccountFromAddressBytes`, whichever step it comes from: (false, nil) is
returned exactly when that lookup fails with `ErrAccNotFound`, which is
exactly when the ledger lookup does so provided the address converter does
not itself fail with that error. -/
theorem AccountExists_spec (vadb : VMAccountsDB) (address : Bytes) :
    (∀ tempAcc, vadb.tempAccounts.lookup address = some tempAcc →
      vadb.AccountExists address = (true, none)) ∧
    (vadb.tempAccounts.lookup address = none →
      (∀ addr acc, vadb.addrConv address = .ok addr →
        vadb.GetExistingAccount addr = .ok acc → vadb.AccountExists address = (true, none)) ∧
      (∀ addr, vadb.addrConv address = .ok addr →
        vadb.GetExistingAccount addr = .error .ErrAccNotFound →
        vadb.AccountExists address = (false, none)) ∧
      (∀ addr err, vadb.addrConv address = .ok addr →
        vadb.GetExistingAccount addr = .error err → err ≠ .ErrAccNotFound →
        vadb.AccountExists address = (false, some err)) ∧
      (∀ err, vadb.addrConv address = .error err → err ≠ .ErrAccNotFound →
        vadb.AccountExists address = (false, some err))) ∧
    (vadb.AccountExists address = (false, none) ↔
      vadb.getAccountFromAddressBytes address = .error .ErrAccNotFound) ∧
    (vadb.addrConv address ≠ .error .ErrAccNotFound →
      (vadb.AccountExists address = (false, none) ↔
        vadb.tempAccounts.lookup address = none ∧
          ∃ addr, vadb.addrConv address = .ok addr ∧
            vadb.GetExistingAccount addr = .error .ErrAccNotFound)) := by
  have hiff : vadb.AccountExists address = (false, none) ↔
      vadb.getAccountFromAddressBytes address = .error .ErrAccNotFound := by
    unfold VMAccountsDB.AccountExists
    cases hg : vadb.getAccountFromAddressBytes address with
    | ok acc => simp
    | error err =>
      by_cases he : err = .ErrAccNotFound
      · simp [he]
      · simp [he]
  refine ⟨?_, ?_, hiff, ?_⟩
  · intro tempAcc h
    simp [VMAccountsDB.AccountExists, getAccountFromAddressBytes_temp h]
  · intro h
    refine ⟨?_, ?_, ?_, ?_⟩
    · intro addr acc hc hl
      simp [VMAccountsDB.AccountExists, getAccountFromAddressBytes_no_temp h, hc, hl]
    · intro addr hc hl
      simp [VMAccountsDB.AccountExists, getAccountFromAddressBytes_no_temp h, hc, hl]
    · intro addr err hc hl hne
      simp [VMAccountsDB.AccountExists, getAccountFromAddressBytes_no_temp h, hc, hl, hne]
    · intro err hc hne
      simp [VMAccountsDB.AccountExists, getAccountFromAddressBytes_no_temp h, hc, hne]
  · intro hconv
    rw [hiff]
    cases ht : vadb.tempAccounts.lookup address with
    | some tempAcc => simp [getAccountFromAddressBytes_temp ht]
    | none =>
      rw [getAccountFromAddressBytes_no_temp ht]
      cases hc : vadb.addrConv address with
      | error err =>
        have : err ≠ .ErrAccNotFound := fun e => hconv (by rw [hc, e])
        simp [this]
      | ok addr => simp

/-- Witness of C22: the ledger that answers every lookup with `ErrAccNotFound`,
and the ledger that answers with another error. -/
theorem AccountExists_spec_witness :
    (scenarioVadb (.error .ErrAccNotFound)).AccountExists [] = (false, none) ∧
    (scenarioVadb (.error (.collaborator 9))).AccountExists [] =
      (false, some (.collaborator 9)) :=
  ⟨((AccountExists_spec (scenarioVadb (.error .ErrAccNotFound)) []).2.1 rfl).2.1 [] rfl rfl,
    ((AccountExists_spec (scenarioVadb (.error (.collaborator 9))) []).2.1 rfl).2.2.1 []
      (.collaborator 9) rfl rfl (by decide)⟩

end AccountHooks

/-! ## Creation and verification of the intermediate mini-blocks -/

section CreateAndVerify

theorem verifyBody_skip (irp : intermediateResultsProcessor) (scrMbs : List (Nat × MiniBlock)) :
    ∀ body : List MiniBlock,
      (∀ mb ∈ body, mb.Type_ ≠ irp.blockType ∨
        mb.ReceiverShardID = irp.shardCoordinator.SelfId) →
      irp.verifyBody scrMbs body = none
  | [], _ => rfl
  | mb :: rest, h => by
    have ih := verifyBody_skip irp scrMbs rest (fun x hx => h x (List.mem_cons_of_mem _ hx))
    rw [intermediateResultsProcessor.verifyBody]
    rcases h mb (List.mem_cons_self _ _) with ht | hr
    · rw [if_pos ht]
      exact ih
    · by_cases ht : mb.Type_ ≠ irp.blockType
      · rw [if_pos ht]
        exact ih
      · rw [if_neg ht, if_pos hr]
        exact ih

theorem verifyBody_created (irp : intermediateResultsProcessor) (scrMbs : List (Nat × MiniBlock)) :
    ∀ body : List MiniBlock,
      (∀ mb ∈ body, mb.Type_ = irp.blockType ∧ scrMbs.lookup mb.ReceiverShardID = some mb ∧
        ∃ buff, irp.marshalizer.MarshalMiniBlock mb = .ok buff) →
      irp.verifyBody scrMbs body = none
  | [], _ => rfl
  | mb :: rest, h => by
    have ih := verifyBody_created irp scrMbs rest (fun x hx => h x (List.mem_cons_of_mem _ hx))
    obtain ⟨ht, hl, buff, hb⟩ := h mb (List.mem_cons_self _ _)
    rw [intermediateResultsProcessor.verifyBody]
    have hne : ¬ mb.Type_ ≠ irp.blockType := fun hc => hc ht
    rw [if_neg hne]
    by_cases hr : mb.ReceiverShardID = irp.shardCoordinator.SelfId
    · rw [if_pos hr]
      exact ih
    · rw [if_neg hr]
      simp only [hl, CalculateHash, hb, ne_eq, not_true_eq_false, if_false]
      exact ih

/-- C23 (counterexample): with a marshalizer that refuses mini-blocks (and, as
every function, is deterministic), `VerifyInterMiniBlocks` applied to exactly
the two mini-blocks returned by `CreateAllInterMiniBlocks` returns the
marshalizer's error, not nil. -/
theorem VerifyInterMiniBlocks_created_marshal_error :
    scenarioIrpNoMiniBlockMarshal.CreateAllInterMiniBlocks scenarioFiled =
      some scenarioMiniBlocks ∧
    scenarioIrpNoMiniBlockMarshal.VerifyInterMiniBlocks scenarioFiled
      (scenarioMiniBlocks.map Prod.snd) = some (some (.collaborator 3)) := by
  decide

/-- C23 (amended): round trip of create and verify: for every set of filed
results, `VerifyInterMiniBlocks` applied to a body made of exactly the
mini-blocks returned by `CreateAllInterMiniBlocks`, in any order, returns nil
provided the marshalizer succeeds on each of these mini-blocks (marshalizer and
hasher being functions of their input); the two calls may visit the map in
different orders. -/
theorem VerifyInterMiniBlocks_roundtrip (irp : intermediateResultsProcessor)
    (visit₁ visit₂ : List (Bytes × txInfo)) (created : List (Nat × MiniBlock))
    (body : List MiniBlock)
    (hVisit₁ : visit₁.Perm irp.interResultsForBlock)
    (hVisit₂ : visit₂.Perm irp.interResultsForBlock)
    (hCreate : irp.CreateAllInterMiniBlocks visit₁ = some created)
    (hBody : body.Perm (created.map Prod.snd))
    (hMarshal : ∀ mb ∈ body, ∃ buff, irp.marshalizer.MarshalMiniBlock mb = .ok buff) :
    irp.VerifyInterMiniBlocks visit₂ body = some none := by
  have hperm : visit₁.Perm visit₂ := hVisit₁.trans hVisit₂.symm
  have hc2 : irp.CreateAllInterMiniBlocks visit₂ = some created := by
    rw [← CreateAllInterMiniBlocks_perm irp irp hperm rfl rfl]
    exact hCreate
  unfold intermediateResultsProcessor.VerifyInterMiniBlocks
  rw [hc2]
  simp only [Option.some.injEq]
  apply verifyBody_created
  intro mb hmb
  have hmem : mb ∈ created.map Prod.snd := hBody.subset hmb
  obtain ⟨⟨d, mb'⟩, hdm, rfl⟩ := List.mem_map.1 hmem
  obtain ⟨_, hdesc⟩ := CreateAllInterMiniBlocks_some hCreate
  obtain ⟨_, _, hmbeq⟩ := (hdesc d mb').1 hdm
  have hrecv : mb'.ReceiverShardID = d := by rw [hmbeq]
  have htype : mb'.Type_ = irp.blockType := by rw [hmbeq]
  refine ⟨htype, ?_, hMarshal _ hmb⟩
  simp only
  rw [hrecv]
  exact (CreateAllInterMiniBlocks_lookup hCreate d mb').2 hdm

/-- Witness of C23: the two mini-blocks of the scenario, in reverse order,
verified along another visiting order of the map. -/
theorem VerifyInterMiniBlocks_roundtrip_witness :
    scenarioIrpFiled.CreateAllInterMiniBlocks scenarioFiled = some scenarioMiniBlocks ∧
    scenarioIrpFiled.VerifyInterMiniBlocks scenarioFiled.reverse
      (scenarioMiniBlocks.map Prod.snd).reverse = some none :=
  ⟨by decide,
    VerifyInterMiniBlocks_roundtrip scenarioIrpFiled scenarioFiled scenarioFiled.reverse
      scenarioMiniBlocks (scenarioMiniBlocks.map Prod.snd).reverse (List.Perm.refl _)
      (List.reverse_perm _) (by decide) (List.reverse_perm _) (fun mb _ => ⟨_, rfl⟩)⟩

/-- C24: `VerifyInterMiniBlocks` checks in one direction only: on the empty
body, and on any body that contains no mini-block of the processor's block
type destined to another shard, it returns whatever mini-blocks
`CreateAllInterMiniBlocks` creates from the filed results, nil as soon as that
call returns (which it does when every receiver shard id is the node's or
below `NumberOfShards`): an expected mini-block that is absent from the body
is never reported. -/
theorem VerifyInterMiniBlocks_one_direction (irp : intermediateResultsProcessor)
    (visit : List (Bytes × txInfo)) (body : List MiniBlock)
    (hBody : ∀ mb ∈ body, mb.Type_ ≠ irp.blockType ∨
      mb.ReceiverShardID = irp.shardCoordinator.SelfId) :
    irp.VerifyInterMiniBlocks visit [] =
      (irp.CreateAllInterMiniBlocks visit).map (fun _ => none) ∧
    irp.VerifyInterMiniBlocks visit body =
      (irp.CreateAllInterMiniBlocks visit).map (fun _ => none) ∧
    ((∀ e ∈ visit, e.2.receiverShardID = irp.shardCoordinator.SelfId ∨
        e.2.receiverShardID < irp.shardCoordinator.NumberOfShards) →
      irp.VerifyInterMiniBlocks visit [] = some none ∧
      irp.VerifyInterMiniBlocks visit body = some none) := by
  have hgen : ∀ b : List MiniBlock,
      (∀ mb ∈ b, mb.Type_ ≠ irp.blockType ∨
        mb.ReceiverShardID = irp.shardCoordinator.SelfId) →
      irp.VerifyInterMiniBlocks visit b =
        (irp.CreateAllInterMiniBlocks visit).map (fun _ => none) := by
    intro b hb
    unfold intermediateResultsProcessor.VerifyInterMiniBlocks
    cases hc : irp.CreateAllInterMiniBlocks visit with
    | none => rfl
    | some scrMbs =>
      simp only [Option.map_some']
      rw [verifyBody_skip irp scrMbs b hb]
  have hnil := hgen [] (fun mb hmb => absurd hmb (List.not_mem_nil _))
  refine ⟨hnil, hgen body hBody, ?_⟩
  intro hRange
  have hIdx : ∀ e ∈ visit, e.2.receiverShardID ≠ irp.shardCoordinator.SelfId →
      e.2.receiverShardID < irp.shardCoordinator.NumberOfShards := by
    intro e he hne
    rcases hRange e he with h | h
    · exact absurd h hne
    · exact h
  obtain ⟨finalMBs, hf⟩ := CreateAllInterMiniBlocks_isSome hIdx
  rw [hnil, hgen body hBody, hf]
  exact ⟨rfl, rfl⟩

/-- Witness of C24: with the four filed results of the scenario, for which
`CreateAllInterMiniBlocks` returns two mini-blocks, a body of one mini-block
of another type and one destined to the node's own shard is accepted. -/
theorem VerifyInterMiniBlocks_one_direction_witness :
    scenarioIrpFiled.CreateAllInterMiniBlocks scenarioFiled = some scenarioMiniBlocks ∧
    scenarioIrpFiled.VerifyInterMiniBlocks scenarioFiled [] = some none ∧
    scenarioIrpFiled.VerifyInterMiniBlocks scenarioFiled
      [⟨[[9]], 1, 0, 5⟩, ⟨[[9]], 0, 0, 3⟩] = some none :=
  have h := VerifyInterMiniBlocks_one_direction scenarioIrpFiled scenarioFiled
    [⟨[[9]], 1, 0, 5⟩, ⟨[[9]], 0, 0, 3⟩] (by decide)
  ⟨by decide, (h.2.2 (by decide)).1, (h.2.2 (by decide)).2⟩

/-- C25: `CreateAllInterMiniBlocks` indexes its per-shard slice within bounds
provided every filed result's receiver shard id is either equal to `SelfId` or
strictly less than `NumberOfShards`: under that precondition the call returns,
whatever the order in which `range` visits the map; and the precondition is
needed, a call that returns having met no other receiver shard id. -/
theorem CreateAllInterMiniBlocks_in_bounds (irp : intermediateResultsProcessor)
    (visit : List (Bytes × txInfo)) (hVisit : visit.Perm irp.interResultsForBlock) :
    ((∀ e ∈ irp.interResultsForBlock,
        e.2.receiverShardID = irp.shardCoordinator.SelfId ∨
        e.2.receiverShardID < irp.shardCoordinator.NumberOfShards) →
      ∃ finalMBs, irp.CreateAllInterMiniBlocks visit = some finalMBs) ∧
    (∀ finalMBs, irp.CreateAllInterMiniBlocks visit = some finalMBs →
      ∀ e ∈ irp.interResultsForBlock,
        e.2.receiverShardID = irp.shardCoordinator.SelfId ∨
        e.2.receiverShardID < irp.shardCoordinator.NumberOfShards) := by
  constructor
  · intro hRange
    apply CreateAllInterMiniBlocks_isSome
    intro e he hne
    rcases hRange e (hVisit.subset he) with h | h
    · exact absurd h hne
    · exact h
  · intro finalMBs hc e he
    by_cases hs : e.2.receiverShardID = irp.shardCoordinator.SelfId
    · exact Or.inl hs
    · exact Or.inr ((CreateAllInterMiniBlocks_some hc).1 e (hVisit.symm.subset he) hs)

/-- Witness of C25: the four filed results of the scenario, whose receiver
shards are 1, 1, 2 and the node's own shard 0, among 3 shards; and a map with
a result for shard 7, on which the index is out of range. -/
theorem CreateAllInterMiniBlocks_in_bounds_witness :
    (∃ finalMBs, scenarioIrpFiled.CreateAllInterMiniBlocks scenarioFiled = some finalMBs) ∧
    scenarioIrp.CreateAllInterMiniBlocks [([8, 7, 5], ⟨⟨0, 7⟩, some scrA⟩)] = none :=
  ⟨(CreateAllInterMiniBlocks_in_bounds scenarioIrpFiled scenarioFiled (List.Perm.refl _)).1
    (by decide), by decide⟩

end CreateAndVerify

/-! ## Invariants of the transaction dispatcher -/

section DispatcherInvariants

/-- C26: balance conservation: for every MoveBalance transaction whose sender
and receiver are distinct accounts, both in the local shard, and on which
`ProcessTransaction` returns nil, the sum of the two accounts' balances after
the call equals the sum before it (the sender holds `tx.Value` less, the
receiver `tx.Value` more, and no other balance changes). -/
theorem ProcessTransaction_conserves_balance (txProc : txProcessor) (tx : Transaction)
    (roundIndex : Nat) (adrSrc adrDst : Bytes) (post : AccountsAdapter)
    (hSnd : txProc.adrConv tx.SndAddr = .ok adrSrc)
    (hRcv : txProc.adrConv tx.RcvAddr = .ok adrDst)
    (hType : txProc.scProcessor.ComputeTransactionType tx = .ok .MoveBalance)
    (hDistinct : adrSrc ≠ adrDst)
    (hSrcLocal : txProc.shardCoordinator.ComputeId adrSrc = txProc.shardCoordinator.SelfId)
    (hDstLocal : txProc.shardCoordinator.ComputeId adrDst = txProc.shardCoordinator.SelfId)
    (hOk : txProc.ProcessTransaction (some tx) roundIndex = (post, none)) :
    (post.objects adrSrc).Balance + (post.objects adrDst).Balance =
      (txProc.accounts.objects adrSrc).Balance + (txProc.accounts.objects adrDst).Balance ∧
    (post.objects adrSrc).Balance = (txProc.accounts.objects adrSrc).Balance - tx.Value ∧
    (post.objects adrDst).Balance = (txProc.accounts.objects adrDst).Balance + tx.Value ∧
    ∀ a, a ≠ adrSrc → a ≠ adrDst →
      (post.objects a).Balance = (txProc.accounts.objects a).Balance := by
  obtain ⟨adrSrc', adrDst', acntSnd, txType, hS, hR, _, _, ht, hd⟩ :=
    ProcessTransaction_ok_inv hOk
  rw [hSnd] at hS
  rw [hRcv] at hR
  rw [hType] at ht
  cases hS
  cases hR
  cases ht
  have hmb : txProc.processMoveBalance tx adrSrc adrDst = (post, none) := hd
  have hsrc := processMoveBalance_objects hmb adrSrc
  have hdst := processMoveBalance_objects hmb adrDst
  have hDistinct' : ¬ adrDst = adrSrc := fun e => hDistinct e.symm
  simp only [hDistinct, if_false, true_and, hSrcLocal, if_true] at hsrc
  simp only [hDistinct, hDistinct', if_false, false_and, true_and, hDstLocal, if_true] at hdst
  refine ⟨?_, by rw [hsrc], by rw [hdst], ?_⟩
  · rw [hsrc, hdst]
    simp only
    ring
  · intro a ha1 ha2
    rw [processMoveBalance_objects hmb a]
    simp [hDistinct, ha1, ha2]

/-- Witness of C26: the transfer of 40 from `[1]` to `[2]`, both local. -/
theorem ProcessTransaction_conserves_balance_witness :
    scenarioBothLocal.ProcessTransaction (some scenarioTx) 0 =
      ((scenarioBothLocal.ProcessTransaction (some scenarioTx) 0).1, none) ∧
    ((scenarioBothLocal.ProcessTransaction (some scenarioTx) 0).1.objects [1]).Balance +
      ((scenarioBothLocal.ProcessTransaction (some scenarioTx) 0).1.objects [2]).Balance =
      (scenarioBothLocal.accounts.objects [1]).Balance +
        (scenarioBothLocal.accounts.objects [2]).Balance :=
  ⟨rfl,
    (ProcessTransaction_conserves_balance scenarioBothLocal scenarioTx 0 [1] [2]
      (scenarioBothLocal.ProcessTransaction (some scenarioTx) 0).1 rfl rfl rfl (by decide)
      rfl rfl rfl).1⟩

/-- C27 (counterexample): the self-transfer of the account `[1]`, which stands
at the largest nonce of a `uint64`, returns nil and leaves the account at
nonce 0: `acntSrc.Nonce + 1` wraps. -/
theorem ProcessTransaction_selfTransfer_nonce_wraps :
    (scenarioLastNonce.ProcessTransaction (some scenarioTxSelfLastNonce) 0).2 = none ∧
    (scenarioLastNonce.accounts.objects [1]).Nonce = 2 ^ 64 - 1 ∧
    ((scenarioLastNonce.ProcessTransaction (some scenarioTxSelfLastNonce) 0).1.objects
      [1]).Nonce = 0 ∧
    ((scenarioLastNonce.ProcessTransaction (some scenarioTxSelfLastNonce) 0).1.objects
      [1]).Balance = 100 := by
  decide

/-- C27 (amended): self-transfer: for every MoveBalance transaction whose sender
and receiver address bytes are equal and on which `ProcessTransaction` returns
nil, the single account's balance is unchanged (the same account object is
debited then credited) and its nonce is increased by 1 on `uint64`: by exactly
1 below the largest `uint64`, from which it wraps to 0; no other account
changes. -/
theorem ProcessTransaction_selfTransfer (txProc : txProcessor) (tx : Transaction)
    (roundIndex : Nat) (post : AccountsAdapter)
    (hType : txProc.scProcessor.ComputeTransactionType tx = .ok .MoveBalance)
    (hSame : tx.SndAddr = tx.RcvAddr)
    (hOk : txProc.ProcessTransaction (some tx) roundIndex = (post, none)) :
    ∃ adr, txProc.adrConv tx.SndAddr = .ok adr ∧
      (post.objects adr).Balance = (txProc.accounts.objects adr).Balance ∧
      (post.objects adr).Nonce = ((txProc.accounts.objects adr).Nonce + 1) % 2 ^ 64 ∧
      ((txProc.accounts.objects adr).Nonce + 1 < 2 ^ 64 →
        (post.objects adr).Nonce = (txProc.accounts.objects adr).Nonce + 1) ∧
      ((txProc.accounts.objects adr).Nonce = 2 ^ 64 - 1 → (post.objects adr).Nonce = 0) ∧
      ∀ a, a ≠ adr → post.objects a = txProc.accounts.objects a := by
  obtain ⟨adrSrc, adrDst, acntSnd, txType, hS, hR, _, _, ht, hd⟩ :=
    ProcessTransaction_ok_inv hOk
  rw [hType] at ht
  cases ht
  rw [← hSame, hS] at hR
  cases hR
  have hmb : txProc.processMoveBalance tx adrSrc adrSrc = (post, none) := hd
  have hobj := processMoveBalance_objects hmb
  simp only [if_true] at hobj
  have hn : (post.objects adrSrc).Nonce =
      ((txProc.accounts.objects adrSrc).Nonce + 1) % 2 ^ 64 := by
    rw [hobj adrSrc]
    simp
  refine ⟨adrSrc, hS, ?_, hn, ?_, ?_, ?_⟩
  · rw [hobj adrSrc]
    simp
  · intro hlt
    rw [hn, Nat.mod_eq_of_lt hlt]
  · intro hmax
    rw [hn, hmax]
    norm_num
  · intro a ha
    rw [hobj a]
    simp [ha]

/-- Witness of C27: the self-transfer of 40 by the account `[1]` at nonce 7. -/
theorem ProcessTransaction_selfTransfer_witness :
    scenarioBothLocal.ProcessTransaction (some scenarioTxSelf) 0 =
      ((scenarioBothLocal.ProcessTransaction (some scenarioTxSelf) 0).1, none) ∧
    ((scenarioBothLocal.ProcessTransaction (some scenarioTxSelf) 0).1.objects [1]).Balance =
      100 ∧
    ((scenarioBothLocal.ProcessTransaction (some scenarioTxSelf) 0).1.objects [1]).Nonce = 8 ∧
    ∃ adr, scenarioBothLocal.adrConv scenarioTxSelf.SndAddr = .ok adr ∧
      ((scenarioBothLocal.ProcessTransaction (some scenarioTxSelf) 0).1.objects adr).Balance =
        (scenarioBothLocal.accounts.objects adr).Balance :=
  ⟨rfl, by decide, by decide,
    (ProcessTransaction_selfTransfer scenarioBothLocal scenarioTxSelf 0
      (scenarioBothLocal.ProcessTransaction (some scenarioTxSelf) 0).1 rfl rfl rfl).imp
      fun _ h => ⟨h.1, h.2.1⟩⟩

theorem processMoveBalance_error_ledger {txProc : txProcessor} {tx : Transaction}
    {adrSrc adrDst : Bytes} {post : AccountsAdapter} {e : ProcessError}
    (h : txProc.processMoveBalance tx adrSrc adrDst = (post, some e)) :
    post = txProc.accounts ∨ ∃ a, txProc.accounts.saveErr a = some e := by
  unfold txProcessor.processMoveBalance at h
  cases hg : txProc.getAccounts adrSrc adrDst with
  | error e1 =>
    simp only [hg, Prod.mk.injEq] at h
    exact Or.inl h.1.symm
  | ok pr =>
    obtain ⟨acntSrc, acntDst⟩ := pr
    simp only [hg] at h
    cases hm : moveBalances txProc.accounts acntSrc acntDst tx.Value with
    | mk mid err =>
      rw [hm] at h
      cases err with
      | some e1 =>
        simp only [Prod.mk.injEq, Option.some.injEq] at h
        rw [← h.2]
        exact Or.inr (moveBalances_error hm)
      | none =>
        cases acntSrc with
        | none => simp at h
        | some src =>
          simp only [increaseNonce] at h
          refine Or.inr ⟨src, ?_⟩
          rw [← moveBalances_saveErr hm]
          exact SetNonceWithJournal_error h

/-- C28 (counterexample): `ProcessTransaction` returns `ErrInsufficientFunds`
after a write. With both accounts local, the sender `[1]` is debited from 100
to 60 and the adapter then refuses the credit of `[2]` with that error; and a
contract processor that charges the gas to the sender `[1]` and then refuses
the call leaves it at 90. In both cases the validation itself passed. -/
theorem ProcessTransaction_validation_error_after_write :
    scenarioCreditRefused.checkTxValues scenarioTx (some [1]) = none ∧
    (scenarioCreditRefused.ProcessTransaction (some scenarioTx) 0).2 =
      some .ErrInsufficientFunds ∧
    (scenarioCreditRefused.accounts.objects [1]).Balance = 100 ∧
    ((scenarioCreditRefused.ProcessTransaction (some scenarioTx) 0).1.objects [1]).Balance =
      60 ∧
    scenarioSenderLocalCharging.checkTxValues scenarioTx (some [1]) = none ∧
    (scenarioSenderLocalCharging.ProcessTransaction (some scenarioTx) 0).2 =
      some .ErrInsufficientFunds ∧
    (scenarioSenderLocalCharging.accounts.objects [1]).Balance = 100 ∧
    ((scenarioSenderLocalCharging.ProcessTransaction (some scenarioTx) 0).1.objects
      [1]).Balance = 90 := by
  decide

/-- C28 (amended): atomicity of validation failures: `ProcessTransaction` returns
`ErrNilTransaction` for the nil transaction and the error of `checkTxValues`
(`ErrHigherNonceInTransaction`, `ErrLowerNonceInTransaction`,
`ErrInsufficientFunds`) before any write, with the ledger as it was; so
whenever it returns one of these four errors no account's balance or nonce
differs from its value before the call, unless it is a collaborator that
handed that error back after a change of its own (the contract processor from
`DeploySmartContract` or `ExecuteSmartContractTransaction`, or the accounts
adapter from a journalled write). -/
theorem ProcessTransaction_validation_atomic (txProc : txProcessor) (roundIndex : Nat) :
    txProc.ProcessTransaction none roundIndex = (txProc.accounts, some .ErrNilTransaction) ∧
    (∀ tx adrSrc adrDst acntSnd err,
      txProc.adrConv tx.SndAddr = .ok adrSrc → txProc.adrConv tx.RcvAddr = .ok adrDst →
      txProc.getAccountFromAddress adrSrc = .ok acntSnd →
      txProc.checkTxValues tx acntSnd = some err →
      txProc.ProcessTransaction (some tx) roundIndex = (txProc.accounts, some err)) ∧
    (∀ tx,
      (∀ p e, (txProc.scProcessor.DeploySmartContract txProc.accounts tx p roundIndex).2 =
        some e → ¬ isValidationError e) →
      (∀ s d e,
        (txProc.scProcessor.ExecuteSmartContractTransaction txProc.accounts tx s d
          roundIndex).2 = some e → ¬ isValidationError e) →
      (∀ a e, txProc.accounts.saveErr a = some e → ¬ isValidationError e) →
      ∀ err, isValidationError err →
        (txProc.ProcessTransaction (some tx) roundIndex).2 = some err →
        (txProc.ProcessTransaction (some tx) roundIndex).1 = txProc.accounts) := by
  refine ⟨rfl, ?_, ?_⟩
  · intro tx adrSrc adrDst acntSnd err hS hR hga hc
    rw [ProcessTransaction_unfold txProc tx roundIndex adrSrc adrDst hS hR, hga]
    simp only [hc]
  · intro tx hDeploy hExec hSave err hval herr
    cases hS : txProc.adrConv tx.SndAddr with
    | error e => simp [txProcessor.ProcessTransaction, txProcessor.getAddresses, hS]
    | ok adrSrc =>
      cases hR : txProc.adrConv tx.RcvAddr with
      | error e => simp [txProcessor.ProcessTransaction, txProcessor.getAddresses, hS, hR]
      | ok adrDst =>
        rw [ProcessTransaction_unfold txProc tx roundIndex adrSrc adrDst hS hR] at herr ⊢
        cases hga : txProc.getAccountFromAddress adrSrc with
        | error e => rfl
        | ok acntSnd =>
          simp only [hga] at herr ⊢
          cases hc : txProc.checkTxValues tx acntSnd with
          | some e => rfl
          | none =>
            simp only [hc] at herr ⊢
            cases ht : txProc.scProcessor.ComputeTransactionType tx with
            | error e => rfl
            | ok txType =>
              simp only [ht] at herr ⊢
              cases txType with
              | MoveBalance =>
                have hmb : txProc.processMoveBalance tx adrSrc adrDst =
                    ((txProc.processMoveBalance tx adrSrc adrDst).1, some err) := by
                  rw [← herr]; rfl
                rcases processMoveBalance_error_ledger hmb with h1 | ⟨a, h1⟩
                · exact h1
                · exact absurd hval (hSave a err h1)
              | SCDeployment =>
                simp only [txProcessor.dispatch, txProcessor.processSCDeployment, hga] at herr ⊢
                exact absurd hval (hDeploy _ err herr)
              | SCInvoking =>
                simp only [txProcessor.dispatch, txProcessor.processSCInvoking] at herr ⊢
                cases hg : txProc.getAccounts adrSrc adrDst with
                | error e => rfl
                | ok pr =>
                  obtain ⟨s, d⟩ := pr
                  simp only [hg] at herr ⊢
                  exact absurd hval (hExec s d err herr)
              | InvalidTransaction => rfl

/-- Witness of C28: the transfer that the sender `[1]` cannot pay, on the node
where `[1]` is local. -/
theorem ProcessTransaction_validation_atomic_witness :
    scenarioSenderLocal.ProcessTransaction (some scenarioTxTooDear) 0 =
      (scenarioSenderLocal.accounts, some .ErrInsufficientFunds) ∧
    (scenarioSenderLocal.ProcessTransaction (some scenarioTxTooDear) 0).1 =
      scenarioSenderLocal.accounts :=
  have h := ProcessTransaction_validation_atomic scenarioSenderLocal 0
  ⟨h.2.1 scenarioTxTooDear [1] [2] (some [1]) .ErrInsufficientFunds rfl rfl rfl rfl,
    h.2.2 scenarioTxTooDear (by intro p e he; cases he) (by intro s d e he; cases he)
      (by intro a e he; cases he) .ErrInsufficientFunds (Or.inr (Or.inr (Or.inr rfl))) rfl⟩

/-- C29: the cost that `checkTxValues` compares against the sender's balance is
the exact integer `gasPrice * gasLimit + value`, never reduced modulo 2^64: for
a local sender whose nonce is the transaction's and whose account object is a
`*state.Account`, with a cost other than 0, `checkTxValues` returns
`ErrInsufficientFunds` exactly when the balance is below that integer, and
`ProcessTransaction` then returns it with the ledger as it was. -/
theorem ProcessTransaction_exact_cost (txProc : txProcessor) (tx : Transaction)
    (roundIndex : Nat) (adrSrc adrDst : Bytes)
    (hSnd : txProc.adrConv tx.SndAddr = .ok adrSrc)
    (hRcv : txProc.adrConv tx.RcvAddr = .ok adrDst)
    (hLocal : txProc.shardCoordinator.ComputeId adrSrc = txProc.shardCoordinator.SelfId)
    (hGet : txProc.accounts.getErr adrSrc = none)
    (hNonce : (txProc.accounts.objects adrSrc).Nonce = tx.Nonce)
    (hAccount : (txProc.accounts.objects adrSrc).isAccount = true)
    (hCost : (tx.GasPrice : Int) * (tx.GasLimit : Int) + tx.Value ≠ 0) :
    (txProc.checkTxValues tx (some adrSrc) = some .ErrInsufficientFunds ↔
      (txProc.accounts.objects adrSrc).Balance <
        (tx.GasPrice : Int) * (tx.GasLimit : Int) + tx.Value) ∧
    ((txProc.accounts.objects adrSrc).Balance <
        (tx.GasPrice : Int) * (tx.GasLimit : Int) + tx.Value →
      txProc.ProcessTransaction (some tx) roundIndex =
        (txProc.accounts, some .ErrInsufficientFunds)) ∧
    (tx.GasPrice = 2 ^ 32 → tx.GasLimit = 2 ^ 32 → tx.Value = 0 →
      (txProc.accounts.objects adrSrc).Balance < 2 ^ 64 →
      txProc.ProcessTransaction (some tx) roundIndex =
        (txProc.accounts, some .ErrInsufficientFunds)) := by
  have hcheck : txProc.checkTxValues tx (some adrSrc) =
      if (txProc.accounts.objects adrSrc).Balance <
          (tx.GasPrice : Int) * (tx.GasLimit : Int) + tx.Value
      then some .ErrInsufficientFunds else none := by
    unfold txProcessor.checkTxValues
    simp only [hNonce, lt_self_iff_false, if_false, gt_iff_lt, hCost, hAccount,
      Bool.true_eq_false]
  have hrun : (txProc.accounts.objects adrSrc).Balance <
        (tx.GasPrice : Int) * (tx.GasLimit : Int) + tx.Value →
      txProc.ProcessTransaction (some tx) roundIndex =
        (txProc.accounts, some .ErrInsufficientFunds) := by
    intro hlt
    rw [ProcessTransaction_unfold txProc tx roundIndex adrSrc adrDst hSnd hRcv,
      getAccountFromAddress_local hLocal hGet]
    simp only [hcheck, hlt, if_true]
  refine ⟨?_, hrun, ?_⟩
  · rw [hcheck]
    split_ifs with h
    · simp [h]
    · simp [h]
  · intro hp hl hv hb
    apply hrun
    rw [hp, hl, hv]
    norm_num
    exact hb

/-- Witness of C29: `gasPrice = gasLimit = 2^32` and value 0 for the local sender
`[1]` with balance 100: the cost is 2^64, although the product reduced modulo
2^64 is 0. -/
theorem ProcessTransaction_exact_cost_witness :
    (scenarioTxLargeGas.GasPrice * scenarioTxLargeGas.GasLimit) % 2 ^ 64 = 0 ∧
    (scenarioSenderLocal.accounts.objects [1]).Balance = 100 ∧
    scenarioSenderLocal.ProcessTransaction (some scenarioTxLargeGas) 0 =
      (scenarioSenderLocal.accounts, some .ErrInsufficientFunds) :=
  ⟨by decide, rfl,
    (ProcessTransaction_exact_cost scenarioSenderLocal scenarioTxLargeGas 0 [1] [2] rfl rfl rfl
      rfl rfl rfl (by decide)).2.1 (by decide)⟩

end DispatcherInvariants

/-! ## The first failing element of a batch -/

section FirstFailure

theorem errorOf_setRegistry (irp : intermediateResultsProcessor) (m : List (Bytes × txInfo)) :
    intermediateResultsProcessor.errorOf { irp with interResultsForBlock := m } = irp.errorOf :=
  rfl

theorem errorOf_eq_none_iff (irp : intermediateResultsProcessor) (tx : TransactionHandler) :
    irp.errorOf tx = none ↔ (irp.entryOf tx).isSome = true := by
  unfold intermediateResultsProcessor.errorOf intermediateResultsProcessor.entryOf
  cases tx with
  | other t => simp
  | scr addScr =>
    simp only
    cases hh : CalculateHash irp.marshalizer.MarshalTx irp.hasher (.scr addScr) with
    | error err => simp
    | ok scrHash =>
      simp only
      rcases hs : irp.getShardIdsFromAddresses addScr.SndAddr addScr.RcvAddr with ⟨s, d, err⟩
      cases err <;> simp

theorem AddIntermediateTransactions_cons_error {irp : intermediateResultsProcessor}
    {tx : TransactionHandler} (rest : List TransactionHandler) {err : ProcessError}
    (h : irp.errorOf tx = some err) :
    irp.AddIntermediateTransactions (tx :: rest) = (irp, some err) := by
  unfold intermediateResultsProcessor.errorOf at h
  unfold intermediateResultsProcessor.AddIntermediateTransactions
  cases tx with
  | other t =>
    simp only [Option.some.injEq] at h
    rw [← h]
  | scr addScr =>
    simp only at h ⊢
    cases hh : CalculateHash irp.marshalizer.MarshalTx irp.hasher (.scr addScr) with
    | error e =>
      simp only [hh, Option.some.injEq] at h
      rw [← h]
    | ok scrHash =>
      simp only [hh] at h ⊢
      rcases hs : irp.getShardIdsFromAddresses addScr.SndAddr addScr.RcvAddr with ⟨s, d, e⟩
      simp only [hs] at h
      subst h
      rfl

theorem keys_mapSet (m : List (Bytes × txInfo)) (key : Bytes) (value : txInfo) (k : Bytes) :
    k ∈ (mapSet m key value).map Prod.fst ↔ k = key ∨ k ∈ m.map Prod.fst := by
  simp only [List.mem_map, mem_mapSet]
  constructor
  · rintro ⟨e, (⟨hm, _⟩ | he), rfl⟩
    · exact Or.inr ⟨e, hm, rfl⟩
    · exact Or.inl (by rw [he])
  · rintro (rfl | ⟨e, hm, rfl⟩)
    · exact ⟨(k, value), Or.inr rfl, rfl⟩
    · by_cases hk : e.1 = key
      · exact ⟨(key, value), Or.inr rfl, hk.symm⟩
      · exact ⟨e, Or.inl ⟨hm, hk⟩, rfl⟩

theorem keys_foldl_mapSet :
    ∀ (es m : List (Bytes × txInfo)) (k : Bytes),
      k ∈ (es.foldl (fun m e => mapSet m e.1 e.2) m).map Prod.fst ↔
        k ∈ es.map Prod.fst ∨ k ∈ m.map Prod.fst
  | [], _, _ => by simp
  | a :: r, m, k => by
    rw [List.foldl_cons, keys_foldl_mapSet r _ k, keys_mapSet, List.map_cons, List.mem_cons]
    tauto

theorem AddIntermediateTransactions_stops :
    ∀ (txs : List TransactionHandler) (irp : intermediateResultsProcessor) (i : Nat)
      (hi : i < txs.length) (err : ProcessError),
      (∀ tx ∈ txs.take i, irp.errorOf tx = none) →
      irp.errorOf (txs.get ⟨i, hi⟩) = some err →
      irp.AddIntermediateTransactions txs =
        ({ irp with
            interResultsForBlock :=
              ((txs.take i).filterMap irp.entryOf).foldl (fun m e => mapSet m e.1 e.2)
                irp.interResultsForBlock }, some err)
  | [], _, _, hi, _, _, _ => absurd hi (Nat.not_lt_zero _)
  | tx :: rest, irp, 0, _, err, _, hFail => by
    have hFail0 : irp.errorOf tx = some err := hFail
    rw [AddIntermediateTransactions_cons_error rest hFail0]
    rfl
  | tx :: rest, irp, i + 1, hi, err, hBefore, hFail => by
    have h0 : irp.errorOf tx = none := hBefore tx (by simp)
    have hsome := (errorOf_eq_none_iff irp tx).1 h0
    obtain ⟨e, he⟩ := Option.isSome_iff_exists.1 hsome
    rw [AddIntermediateTransactions_cons_some rest he,
      AddIntermediateTransactions_stops rest _ i (Nat.lt_of_succ_lt_succ hi) err
        (fun t ht => by
          rw [errorOf_setRegistry]
          exact hBefore t (by simp [List.take_succ_cons, ht]))
        (by rw [errorOf_setRegistry]; exact hFail),
      entryOf_setRegistry]
    simp [List.take_succ_cons, List.filterMap_cons, he]

/-- C30: `AddIntermediateTransactions` is not atomic on failure: if the element
at index `i` is the first that fails (wrong type, hashing error or
address-conversion error), the call returns that error; the registry it leaves
is the one before the call with the entries of the elements at indices below
`i` set in order, so each of these elements remains filed under its hash, and
every key of the registry was there before the call or is the hash of an
element at an index below `i`: no element at index `i` or above is filed. -/
theorem AddIntermediateTransactions_not_atomic (irp : intermediateResultsProcessor)
    (txs : List TransactionHandler) (i : Nat) (hi : i < txs.length) (err : ProcessError)
    (hBefore : ∀ tx ∈ txs.take i, irp.errorOf tx = none)
    (hFail : irp.errorOf (txs.get ⟨i, hi⟩) = some err) :
    (irp.AddIntermediateTransactions txs).2 = some err ∧
    (irp.AddIntermediateTransactions txs).1 =
      { irp with
        interResultsForBlock :=
          ((txs.take i).filterMap irp.entryOf).foldl (fun m e => mapSet m e.1 e.2)
            irp.interResultsForBlock } ∧
    (∀ tx ∈ txs.take i, ∃ e, irp.entryOf tx = some e ∧
      e.1 ∈ (irp.AddIntermediateTransactions txs).1.interResultsForBlock.map Prod.fst) ∧
    (∀ k ∈ (irp.AddIntermediateTransactions txs).1.interResultsForBlock.map Prod.fst,
      k ∈ irp.interResultsForBlock.map Prod.fst ∨
        ∃ tx ∈ txs.take i, ∃ e, irp.entryOf tx = some e ∧ e.1 = k) ∧
    (i = 0 → (irp.AddIntermediateTransactions txs).1 = irp) := by
  have hrun := AddIntermediateTransactions_stops txs irp i hi err hBefore hFail
  rw [hrun]
  refine ⟨rfl, rfl, ?_, ?_, ?_⟩
  · intro tx htx
    obtain ⟨e, he⟩ :=
      Option.isSome_iff_exists.1 ((errorOf_eq_none_iff irp tx).1 (hBefore tx htx))
    refine ⟨e, he, ?_⟩
    rw [keys_foldl_mapSet]
    exact Or.inl (List.mem_map.2 ⟨e, List.mem_filterMap.2 ⟨tx, htx, he⟩, rfl⟩)
  · intro k hk
    rw [keys_foldl_mapSet] at hk
    rcases hk with hk | hk
    · obtain ⟨e, he, rfl⟩ := List.mem_map.1 hk
      obtain ⟨tx, htx, hte⟩ := List.mem_filterMap.1 he
      exact Or.inr ⟨tx, htx, e, hte, rfl⟩
    · exact Or.inl hk
  · intro h0
    subst h0
    rfl

/-- Witness of C30: the batch `scrA`, `scrB`, a plain transaction, `scrC` on the
empty registry: the call fails on the third element with `scrA` and `scrB`
filed and `scrC` not. -/
theorem AddIntermediateTransactions_not_atomic_witness :
    (scenarioIrp.AddIntermediateTransactions
      [.scr scrA, .scr scrB, .other scenarioTx, .scr scrC]).2 = some .ErrWrongTypeAssertion ∧
    (scenarioIrp.AddIntermediateTransactions
      [.scr scrA, .scr scrB, .other scenarioTx, .scr scrC]).1.interResultsForBlock =
      [([7, 1, 1], ⟨⟨0, 1⟩, some scrA⟩), ([8, 1, 2], ⟨⟨0, 1⟩, some scrB⟩)] :=
  have h := AddIntermediateTransactions_not_atomic scenarioIrp
    [.scr scrA, .scr scrB, .other scenarioTx, .scr scrC] 2 (by decide) .ErrWrongTypeAssertion
    (by
      intro tx htx
      simp only [List.take, List.mem_cons, List.mem_singleton, List.not_mem_nil, or_false] at htx
      rcases htx with rfl | rfl <;> rfl)
    rfl
  ⟨h.1, by rw [h.2.1]; rfl⟩

end FirstFailure

end Elrond
